import Mathlib

/-! OrderBookDB.

A shallow embedding of `src/cpp/ripple/OrderBookDB.cpp`: the versioned order-book
index (`OrderBookDB::setup`, `invalidate`, the two lookups), the listener registry
(`makeBookListeners`, `getBookListeners`), the transaction router (`processTxn`) and
the per-book subscriber registry (`BookListeners`).

Conventions.
* `uint160`, `uint256`, `uint64`, `uint32` are natural numbers; only equality and the
  test against zero are used by the code, so no wrap-around is involved.
* C++ objects reached through `shared_ptr` and mutated in place (`BookListeners`) live
  in a heap indexed by handle; `OrderBook` objects are immutable and are values.
* A C++ exception is an explicit result (`Option` for a read, `Completion` for a call).
* What is declared outside this file is a parameter (`Ledger::getBookBase`, the behaviour
  of a typed read of an absent ledger-entry field) or is modelled from the specification
  (the ledger cursor).
* Locks, logging and the job-queue load event are left out; every call runs to its end
  before the next one starts.
-/

namespace Stellard

/-! ## Identifiers and ledger entries -/

abbrev uint160 := Nat
abbrev uint256 := Nat
abbrev uint64 := Nat
abbrev uint32 := Nat

/-- Ledger entry types; `OrderBookDB.cpp` names `ltDIR_NODE` and `ltOFFER`. -/
inductive LedgerEntryType where
  | ltACCOUNT_ROOT
  | ltDIR_NODE
  | ltRIPPLE_STATE
  | ltOFFER
  deriving DecidableEq, Repr

/-- What a typed read (`getFieldH256`, `getFieldH160`) of a field that a ledger entry does
not carry does. The readers are declared outside `OrderBookDB.cpp` and `setup` has no
handler around them, so this is a parameter of the model: either the read throws
(`raises`, what the handler in `processTxn` expects of metadata reads) or it returns the
all-zero value (`yieldsZero`). -/
inductive AbsentRead where
  | raises
  | yieldsZero
  deriving DecidableEq, Repr

/-- A serialized ledger entry (`SLE`), reduced to what `setup` reads: its type and the
optional fields of a directory node. -/
structure SLE where
  type : LedgerEntryType
  sfExchangeRate : Option uint64
  sfRootIndex : Option uint256
  sfTakerPaysCurrency : Option uint160
  sfTakerPaysIssuer : Option uint160
  sfTakerGetsCurrency : Option uint160
  sfTakerGetsIssuer : Option uint160
  deriving DecidableEq, Repr

def SLE.getType (entry : SLE) : LedgerEntryType := entry.type

/-- `isFieldPresent`: whether the entry carries the field. -/
def isFieldPresent {α : Type} (field : Option α) : Bool := field.isSome

/-- `getFieldH256`: `none` stands for the thrown exception. -/
def getFieldH256 (pol : AbsentRead) (field : Option uint256) : Option uint256 :=
  match field with
  | some v => some v
  | none =>
    match pol with
    | .raises => none
    | .yieldsZero => some 0

/-- `getFieldH160`: `none` stands for the thrown exception. -/
def getFieldH160 (pol : AbsentRead) (field : Option uint160) : Option uint160 :=
  match field with
  | some v => some v
  | none =>
    match pol with
    | .raises => none
    | .yieldsZero => some 0

/-! ## The ledger cursor -/

/-- Modelled from the spec: the ledger class is not in `OrderBookDB.cpp`. The spec gives
it as a snapshot whose entries are enumerated by a sequential cursor; here it is the
sequence number together with the state entries, each under its key, in ascending key
order, the all-zero key being the end marker of the cursor and so never a key. -/
structure Ledger where
  mLedgerSeq : uint32
  mAccountState : List (uint256 × SLE)
  ascending : List.Pairwise (fun a b => a < b) (0 :: mAccountState.map Prod.fst)

def Ledger.getLedgerSeq (ledger : Ledger) : uint32 := ledger.mLedgerSeq

/-- The key of the first entry of a key-ordered state, zero when there is none. -/
def firstIndex : List (uint256 × SLE) → uint256
  | [] => 0
  | p :: _ => p.1

/-- The first key after `index` in a key-ordered state, zero when there is none. -/
def nextIndex : List (uint256 × SLE) → uint256 → uint256
  | [], _ => 0
  | p :: rest, index => if index < p.1 then p.1 else nextIndex rest index

/-- The entry stored under `index`, `none` for the null pointer. -/
def findSLE : List (uint256 × SLE) → uint256 → Option SLE
  | [], _ => none
  | p :: rest, index => if p.1 = index then some p.2 else findSLE rest index

/-- Modelled from the spec: `Ledger::getFirstLedgerIndex`, the cursor's start. -/
def Ledger.getFirstLedgerIndex (ledger : Ledger) : uint256 :=
  firstIndex ledger.mAccountState

/-- Modelled from the spec: `Ledger::getNextLedgerIndex`, the cursor's advance. -/
def Ledger.getNextLedgerIndex (ledger : Ledger) (index : uint256) : uint256 :=
  nextIndex ledger.mAccountState index

/-- Modelled from the spec: `Ledger::getSLEi`, the entry under a key. -/
def Ledger.getSLEi (ledger : Ledger) (index : uint256) : Option SLE :=
  findSLE ledger.mAccountState index

/-- The ledger without the entry under `index`; the remaining entries keep their order. -/
def Ledger.erase (ledger : Ledger) (index : uint256) : Ledger :=
  { mLedgerSeq := ledger.mLedgerSeq,
    mAccountState := ledger.mAccountState.filter (fun p => decide (p.1 ≠ index)),
    ascending := by
      have h := ledger.ascending
      rw [List.pairwise_cons] at h ⊢
      refine ⟨fun a ha => h.1 a ?_, h.2.sublist ((List.filter_sublist _).map Prod.fst)⟩
      obtain ⟨p, hp, hpa⟩ := List.mem_map.mp ha
      exact List.mem_map.mpr ⟨p, (List.mem_filter.mp hp).1, hpa⟩ }

/-! ## Books and the two directional maps -/

/-- An order book as built by `OrderBook(index, ci, co, ii, io)`. -/
structure OrderBook where
  mBookBase : uint256
  mCurrencyIn : uint160
  mCurrencyOut : uint160
  mIssuerIn : uint160
  mIssuerOut : uint160
  deriving DecidableEq, Repr

/-- The pair `currencyIssuer_t`: (currency, issuer). -/
abbrev currencyIssuer_t := uint160 × uint160

def currencyIssuer_ct (currency issuer : uint160) : currencyIssuer_t := (currency, issuer)

/-- The method `find` of a map: the value stored under `key`, if any. -/
def mapFind {κ ν : Type} [DecidableEq κ] : List (κ × ν) → κ → Option ν
  | [], _ => none
  | (k, v) :: rest, key => if k = key then some v else mapFind rest key

/-- The assignment `m[key] = v`: overwrite the value under `key`, or insert it. -/
def mapSet {κ ν : Type} [DecidableEq κ] : List (κ × ν) → κ → ν → List (κ × ν)
  | [], key, v => [(key, v)]
  | (k, x) :: rest, key, v =>
    if k = key then (k, v) :: rest else (k, x) :: mapSet rest key v

/-- The method `erase(key)` of a map. -/
def mapErase {κ ν : Type} [DecidableEq κ] : List (κ × ν) → κ → List (κ × ν)
  | [], _ => []
  | (k, x) :: rest, key =>
    if k = key then mapErase rest key else (k, x) :: mapErase rest key

/-- The type `unordered_map<currencyIssuer_t, vector<OrderBook::pointer>>`. -/
abbrev BookMap := List (currencyIssuer_t × List OrderBook)

instance : DecidableEq BookMap :=
  inferInstanceAs (DecidableEq (List ((Nat × Nat) × List OrderBook)))

/-- The statement `m[key].push_back(book)`: `operator[]` yields the stored vector, or a
new empty one, and the book is appended to it. -/
def pushBack (m : BookMap) (key : currencyIssuer_t) (book : OrderBook) : BookMap :=
  mapSet m key ((mapFind m key).getD [] ++ [book])

/-- Handle of a `BookListeners` object (`BookListeners::pointer`). -/
abbrev BookListenersPtr := Nat

/-- Innermost level of `mListeners`: currencyGets to the registry handle. -/
abbrev ListenerMap1 := List (uint160 × BookListenersPtr)

/-- Third level of `mListeners`: keyed by currencyPays. -/
abbrev ListenerMap2 := List (uint160 × ListenerMap1)

/-- Second level of `mListeners`: keyed by issuerGets. -/
abbrev ListenerMap3 := List (uint160 × ListenerMap2)

/-- The member `mListeners` of `OrderBookDB`: four nested maps, keyed by issuerPays,
issuerGets, currencyPays, currencyGets in that order. -/
abbrev ListenerTree := List (uint160 × ListenerMap3)

instance decEqListenerMap1 : DecidableEq ListenerMap1 :=
  inferInstanceAs (DecidableEq (List (Nat × Nat)))

instance decEqListenerMap2 : DecidableEq ListenerMap2 :=
  @List.hasDecEq _ (@instDecidableEqProd _ _ _ decEqListenerMap1)

instance decEqListenerMap3 : DecidableEq ListenerMap3 :=
  @List.hasDecEq _ (@instDecidableEqProd _ _ _ decEqListenerMap2)

instance decEqListenerTree : DecidableEq ListenerTree :=
  @List.hasDecEq _ (@instDecidableEqProd _ _ _ decEqListenerMap3)

/-- The members of `OrderBookDB`. -/
structure OrderBookDB where
  mSeq : uint32
  mSourceMap : BookMap
  mDestMap : BookMap
  mListeners : ListenerTree
  deriving DecidableEq, Repr

/-- The constructor `OrderBookDB::OrderBookDB() : mSeq(0)`. -/
def OrderBookDB.new : OrderBookDB :=
  { mSeq := 0, mSourceMap := [], mDestMap := [], mListeners := [] }

/-- The method `OrderBookDB::invalidate`. -/
def OrderBookDB.invalidate (db : OrderBookDB) : OrderBookDB :=
  { db with mSeq := 0 }

/-- How a call ended: by returning, or by an exception leaving it. -/
inductive Completion where
  | returned
  | raised
  deriving DecidableEq, Repr

/-- `Ledger::getBookBase(ci, ii, co, io)`, declared outside `OrderBookDB.cpp`: a
parameter of the model. -/
abbrev BookBase := uint160 → uint160 → uint160 → uint160 → uint256

/-- The book base separates 4-tuples: equal bases come from equal 4-tuples only. -/
def BookBase.Injective (getBookBase : BookBase) : Prop :=
  ∀ ci ii co io ci2 ii2 co2 io2,
    getBookBase ci ii co io = getBookBase ci2 ii2 co2 io2 →
      ci = ci2 ∧ ii = ii2 ∧ co = co2 ∧ io = io2

/-- One pass through the body of the `while` loop of `setup` (lines 41-59) for the entry
under `currentIndex`. `none` stands for an exception thrown by a field read; all reads
come before the first update, so the state is then as it was before the pass. -/
def setupVisit (getBookBase : BookBase) (pol : AbsentRead) (currentIndex : uint256)
    (entry : SLE) (db : OrderBookDB) (mSeen : List uint256) :
    Option (OrderBookDB × List uint256) :=
  if entry.getType = LedgerEntryType.ltDIR_NODE ∧ isFieldPresent entry.sfExchangeRate = true then
    match getFieldH256 pol entry.sfRootIndex with
    | none => none
    | some root =>
      if root = currentIndex then
        match getFieldH160 pol entry.sfTakerPaysCurrency,
              getFieldH160 pol entry.sfTakerGetsCurrency,
              getFieldH160 pol entry.sfTakerPaysIssuer,
              getFieldH160 pol entry.sfTakerGetsIssuer with
        | some ci, some co, some ii, some io =>
          let index := getBookBase ci ii co io
          if index ∈ mSeen then some (db, mSeen)
          else
            let book : OrderBook := ⟨index, ci, co, ii, io⟩
            some ({ db with
                    mSourceMap := pushBack db.mSourceMap (currencyIssuer_ct ci ii) book
                    mDestMap := pushBack db.mDestMap (currencyIssuer_ct co io) book },
                  index :: mSeen)
        | _, _, _, _ => none
      else some (db, mSeen)
  else some (db, mSeen)

/-- The `while (currentIndex.isNonZero())` loop of `setup`. The first argument bounds the
number of iterations; `none` means the bound was reached. A null entry pointer is
dereferenced by the code; that is reported as `raised`. -/
def setupLoop (getBookBase : BookBase) (pol : AbsentRead) (ledger : Ledger) :
    Nat → uint256 → OrderBookDB → List uint256 → Option (OrderBookDB × Completion)
  | 0, _, _, _ => none
  | fuel + 1, currentIndex, db, mSeen =>
    if currentIndex ≠ 0 then
      match ledger.getSLEi currentIndex with
      | none => some (db, Completion.raised)
      | some entry =>
        match setupVisit getBookBase pol currentIndex entry db mSeen with
        | none => some (db, Completion.raised)
        | some (db1, mSeen1) =>
          setupLoop getBookBase pol ledger fuel (ledger.getNextLedgerIndex currentIndex)
            db1 mSeen1
    else some (db, Completion.returned)

/-- The method `OrderBookDB::setup`, with an explicit bound on the loop. -/
def OrderBookDB.setupFuel (getBookBase : BookBase) (pol : AbsentRead) (fuel : Nat)
    (db : OrderBookDB) (ledger : Ledger) : Option (OrderBookDB × Completion) :=
  if ledger.getLedgerSeq = db.mSeq then some (db, Completion.returned)
  else
    let db1 := { db with mSeq := ledger.getLedgerSeq }
    let db2 := { db1 with mDestMap := [], mSourceMap := [] }
    setupLoop getBookBase pol ledger fuel ledger.getFirstLedgerIndex db2 []

/-- The method `OrderBookDB::setup`; the loop bound is one more than the number of state
entries, which the loop never reaches (`setupLoop_eq_scanList`). -/
def OrderBookDB.setup (getBookBase : BookBase) (pol : AbsentRead)
    (db : OrderBookDB) (ledger : Ledger) : Option (OrderBookDB × Completion) :=
  db.setupFuel getBookBase pol (ledger.mAccountState.length + 1) ledger

/-- The entry under `k` fails the book-root test of `setup` without any read raising: it
is not a directory node, or carries no exchange rate, or its root index reads as a value
other than its own key. -/
def skippedAt (pol : AbsentRead) (k : uint256) (e : SLE) : Prop :=
  e.getType ≠ LedgerEntryType.ltDIR_NODE ∨ isFieldPresent e.sfExchangeRate = false ∨
    ∃ root, getFieldH256 pol e.sfRootIndex = some root ∧ root ≠ k

/-- A field read raises during the visit of the entry under `k`: the entry is a directory
node with an exchange rate, and either the read of its root index raises, or the root
index reads as its own key and the read of one of the four currency and issuer fields
raises. -/
def raisesAt (pol : AbsentRead) (k : uint256) (e : SLE) : Prop :=
  e.getType = LedgerEntryType.ltDIR_NODE ∧ isFieldPresent e.sfExchangeRate = true ∧
    (getFieldH256 pol e.sfRootIndex = none ∨
      (getFieldH256 pol e.sfRootIndex = some k ∧
        (getFieldH160 pol e.sfTakerPaysCurrency = none ∨
         getFieldH160 pol e.sfTakerGetsCurrency = none ∨
         getFieldH160 pol e.sfTakerPaysIssuer = none ∨
         getFieldH160 pol e.sfTakerGetsIssuer = none)))

/-- The entry under `k` passes the book-root test of `setup`: it is a directory node,
carries an exchange rate, and its root index reads as its own key. -/
def passesRootTest (pol : AbsentRead) (k : uint256) (e : SLE) : Prop :=
  e.getType = LedgerEntryType.ltDIR_NODE ∧ isFieldPresent e.sfExchangeRate = true ∧
    getFieldH256 pol e.sfRootIndex = some k

/-- The book base of the 4-tuple of a state entry that passes the book-root test and
whose four fields read; `none` for every other entry. -/
def entryBase (getBookBase : BookBase) (pol : AbsentRead) (p : uint256 × SLE) :
    Option uint256 :=
  if p.2.getType = LedgerEntryType.ltDIR_NODE ∧ isFieldPresent p.2.sfExchangeRate = true ∧
      getFieldH256 pol p.2.sfRootIndex = some p.1 then
    match getFieldH160 pol p.2.sfTakerPaysCurrency, getFieldH160 pol p.2.sfTakerPaysIssuer,
          getFieldH160 pol p.2.sfTakerGetsCurrency, getFieldH160 pol p.2.sfTakerGetsIssuer with
    | some ci, some ii, some co, some io => some (getBookBase ci ii co io)
    | _, _, _, _ => none
  else none

/-- The book bases of the book-root entries of a state, one for each such entry. -/
def rootBases (getBookBase : BookBase) (pol : AbsentRead) (l : List (uint256 × SLE)) :
    List uint256 :=
  l.filterMap (entryBase getBookBase pol)

/-- The scan of `setup` written as one pass over the list of state entries, stopping at
the first exception; the result is the index, the seen-set and how the scan ended.
`setupLoop_eq_scanList` shows that the cursor loop computes it. -/
def scanList (getBookBase : BookBase) (pol : AbsentRead) :
    List (uint256 × SLE) → OrderBookDB → List uint256 →
      (OrderBookDB × List uint256) × Completion
  | [], db, mSeen => ((db, mSeen), Completion.returned)
  | p :: rest, db, mSeen =>
    match setupVisit getBookBase pol p.1 p.2 db mSeen with
    | none => ((db, mSeen), Completion.raised)
    | some r => scanList getBookBase pol rest r.1 r.2

/-- The index with which the scan of `setup` starts: new version, both maps cleared. -/
def scanStart (db : OrderBookDB) (ledger : Ledger) : OrderBookDB :=
  { mSeq := ledger.mLedgerSeq, mSourceMap := [], mDestMap := [], mListeners := db.mListeners }

/-- The index built from a ledger alone: what the scan of `setup` yields from cleared
maps and an empty seen-set (with no listeners), and how that scan ends. -/
def builtFrom (getBookBase : BookBase) (pol : AbsentRead) (ledger : Ledger) :
    OrderBookDB × Completion :=
  ((scanList getBookBase pol ledger.mAccountState (scanStart OrderBookDB.new ledger) []).1.1,
   (scanList getBookBase pol ledger.mAccountState (scanStart OrderBookDB.new ledger) []).2)

/-- All books held by a directional map, list after list. -/
def allBooks : BookMap → List OrderBook
  | [] => []
  | p :: rest => p.2 ++ allBooks rest

/-- Whether a book is the one for pay side `(ci, ii)` and get side `(co, io)`. -/
def OrderBook.hasTuple (ci ii co io : uint160) (b : OrderBook) : Bool :=
  decide (b.mCurrencyIn = ci ∧ b.mIssuerIn = ii ∧ b.mCurrencyOut = co ∧ b.mIssuerOut = io)

/-- The book `b` is the one that the scan of `setup` constructs for some entry of `l`:
an entry that passes the book-root test and whose four fields read as the 4-tuple of
`b`, the base of `b` being the book base of that 4-tuple. -/
def yieldsBook (getBookBase : BookBase) (pol : AbsentRead) (l : List (uint256 × SLE))
    (b : OrderBook) : Prop :=
  ∃ k e, (k, e) ∈ l ∧
    e.getType = LedgerEntryType.ltDIR_NODE ∧ isFieldPresent e.sfExchangeRate = true ∧
    getFieldH256 pol e.sfRootIndex = some k ∧
    getFieldH160 pol e.sfTakerPaysCurrency = some b.mCurrencyIn ∧
    getFieldH160 pol e.sfTakerPaysIssuer = some b.mIssuerIn ∧
    getFieldH160 pol e.sfTakerGetsCurrency = some b.mCurrencyOut ∧
    getFieldH160 pol e.sfTakerGetsIssuer = some b.mIssuerOut ∧
    b.mBookBase = getBookBase b.mCurrencyIn b.mIssuerIn b.mCurrencyOut b.mIssuerOut

/-- What holds of the index and the seen-set throughout the scan of `setup`. -/
structure ScanInv (getBookBase : BookBase) (db : OrderBookDB) (mSeen : List uint256) :
    Prop where
  srcSeen : ∀ b ∈ allBooks db.mSourceMap, b.mBookBase ∈ mSeen
  srcBase : ∀ b ∈ allBooks db.mSourceMap,
    b.mBookBase = getBookBase b.mCurrencyIn b.mIssuerIn b.mCurrencyOut b.mIssuerOut
  srcNodup : ((allBooks db.mSourceMap).map OrderBook.mBookBase).Nodup
  seenSrc : ∀ idx ∈ mSeen, ∃ b ∈ allBooks db.mSourceMap, b.mBookBase = idx
  srcKey : ∀ p ∈ db.mSourceMap, ∀ b ∈ p.2, p.1 = (b.mCurrencyIn, b.mIssuerIn)
  dstKey : ∀ p ∈ db.mDestMap, ∀ b ∈ p.2, p.1 = (b.mCurrencyOut, b.mIssuerOut)
  srcKeys : (db.mSourceMap.map Prod.fst).Nodup
  dstKeys : (db.mDestMap.map Prod.fst).Nodup
  perm : (allBooks db.mSourceMap).Perm (allBooks db.mDestMap)

/-- The method `OrderBookDB::getBooksByTakerPays`; the result is the new `bookRet`. -/
def OrderBookDB.getBooksByTakerPays (db : OrderBookDB) (issuerID currencyID : uint160)
    (_bookRet : List OrderBook) : List OrderBook :=
  match mapFind db.mSourceMap (currencyIssuer_ct currencyID issuerID) with
  | some books => books
  | none => []

/-- The method `OrderBookDB::getBooksByTakerGets`; the result is the new `bookRet`. -/
def OrderBookDB.getBooksByTakerGets (db : OrderBookDB) (issuerID currencyID : uint160)
    (_bookRet : List OrderBook) : List OrderBook :=
  match mapFind db.mDestMap (currencyIssuer_ct currencyID issuerID) with
  | some books => books
  | none => []

/-! ## Sample data -/

/-- A book base that tells all 4-tuples apart, built from the pairing function. -/
def pairBase : BookBase := fun ci ii co io => Nat.pair (Nat.pair ci ii) (Nat.pair co io)

/-- A book-root directory entry under key `root` for the book paying `(ci, ii)` and
getting `(co, io)`. -/
def bookRoot (root : uint256) (ci ii co io : uint160) : SLE :=
  { type := LedgerEntryType.ltDIR_NODE, sfExchangeRate := some 1, sfRootIndex := some root,
    sfTakerPaysCurrency := some ci, sfTakerPaysIssuer := some ii,
    sfTakerGetsCurrency := some co, sfTakerGetsIssuer := some io }

/-- An account-root entry: no directory fields at all. -/
def accountRoot : SLE :=
  { type := LedgerEntryType.ltACCOUNT_ROOT, sfExchangeRate := none, sfRootIndex := none,
    sfTakerPaysCurrency := none, sfTakerPaysIssuer := none,
    sfTakerGetsCurrency := none, sfTakerGetsIssuer := none }

/-- Ledger 7: an account root, the root of book (1,2)/(3,4) at key 5, a second directory
at key 6 carrying the same 4-tuple, and the root of the reverse book at key 9. -/
def sampleLedger : Ledger :=
  { mLedgerSeq := 7,
    mAccountState := [(2, accountRoot), (5, bookRoot 5 1 2 3 4), (6, bookRoot 6 1 2 3 4),
      (9, bookRoot 9 3 4 1 2)],
    ascending := by decide }

/-- A ledger with the same sequence number as `sampleLedger` and other contents. -/
def sampleLedgerB : Ledger :=
  { mLedgerSeq := 7, mAccountState := [(3, bookRoot 3 8 8 9 9)], ascending := by decide }

/-- A ledger with sequence number zero holding the root of book (1,2)/(3,4). -/
def zeroLedgerA : Ledger :=
  { mLedgerSeq := 0, mAccountState := [(5, bookRoot 5 1 2 3 4)], ascending := by decide }

/-- A ledger with sequence number zero holding the root of book (8,8)/(9,9). -/
def zeroLedgerB : Ledger :=
  { mLedgerSeq := 0, mAccountState := [(3, bookRoot 3 8 8 9 9)], ascending := by decide }

/-- A directory entry that passes the book-root test under key `root` and carries none
of the four currency and issuer fields. -/
def bareRoot (root : uint256) : SLE :=
  { type := LedgerEntryType.ltDIR_NODE, sfExchangeRate := some 1, sfRootIndex := some root,
    sfTakerPaysCurrency := none, sfTakerPaysIssuer := none,
    sfTakerGetsCurrency := none, sfTakerGetsIssuer := none }

/-- Ledger 7 with a bare root at key 5 followed by the root of book (3,4)/(1,2). -/
def malformedLedger : Ledger :=
  { mLedgerSeq := 7, mAccountState := [(5, bareRoot 5), (9, bookRoot 9 3 4 1 2)],
    ascending := by decide }

/-- Ledger 7 whose one entry, at key 5, is an account root that carries an exchange rate,
a root index equal to its key and the four currency and issuer fields. -/
def oddLedger : Ledger :=
  { mLedgerSeq := 7,
    mAccountState := [(5, { type := LedgerEntryType.ltACCOUNT_ROOT, sfExchangeRate := some 1,
                            sfRootIndex := some 5,
                            sfTakerPaysCurrency := some 1, sfTakerPaysIssuer := some 2,
                            sfTakerGetsCurrency := some 3, sfTakerGetsIssuer := some 4 })],
    ascending := by decide }

/-- A book base that gives every 4-tuple the same base. -/
def constBase : BookBase := fun _ _ _ _ => 1

/-- The index that `setup` builds from the sample ledger: one book per 4-tuple, each
under its pay key in the source map and under its get key in the destination map. -/
def sampleIndex : OrderBookDB :=
  { mSeq := 7,
    mSourceMap := [((1, 2), [⟨pairBase 1 2 3 4, 1, 3, 2, 4⟩]),
                   ((3, 4), [⟨pairBase 3 4 1 2, 3, 1, 4, 2⟩])],
    mDestMap := [((3, 4), [⟨pairBase 1 2 3 4, 1, 3, 2, 4⟩]),
                 ((1, 2), [⟨pairBase 3 4 1 2, 3, 1, 4, 2⟩])],
    mListeners := [] }

/-- An index at version 3 holding a book that the sample ledger does not have, with one
listener registry. -/
def staleIndex : OrderBookDB :=
  { mSeq := 3,
    mSourceMap := [((8, 8), [⟨pairBase 8 8 9 9, 8, 9, 8, 9⟩])],
    mDestMap := [((9, 9), [⟨pairBase 8 8 9 9, 8, 9, 8, 9⟩])],
    mListeners := [(2, [(4, [(1, [(3, 0)])])])] }

/-! ## Subscribers and the per-book registry -/

/-- The event `Json::Value& jvObj`, passed through as is; only its identity matters. -/
abbrev JsonValue := Nat

/-- A weak handle `InfoSub::wptr`: the identity of the `InfoSub` it refers to. -/
abbrev InfoSubWptr := Nat

/-- An `InfoSub` as `addSubscriber` sees it: the object and its `getSeq()`. -/
structure InfoSub where
  addr : Nat
  mSeq : uint64
  deriving DecidableEq, Repr

def InfoSub.getSeq (sub : InfoSub) : uint64 := sub.mSeq

/-- The type `NetworkOPs::subMapType`: sequence id to weak handle. The order of the list is
the order in which an iterator walks the map. -/
abbrev subMapType := List (uint64 × InfoSubWptr)

/-- The members of `BookListeners`. -/
structure BookListeners where
  mListeners : subMapType
  deriving DecidableEq, Repr

/-- The method `BookListeners::addSubscriber`: `mListeners[sub->getSeq()] = sub`. -/
def BookListeners.addSubscriber (bl : BookListeners) (sub : InfoSub) : BookListeners :=
  { mListeners := mapSet bl.mListeners sub.getSeq sub.addr }

/-- The method `BookListeners::removeSubscriber`: `mListeners.erase(seq)`. -/
def BookListeners.removeSubscriber (bl : BookListeners) (seq : uint64) : BookListeners :=
  { mListeners := mapErase bl.mListeners seq }

/-- The call `wptr.lock()`: the strong pointer when the `InfoSub` is still owned (its
identity is in `live`), null otherwise. -/
def lock (live : List Nat) (w : InfoSubWptr) : Option Nat :=
  if w ∈ live then some w else none

/-- The `while (it != mListeners.end())` loop of `publish`. The map is `kept ++ rest`
throughout and the iterator `it` stands at the head of `rest`: `++it` moves that entry
behind the iterator, `it = mListeners.erase(it)` drops it. `sent` records the calls
`p->send(jvObj, true)` as (receiver, event), oldest first. -/
def publishLoop (live : List Nat) (jvObj : JsonValue) :
    subMapType → subMapType → List (Nat × JsonValue) → subMapType × List (Nat × JsonValue)
  | kept, [], sent => (kept, sent)
  | kept, e :: rest, sent =>
    match lock live e.2 with
    | some p => publishLoop live jvObj (kept ++ [e]) rest (sent ++ [(p, jvObj)])
    | none => publishLoop live jvObj kept rest sent

/-- Whether the weak handle of a registry entry resolves. -/
def resolves (live : List Nat) (e : uint64 × InfoSubWptr) : Bool := (lock live e.2).isSome

/-- The method `BookListeners::publish`. -/
def BookListeners.publish (bl : BookListeners) (live : List Nat) (jvObj : JsonValue)
    (sent : List (Nat × JsonValue)) : BookListeners × List (Nat × JsonValue) :=
  let r := publishLoop live jvObj [] bl.mListeners sent
  ({ mListeners := r.1 }, r.2)

/-! ## The listener registry of the index -/

/-- The method `OrderBookDB::getBookListeners`; `none` is the null pointer. It only
reads, so the index is not returned. -/
def OrderBookDB.getBookListeners (db : OrderBookDB)
    (currencyPays currencyGets issuerPays issuerGets : uint160) : Option BookListenersPtr :=
  match mapFind db.mListeners issuerPays with
  | none => none
  | some it0 =>
    match mapFind it0 issuerGets with
    | none => none
    | some it1 =>
      match mapFind it1 currencyPays with
      | none => none
      | some it2 =>
        match mapFind it2 currencyGets with
        | none => none
        | some it3 => some it3

/-- The assignment `mListeners[issuerPays][issuerGets][currencyPays][currencyGets] = ret`;
each `operator[]` yields the stored map or a new empty one. -/
def setListener (m : ListenerTree)
    (currencyPays currencyGets issuerPays issuerGets : uint160) (ret : BookListenersPtr) :
    ListenerTree :=
  let m3 : ListenerMap3 := (mapFind m issuerPays).getD []
  let m2 : ListenerMap2 := (mapFind m3 issuerGets).getD []
  let m1 : ListenerMap1 := (mapFind m2 currencyPays).getD []
  mapSet m issuerPays (mapSet m3 issuerGets (mapSet m2 currencyPays (mapSet m1 currencyGets ret)))

/-- The index together with what it points into and acts on: the `BookListeners` objects
by handle, the `InfoSub` objects still owned by their connections, the deliveries made by
`InfoSub::send`, and a record of the calls of `BookListeners::publish` made by
`processTxn` (registry, event), oldest first. The record is kept for stating how often
`publish` is called; nothing reads it. -/
structure World where
  db : OrderBookDB
  heap : List BookListeners
  live : List Nat
  sent : List (Nat × JsonValue)
  published : List (BookListenersPtr × JsonValue)
  deriving DecidableEq, Repr

/-- The registry object behind a handle. -/
def World.registry (w : World) (book : BookListenersPtr) : BookListeners :=
  w.heap.getD book { mListeners := [] }

/-- The method `OrderBookDB::makeBookListeners`; `make_shared<BookListeners>()` takes the
next free handle. -/
def World.makeBookListeners (w : World)
    (currencyPays currencyGets issuerPays issuerGets : uint160) : World × BookListenersPtr :=
  match w.db.getBookListeners currencyPays currencyGets issuerPays issuerGets with
  | some ret => (w, ret)
  | none =>
    let ret : BookListenersPtr := w.heap.length
    ({ w with
       heap := w.heap ++ [{ mListeners := [] }]
       db := { w.db with
               mListeners := setListener w.db.mListeners
                 currencyPays currencyGets issuerPays issuerGets ret } },
     ret)

/-- The call `book->publish(jvObj)` on the registry behind `book`. -/
def World.publish (w : World) (book : BookListenersPtr) (jvObj : JsonValue) : World :=
  let r := (w.registry book).publish w.live jvObj w.sent
  { w with heap := w.heap.set book r.1, sent := r.2 }

/-! ## Transaction metadata and the router -/

/-- Transaction result codes; only equality with `tesSUCCESS` is used. -/
abbrev TER := Int

def tesSUCCESS : TER := 0

/-- The field names `processTxn` uses, and `sfGeneric` for any other. -/
inductive SField where
  | sfGeneric
  | sfCreatedNode
  | sfDeletedNode
  | sfModifiedNode
  | sfPreviousFields
  | sfNewFields
  | sfFinalFields
  deriving DecidableEq, Repr

/-- An amount, reduced to what `getCurrency()` and `getIssuer()` return. -/
structure STAmount where
  mCurrency : uint160
  mIssuer : uint160
  deriving DecidableEq, Repr

def STAmount.getCurrency (a : STAmount) : uint160 := a.mCurrency

def STAmount.getIssuer (a : STAmount) : uint160 := a.mIssuer

/-- A field-set object of a metadata node (previous, new or final fields), reduced to the
two amounts read from it. -/
structure FieldSet where
  sfTakerPays : Option STAmount
  sfTakerGets : Option STAmount
  deriving DecidableEq, Repr

/-- A node of the transaction metadata: its name, its ledger-entry type field and its
three field-sets, each of which may be missing. -/
structure STObject where
  fName : SField
  sfLedgerEntryType : Option LedgerEntryType
  sfPreviousFields : Option FieldSet
  sfNewFields : Option FieldSet
  sfFinalFields : Option FieldSet
  deriving DecidableEq, Repr

def STObject.getFName (node : STObject) : SField := node.fName

/-- `getFieldU16` on a metadata node: `none` stands for the exception thrown when the
field is not found, which the handler in `processTxn` catches. -/
def getFieldU16 (field : Option LedgerEntryType) : Option LedgerEntryType := field

/-- `getFieldAmount` on a field-set: `none` stands for the exception thrown when the field
is not found. -/
def getFieldAmount (field : Option STAmount) : Option STAmount := field

/-- The expression `dynamic_cast<const STObject*>(node.peekAtPField(field))`: the
field-set stored under `field`, `none` for null. -/
def STObject.peekAtPField (node : STObject) (field : SField) : Option FieldSet :=
  match field with
  | SField.sfPreviousFields => node.sfPreviousFields
  | SField.sfNewFields => node.sfNewFields
  | SField.sfFinalFields => node.sfFinalFields
  | _ => none

/-- A transaction with its result and metadata nodes (`ALTransaction`). -/
structure ALTransaction where
  mResult : TER
  mNodes : List STObject
  deriving DecidableEq, Repr

def ALTransaction.getResult (alTx : ALTransaction) : TER := alTx.mResult

def ALTransaction.getNodes (alTx : ALTransaction) : List STObject := alTx.mNodes

/-- The field-set that the claims call selected: new fields of a created node, previous
fields of a modified node, final fields of a deleted node, none for any other node. -/
def selectedFieldSet (node : STObject) : Option FieldSet :=
  match node.fName with
  | SField.sfCreatedNode => node.sfNewFields
  | SField.sfModifiedNode => node.sfPreviousFields
  | SField.sfDeletedNode => node.sfFinalFields
  | _ => none

/-- Whether a metadata node resolves to the pair with pay side `(cp, ip)` and get side
`(cg, ig)`: its ledger-entry type is offer, its selected field-set is present, and the
taker-pays and taker-gets amounts of that field-set have these currencies and issuers. -/
def resolvesTo (cp cg ip ig : uint160) (node : STObject) : Bool :=
  match node.sfLedgerEntryType, selectedFieldSet node with
  | some LedgerEntryType.ltOFFER, some data =>
    match data.sfTakerPays, data.sfTakerGets with
    | some pays, some gets =>
      decide (pays.getCurrency = cp ∧ gets.getCurrency = cg ∧
        pays.getIssuer = ip ∧ gets.getIssuer = ig)
    | _, _ => false
  | _, _ => false

/-- The registry that a metadata node is routed to: the one registered for the pair the
node resolves to, if the node resolves to a pair and a registry is registered for it. -/
def nodeRegistry (db : OrderBookDB) (node : STObject) : Option BookListenersPtr :=
  match node.sfLedgerEntryType, selectedFieldSet node with
  | some LedgerEntryType.ltOFFER, some data =>
    match data.sfTakerPays, data.sfTakerGets with
    | some pays, some gets =>
      db.getBookListeners pays.getCurrency gets.getCurrency pays.getIssuer gets.getIssuer
    | _, _ => none
  | _, _ => none

/-- The state after a node was routed: `publish` is called on the registry, if any. -/
def routed (w : World) (target : Option BookListenersPtr) (jvObj : JsonValue) : World :=
  match target with
  | some book => { w.publish book jvObj with published := w.published ++ [(book, jvObj)] }
  | none => w

/-- The `try` block of `processTxn` for one node (lines 146-183). `none` stands for an
exception thrown by a field read; every read comes before the call of `publish`, so the
state is then as it was before the block. -/
def processNode (w : World) (node : STObject) (jvObj : JsonValue) : Option World :=
  match getFieldU16 node.sfLedgerEntryType with
  | none => none
  | some entryType =>
    if entryType = LedgerEntryType.ltOFFER then
      let field : Option SField :=
        if node.getFName = SField.sfModifiedNode then some SField.sfPreviousFields
        else if node.getFName = SField.sfCreatedNode then some SField.sfNewFields
        else if node.getFName = SField.sfDeletedNode then some SField.sfFinalFields
        else none
      match field with
      | none => some w
      | some f =>
        match node.peekAtPField f with
        | none => some w
        | some data =>
          match getFieldAmount data.sfTakerGets with
          | none => none
          | some takerGets =>
            let currencyGets := takerGets.getCurrency
            let issuerGets := takerGets.getIssuer
            match getFieldAmount data.sfTakerPays with
            | none => none
            | some takerPays =>
              let currencyPays := takerPays.getCurrency
              let issuerPays := takerPays.getIssuer
              match w.db.getBookListeners currencyPays currencyGets issuerPays issuerGets with
              | some book =>
                some { w.publish book jvObj with
                       published := w.published ++ [(book, jvObj)] }
              | none => some w
    else some w

/-- The `BOOST_FOREACH` loop of `processTxn`: the handler `catch (...)` only logs, so
after an exception the loop goes on with the state unchanged. -/
def processNodes (w : World) (nodes : List STObject) (jvObj : JsonValue) : World :=
  match nodes with
  | [] => w
  | node :: rest =>
    match processNode w node jvObj with
    | some w1 => processNodes w1 rest jvObj
    | none => processNodes w rest jvObj

/-- The method `OrderBookDB::processTxn`; the ledger argument is not used by the code. -/
def World.processTxn (w : World) (alTx : ALTransaction) (jvObj : JsonValue) : World :=
  if alTx.getResult = tesSUCCESS then processNodes w alTx.getNodes jvObj else w

/-- Extraction fails on a metadata node: the ledger-entry type field is missing, or the
node is an offer whose selected field-set is present and lacks the taker-pays or the
taker-gets amount. -/
def extractionFails (node : STObject) : Bool :=
  match node.sfLedgerEntryType with
  | none => true
  | some LedgerEntryType.ltOFFER =>
    match selectedFieldSet node with
    | some data => data.sfTakerPays.isNone || data.sfTakerGets.isNone
    | none => false
  | some _ => false

/-! ## Calls on a running index -/

/-- The method `OrderBookDB::setup` on the index of a world. When an exception leaves
`setup` the index stays as the scan left it. -/
def World.setup (getBookBase : BookBase) (pol : AbsentRead) (w : World) (ledger : Ledger) :
    World :=
  match w.db.setup getBookBase pol ledger with
  | some r => { w with db := r.1 }
  | none => w

/-- The calls a client can make on the index and on the registries it hands out, and the
release of an `InfoSub` by its owner. -/
inductive Call where
  | setup (ledger : Ledger)
  | invalidate
  | getBooksByTakerPays (issuerID currencyID : uint160)
  | getBooksByTakerGets (issuerID currencyID : uint160)
  | makeBookListeners (currencyPays currencyGets issuerPays issuerGets : uint160)
  | getBookListeners (currencyPays currencyGets issuerPays issuerGets : uint160)
  | processTxn (alTx : ALTransaction) (jvObj : JsonValue)
  | addSubscriber (book : BookListenersPtr) (sub : InfoSub)
  | removeSubscriber (book : BookListenersPtr) (seq : uint64)
  | release (addr : Nat)

/-- The calls on the index itself, as opposed to calls on a registry or by the owner of
an `InfoSub`. -/
def Call.isIndexCall : Call → Bool
  | Call.addSubscriber _ _ => false
  | Call.removeSubscriber _ _ => false
  | Call.release _ => false
  | _ => true

/-- The state after one call; results of the lookups are dropped. -/
def World.call (getBookBase : BookBase) (pol : AbsentRead) (w : World) : Call → World
  | Call.setup ledger => w.setup getBookBase pol ledger
  | Call.invalidate => { w with db := w.db.invalidate }
  | Call.getBooksByTakerPays _ _ => w
  | Call.getBooksByTakerGets _ _ => w
  | Call.makeBookListeners cp cg ip ig => (w.makeBookListeners cp cg ip ig).1
  | Call.getBookListeners _ _ _ _ => w
  | Call.processTxn alTx jvObj => w.processTxn alTx jvObj
  | Call.addSubscriber book sub =>
    { w with heap := w.heap.set book ((w.registry book).addSubscriber sub) }
  | Call.removeSubscriber book seq =>
    { w with heap := w.heap.set book ((w.registry book).removeSubscriber seq) }
  | Call.release addr => { w with live := w.live.filter (fun a => a ≠ addr) }

/-- The state after a sequence of calls. -/
def World.run (getBookBase : BookBase) (pol : AbsentRead) (w : World) : List Call → World
  | [] => w
  | c :: rest => World.run getBookBase pol (w.call getBookBase pol c) rest

/-- A world before any call: a new index, no registry object, and any subscribers. -/
def World.fresh (live : List Nat) : World :=
  { db := OrderBookDB.new, heap := [], live := live, sent := [], published := [] }

/-- Every registered handle refers to an existing `BookListeners` object, and no object is
registered for two 4-tuples. -/
def World.wellFormed (w : World) : Prop :=
  (∀ cp cg ip ig h, w.db.getBookListeners cp cg ip ig = some h → h < w.heap.length) ∧
  (∀ cp cg ip ig cp2 cg2 ip2 ig2 h,
    w.db.getBookListeners cp cg ip ig = some h →
    w.db.getBookListeners cp2 cg2 ip2 ig2 = some h →
    cp2 = cp ∧ cg2 = cg ∧ ip2 = ip ∧ ig2 = ig)

/-! ## Sample data: a running index -/

/-- A successful transaction whose metadata is one modified offer node with previous
fields taker-pays (1,2) and taker-gets (3,4). -/
def sampleTx : ALTransaction :=
  { mResult := tesSUCCESS,
    mNodes := [{ fName := SField.sfModifiedNode,
                 sfLedgerEntryType := some LedgerEntryType.ltOFFER,
                 sfPreviousFields := some { sfTakerPays := some ⟨1, 2⟩,
                                            sfTakerGets := some ⟨3, 4⟩ },
                 sfNewFields := none, sfFinalFields := none }] }

/-- A successful transaction whose one offer node is for the unrelated pair (8,8)/(9,9). -/
def otherTx : ALTransaction :=
  { mResult := tesSUCCESS,
    mNodes := [{ fName := SField.sfCreatedNode,
                 sfLedgerEntryType := some LedgerEntryType.ltOFFER,
                 sfPreviousFields := none,
                 sfNewFields := some { sfTakerPays := some ⟨8, 8⟩,
                                       sfTakerGets := some ⟨9, 9⟩ },
                 sfFinalFields := none }] }

/-- A world around `staleIndex`: registry 0, registered for pay (1,2) and get (3,4), has
subscriber 11 (an `InfoSub` that is live) and subscriber 12 (one that is gone). -/
def sampleWorld : World :=
  { db := staleIndex, heap := [{ mListeners := [(11, 100), (12, 200)] }], live := [100],
    sent := [], published := [] }

/-- A rebuild, a routed transaction, both subscribers removed, an invalidate. -/
def sampleCalls : List Call :=
  [Call.setup sampleLedger, Call.processTxn sampleTx 42, Call.removeSubscriber 0 11,
   Call.removeSubscriber 0 12, Call.invalidate]

/-- A created offer node whose new fields give pay (1,2) and get (3,4), with previous
and final fields that give another pair. -/
def createdNode : STObject :=
  { fName := SField.sfCreatedNode, sfLedgerEntryType := some LedgerEntryType.ltOFFER,
    sfPreviousFields := some { sfTakerPays := some ⟨8, 8⟩, sfTakerGets := some ⟨9, 9⟩ },
    sfNewFields := some { sfTakerPays := some ⟨1, 2⟩, sfTakerGets := some ⟨3, 4⟩ },
    sfFinalFields := some { sfTakerPays := some ⟨8, 8⟩, sfTakerGets := some ⟨9, 9⟩ } }

/-- A modified offer node for pay (1,2) and get (3,4) that has no previous fields; its
final fields carry the pair. -/
def modifiedNoPrevious : STObject :=
  { fName := SField.sfModifiedNode, sfLedgerEntryType := some LedgerEntryType.ltOFFER,
    sfPreviousFields := none, sfNewFields := none,
    sfFinalFields := some { sfTakerPays := some ⟨1, 2⟩, sfTakerGets := some ⟨3, 4⟩ } }

/-- A deleted offer node whose final fields lack the taker-gets amount. -/
def badNode : STObject :=
  { fName := SField.sfDeletedNode, sfLedgerEntryType := some LedgerEntryType.ltOFFER,
    sfPreviousFields := none, sfNewFields := none,
    sfFinalFields := some { sfTakerPays := some ⟨1, 2⟩, sfTakerGets := none } }

/-- The transaction of `sampleTx` with a failure result code. -/
def failedTx : ALTransaction :=
  { mResult := 103, mNodes := sampleTx.mNodes }

/-! ## Lemmas: maps -/

theorem mapFind_mapSet {κ ν : Type} [DecidableEq κ] (m : List (κ × ν)) (k k2 : κ) (v : ν) :
    mapFind (mapSet m k v) k2 = if k = k2 then some v else mapFind m k2 := by
  induction m with
  | nil =>
    by_cases h : k = k2 <;> simp [mapSet, mapFind, h]
  | cons p rest ih =>
    obtain ⟨a, x⟩ := p
    by_cases h1 : a = k
    · subst h1
      by_cases h2 : a = k2 <;> simp [mapSet, mapFind, h2]
    · by_cases h2 : k = k2
      · subst h2
        simp [mapSet, mapFind, h1, ih]
      · by_cases h3 : a = k2
        · subst h3
          simp [mapSet, mapFind, h1, h2]
        · simp [mapSet, mapFind, h1, h2, h3, ih]

theorem mapFind_pushBack (m : BookMap) (key key2 : currencyIssuer_t) (book : OrderBook) :
    mapFind (pushBack m key book) key2 =
      if key = key2 then some ((mapFind m key).getD [] ++ [book]) else mapFind m key2 := by
  unfold pushBack
  exact mapFind_mapSet m key key2 _

/-! ## Lemmas: the ledger cursor -/

theorem findSLE_append_of_lt (pre suf : List (uint256 × SLE)) (k : uint256)
    (h : ∀ p ∈ pre, p.1 < k) : findSLE (pre ++ suf) k = findSLE suf k := by
  induction pre with
  | nil => rfl
  | cons p rest ih =>
    have hp : p.1 < k := h p (List.mem_cons_self _ _)
    have hne : p.1 ≠ k := Nat.ne_of_lt hp
    simp only [List.cons_append, findSLE, hne, if_false]
    exact ih (fun q hq => h q (List.mem_cons_of_mem _ hq))

theorem nextIndex_append_of_le (pre suf : List (uint256 × SLE)) (k : uint256)
    (h : ∀ p ∈ pre, p.1 ≤ k) : nextIndex (pre ++ suf) k = nextIndex suf k := by
  induction pre with
  | nil => rfl
  | cons p rest ih =>
    have hp : p.1 ≤ k := h p (List.mem_cons_self _ _)
    have hnlt : ¬ k < p.1 := Nat.not_lt.mpr hp
    simp only [List.cons_append, nextIndex, hnlt, if_false]
    exact ih (fun q hq => h q (List.mem_cons_of_mem _ hq))

theorem nextIndex_of_all_gt (suf : List (uint256 × SLE)) (k : uint256)
    (h : ∀ p ∈ suf, k < p.1) : nextIndex suf k = firstIndex suf := by
  cases suf with
  | nil => rfl
  | cons p rest =>
    have hp : k < p.1 := h p (List.mem_cons_self _ _)
    simp [nextIndex, firstIndex, hp]

/-- Along a key-ordered state the cursor loop, started at the first key of a suffix with
enough fuel for it, computes the list scan of that suffix. -/
theorem setupLoop_suffix (getBookBase : BookBase) (pol : AbsentRead) (ledger : Ledger)
    (suf : List (uint256 × SLE)) :
    ∀ (pre : List (uint256 × SLE)) (fuel : Nat) (db : OrderBookDB) (mSeen : List uint256),
      ledger.mAccountState = pre ++ suf → suf.length < fuel →
      setupLoop getBookBase pol ledger fuel (firstIndex suf) db mSeen =
        some ((scanList getBookBase pol suf db mSeen).1.1,
              (scanList getBookBase pol suf db mSeen).2) := by
  induction suf with
  | nil =>
    intro pre fuel db mSeen _ hfuel
    obtain ⟨f, rfl⟩ : ∃ f, fuel = f + 1 := ⟨fuel - 1, by omega⟩
    simp [setupLoop, firstIndex, scanList]
  | cons p rest ih =>
    intro pre fuel db mSeen hsplit hfuel
    obtain ⟨f, rfl⟩ : ∃ f, fuel = f + 1 := ⟨fuel - 1, by omega⟩
    have hasc := ledger.ascending
    rw [hsplit] at hasc
    simp only [List.map_append, List.map_cons, List.pairwise_cons, List.pairwise_append,
      List.mem_append, List.mem_cons, List.mem_map] at hasc
    obtain ⟨hpos, hpre, ⟨hprest, _⟩, hcross⟩ := hasc
    have hk0 : p.1 ≠ 0 := Nat.ne_of_gt (hpos p.1 (Or.inr (Or.inl rfl)))
    have hprelt : ∀ q ∈ pre, q.1 < p.1 := fun q hq =>
      hcross q.1 ⟨q, hq, rfl⟩ p.1 (Or.inl rfl)
    have hrestgt : ∀ q ∈ rest, p.1 < q.1 := fun q hq => hprest q.1 ⟨q, hq, rfl⟩
    have hfind : ledger.getSLEi p.1 = some p.2 := by
      unfold Ledger.getSLEi
      rw [hsplit, findSLE_append_of_lt pre _ p.1 hprelt]
      simp [findSLE]
    have hnext : ledger.getNextLedgerIndex p.1 = firstIndex rest := by
      unfold Ledger.getNextLedgerIndex
      rw [hsplit, nextIndex_append_of_le pre _ p.1 (fun q hq => Nat.le_of_lt (hprelt q hq))]
      simp only [nextIndex, Nat.lt_irrefl, if_false]
      exact nextIndex_of_all_gt rest p.1 hrestgt
    have hsplit2 : ledger.mAccountState = (pre ++ [p]) ++ rest := by
      rw [hsplit]; simp
    have hfuel2 : rest.length < f := by
      rw [List.length_cons] at hfuel
      omega
    simp only [setupLoop, firstIndex, hk0, ne_eq, not_false_eq_true, if_true, hfind, scanList]
    cases hv : setupVisit getBookBase pol p.1 p.2 db mSeen with
    | none => rfl
    | some r =>
      obtain ⟨db1, seen1⟩ := r
      simp only [hnext]
      exact ih (pre ++ [p]) f db1 seen1 hsplit2 hfuel2

/-- With at least one more unit of fuel than there are state entries, the cursor loop
started at the first ledger index ends, and computes the list scan. -/
theorem setupLoop_eq_scanList (getBookBase : BookBase) (pol : AbsentRead) (ledger : Ledger)
    (fuel : Nat) (db : OrderBookDB) (mSeen : List uint256)
    (hfuel : ledger.mAccountState.length < fuel) :
    setupLoop getBookBase pol ledger fuel ledger.getFirstLedgerIndex db mSeen =
      some ((scanList getBookBase pol ledger.mAccountState db mSeen).1.1,
            (scanList getBookBase pol ledger.mAccountState db mSeen).2) :=
  setupLoop_suffix getBookBase pol ledger ledger.mAccountState [] fuel db mSeen rfl hfuel

theorem setupFuel_eq (getBookBase : BookBase) (pol : AbsentRead) (fuel : Nat)
    (db : OrderBookDB) (ledger : Ledger) (hseq : db.mSeq ≠ ledger.mLedgerSeq)
    (hfuel : ledger.mAccountState.length < fuel) :
    db.setupFuel getBookBase pol fuel ledger =
      some ((scanList getBookBase pol ledger.mAccountState (scanStart db ledger) []).1.1,
            (scanList getBookBase pol ledger.mAccountState (scanStart db ledger) []).2) := by
  unfold OrderBookDB.setupFuel Ledger.getLedgerSeq
  rw [if_neg (fun h => hseq h.symm)]
  exact setupLoop_eq_scanList getBookBase pol ledger fuel _ [] hfuel

theorem setup_eq (getBookBase : BookBase) (pol : AbsentRead)
    (db : OrderBookDB) (ledger : Ledger) (hseq : db.mSeq ≠ ledger.mLedgerSeq) :
    db.setup getBookBase pol ledger =
      some ((scanList getBookBase pol ledger.mAccountState (scanStart db ledger) []).1.1,
            (scanList getBookBase pol ledger.mAccountState (scanStart db ledger) []).2) :=
  setupFuel_eq getBookBase pol _ db ledger hseq (Nat.lt_succ_self _)

/-! ## Lemmas: the directional maps -/

theorem mem_allBooks (m : BookMap) (b : OrderBook) :
    b ∈ allBooks m ↔ ∃ p ∈ m, b ∈ p.2 := by
  induction m with
  | nil => simp [allBooks]
  | cons q rest ih => simp [allBooks, ih]

theorem mapFind_some_mem {κ ν : Type} [DecidableEq κ] (m : List (κ × ν)) (k : κ) (v : ν)
    (h : mapFind m k = some v) : (k, v) ∈ m := by
  induction m with
  | nil => simp [mapFind] at h
  | cons p rest ih =>
    obtain ⟨a, x⟩ := p
    by_cases hk : a = k
    · subst hk
      simp [mapFind] at h
      subst h
      exact List.mem_cons_self _ _
    · simp [mapFind, hk] at h
      exact List.mem_cons_of_mem _ (ih h)

theorem mapFind_of_mem_nodup {κ ν : Type} [DecidableEq κ] (m : List (κ × ν)) (k : κ) (v : ν)
    (hnd : (m.map Prod.fst).Nodup) (h : (k, v) ∈ m) : mapFind m k = some v := by
  induction m with
  | nil => simp at h
  | cons p rest ih =>
    obtain ⟨a, x⟩ := p
    simp only [List.map_cons, List.nodup_cons] at hnd
    rcases List.mem_cons.mp h with heq | hmem
    · cases heq
      simp [mapFind]
    · have hne : a ≠ k := by
        intro hak
        subst hak
        exact hnd.1 (List.mem_map.mpr ⟨(a, v), hmem, rfl⟩)
      simp [mapFind, hne]
      exact ih hnd.2 hmem

theorem mapSet_keys {κ ν : Type} [DecidableEq κ] (m : List (κ × ν)) (k : κ) (v : ν) :
    (mapSet m k v).map Prod.fst =
      if k ∈ m.map Prod.fst then m.map Prod.fst else m.map Prod.fst ++ [k] := by
  induction m with
  | nil => simp [mapSet]
  | cons p rest ih =>
    obtain ⟨a, x⟩ := p
    by_cases hk : a = k
    · subst hk
      simp [mapSet]
    · have hk2 : ¬ k = a := fun h => hk h.symm
      by_cases hin : k ∈ rest.map Prod.fst
      · simp only [mapSet, hk, if_false, List.map_cons, ih, hin, if_true, List.mem_cons,
          or_true]
      · simp only [mapSet, hk, if_false, List.map_cons, ih, hin, List.mem_cons, hk2,
          or_self, List.cons_append]

theorem mapSet_keys_nodup {κ ν : Type} [DecidableEq κ] (m : List (κ × ν)) (k : κ) (v : ν)
    (hnd : (m.map Prod.fst).Nodup) : ((mapSet m k v).map Prod.fst).Nodup := by
  rw [mapSet_keys]
  by_cases hin : k ∈ m.map Prod.fst
  · rw [if_pos hin]; exact hnd
  · rw [if_neg hin]
    rw [List.nodup_append]
    refine ⟨hnd, List.nodup_singleton k, ?_⟩
    intro a ha hb
    rw [List.mem_singleton] at hb
    subst hb
    exact hin ha

theorem mem_mapSet {κ ν : Type} [DecidableEq κ] (m : List (κ × ν)) (k : κ) (v : ν)
    (p : κ × ν) (h : p ∈ mapSet m k v) : p ∈ m ∨ p = (k, v) := by
  induction m with
  | nil =>
    simp [mapSet] at h
    exact Or.inr h
  | cons q rest ih =>
    obtain ⟨a, x⟩ := q
    by_cases hk : a = k
    · subst hk
      simp only [mapSet, if_true, List.mem_cons] at h
      rcases h with h | h
      · exact Or.inr h
      · exact Or.inl (List.mem_cons_of_mem _ h)
    · simp only [mapSet, hk, if_false, List.mem_cons] at h
      rcases h with h | h
      · exact Or.inl (h ▸ List.mem_cons_self _ _)
      · rcases ih h with h2 | h2
        · exact Or.inl (List.mem_cons_of_mem _ h2)
        · exact Or.inr h2

theorem allBooks_pushBack (m : BookMap) (key : currencyIssuer_t) (book : OrderBook) :
    (allBooks (pushBack m key book)).Perm (book :: allBooks m) := by
  induction m with
  | nil => simp [pushBack, mapSet, mapFind, allBooks]
  | cons q rest ih =>
    obtain ⟨a, x⟩ := q
    by_cases hk : a = key
    · subst hk
      simp only [pushBack, mapFind, mapSet, if_true, Option.getD_some, allBooks]
      have h1 : (x ++ [book] ++ allBooks rest).Perm (book :: (x ++ allBooks rest)) := by
        rw [List.append_assoc]
        exact List.perm_middle
      exact h1
    · have hpb : pushBack ((a, x) :: rest) key book = (a, x) :: pushBack rest key book := by
        simp [pushBack, mapFind, mapSet, hk]
      rw [hpb]
      simp only [allBooks]
      exact (List.Perm.append_left x ih).trans List.perm_middle

/-! ## Lemmas: one visit of the scan -/

/-- The two outcomes of a visit that does not raise: nothing changes, or one new book is
appended to both maps and its base joins the seen-set. -/
theorem setupVisit_cases (getBookBase : BookBase) (pol : AbsentRead) (k : uint256) (e : SLE)
    (db : OrderBookDB) (mSeen : List uint256) (r : OrderBookDB × List uint256)
    (h : setupVisit getBookBase pol k e db mSeen = some r) :
    r = (db, mSeen) ∨
    ∃ ci co ii io,
      e.getType = LedgerEntryType.ltDIR_NODE ∧ isFieldPresent e.sfExchangeRate = true ∧
      getFieldH256 pol e.sfRootIndex = some k ∧
      getFieldH160 pol e.sfTakerPaysCurrency = some ci ∧
      getFieldH160 pol e.sfTakerGetsCurrency = some co ∧
      getFieldH160 pol e.sfTakerPaysIssuer = some ii ∧
      getFieldH160 pol e.sfTakerGetsIssuer = some io ∧
      getBookBase ci ii co io ∉ mSeen ∧
      r = ({ db with
             mSourceMap := pushBack db.mSourceMap (currencyIssuer_ct ci ii)
               ⟨getBookBase ci ii co io, ci, co, ii, io⟩
             mDestMap := pushBack db.mDestMap (currencyIssuer_ct co io)
               ⟨getBookBase ci ii co io, ci, co, ii, io⟩ },
           getBookBase ci ii co io :: mSeen) := by
  unfold setupVisit at h
  split at h
  · rename_i hroot
    split at h
    · exact absurd h (by simp)
    · rename_i root hr
      split at h
      · rename_i heq
        subst heq
        split at h
        · rename_i ci co ii io h1 h2 h3 h4
          simp only at h
          split at h
          · exact Or.inl (Option.some.inj h).symm
          · rename_i hnew
            exact Or.inr ⟨ci, co, ii, io, hroot.1, hroot.2, hr, h1, h2, h3, h4, hnew,
              (Option.some.inj h).symm⟩
        · exact absurd h (by simp)
      · exact Or.inl (Option.some.inj h).symm
  · exact Or.inl (Option.some.inj h).symm

/-- A visit of an entry that passes the book-root test and whose four fields read leaves
the book base of its 4-tuple in the seen-set. -/
theorem setupVisit_root (getBookBase : BookBase) (pol : AbsentRead) (k : uint256) (e : SLE)
    (db : OrderBookDB) (mSeen : List uint256) (ci co ii io : uint160)
    (htype : e.getType = LedgerEntryType.ltDIR_NODE)
    (hrate : isFieldPresent e.sfExchangeRate = true)
    (hroot : getFieldH256 pol e.sfRootIndex = some k)
    (h1 : getFieldH160 pol e.sfTakerPaysCurrency = some ci)
    (h2 : getFieldH160 pol e.sfTakerGetsCurrency = some co)
    (h3 : getFieldH160 pol e.sfTakerPaysIssuer = some ii)
    (h4 : getFieldH160 pol e.sfTakerGetsIssuer = some io) :
    ∃ r, setupVisit getBookBase pol k e db mSeen = some r ∧
      getBookBase ci ii co io ∈ r.2 := by
  unfold setupVisit
  simp only [htype, hrate, and_self, if_true, hroot, h1, h2, h3, h4]
  by_cases hin : getBookBase ci ii co io ∈ mSeen
  · exact ⟨(db, mSeen), by simp [hin], hin⟩
  · exact ⟨_, by simp [hin]; rfl, List.mem_cons_self _ _⟩

theorem setupVisit_seen_mono (getBookBase : BookBase) (pol : AbsentRead) (k : uint256)
    (e : SLE) (db : OrderBookDB) (mSeen : List uint256) (r : OrderBookDB × List uint256)
    (h : setupVisit getBookBase pol k e db mSeen = some r) : ∀ idx ∈ mSeen, idx ∈ r.2 := by
  intro idx hidx
  rcases setupVisit_cases getBookBase pol k e db mSeen r h with h1 | ⟨_, _, _, _, h1⟩
  · rw [h1]; exact hidx
  · rw [h1.2.2.2.2.2.2.2.2]; exact List.mem_cons_of_mem _ hidx

theorem setupVisit_frame (getBookBase : BookBase) (pol : AbsentRead) (k : uint256)
    (e : SLE) (db : OrderBookDB) (mSeen : List uint256) (r : OrderBookDB × List uint256)
    (h : setupVisit getBookBase pol k e db mSeen = some r) :
    r.1.mSeq = db.mSeq ∧ r.1.mListeners = db.mListeners := by
  rcases setupVisit_cases getBookBase pol k e db mSeen r h with h1 | ⟨_, _, _, _, h1⟩
  · rw [h1]; exact ⟨rfl, rfl⟩
  · rw [h1.2.2.2.2.2.2.2.2]; exact ⟨rfl, rfl⟩

/-! ## Lemmas: what the scan maintains -/

theorem scanInv_start (getBookBase : BookBase) (db : OrderBookDB) (ledger : Ledger) :
    ScanInv getBookBase (scanStart db ledger) [] := by
  constructor <;> simp [scanStart, allBooks]

theorem pushBack_key_discipline (m : BookMap) (key : currencyIssuer_t) (book : OrderBook)
    (f : OrderBook → currencyIssuer_t) (hkey : key = f book)
    (hm : ∀ p ∈ m, ∀ b ∈ p.2, p.1 = f b) :
    ∀ p ∈ pushBack m key book, ∀ b ∈ p.2, p.1 = f b := by
  intro p hp b hb
  rcases mem_mapSet m key _ p hp with h | h
  · exact hm p h b hb
  · subst h
    simp only [List.mem_append, List.mem_singleton] at hb
    rcases hb with hb | hb
    · cases hfind : mapFind m key with
      | none => simp [hfind] at hb
      | some old =>
        simp only [hfind, Option.getD_some] at hb
        exact hm (key, old) (mapFind_some_mem m key old hfind) b hb
    · subst hb
      exact hkey

theorem scanInv_visit (getBookBase : BookBase) (pol : AbsentRead) (k : uint256) (e : SLE)
    (db : OrderBookDB) (mSeen : List uint256) (r : OrderBookDB × List uint256)
    (hinv : ScanInv getBookBase db mSeen)
    (h : setupVisit getBookBase pol k e db mSeen = some r) :
    ScanInv getBookBase r.1 r.2 := by
  rcases setupVisit_cases getBookBase pol k e db mSeen r h with
    h1 | ⟨ci, co, ii, io, _, _, _, _, _, _, _, hnew, h1⟩
  · rw [h1]; exact hinv
  · rw [h1]
    have hps := allBooks_pushBack db.mSourceMap (currencyIssuer_ct ci ii)
      ⟨getBookBase ci ii co io, ci, co, ii, io⟩
    have hpd := allBooks_pushBack db.mDestMap (currencyIssuer_ct co io)
      ⟨getBookBase ci ii co io, ci, co, ii, io⟩
    constructor
    · intro b hb
      rcases List.mem_cons.mp (hps.mem_iff.mp hb) with hb | hb
      · subst hb; exact List.mem_cons_self _ _
      · exact List.mem_cons_of_mem _ (hinv.srcSeen b hb)
    · intro b hb
      rcases List.mem_cons.mp (hps.mem_iff.mp hb) with hb | hb
      · subst hb; rfl
      · exact hinv.srcBase b hb
    · have hp2 := hps.map OrderBook.mBookBase
      rw [hp2.nodup_iff, List.map_cons, List.nodup_cons]
      refine ⟨?_, hinv.srcNodup⟩
      intro hmem
      obtain ⟨b, hb, hbe⟩ := List.mem_map.mp hmem
      have hbe2 : b.mBookBase = getBookBase ci ii co io := hbe
      rw [← hbe2] at hnew
      exact hnew (hinv.srcSeen b hb)
    · intro idx hidx
      rcases List.mem_cons.mp hidx with hidx | hidx
      · exact ⟨⟨getBookBase ci ii co io, ci, co, ii, io⟩,
          hps.mem_iff.mpr (List.mem_cons_self _ _), hidx.symm⟩
      · obtain ⟨b, hb, hbe⟩ := hinv.seenSrc idx hidx
        exact ⟨b, hps.mem_iff.mpr (List.mem_cons_of_mem _ hb), hbe⟩
    · exact pushBack_key_discipline db.mSourceMap _ _
        (fun b => (b.mCurrencyIn, b.mIssuerIn)) rfl hinv.srcKey
    · exact pushBack_key_discipline db.mDestMap _ _
        (fun b => (b.mCurrencyOut, b.mIssuerOut)) rfl hinv.dstKey
    · exact mapSet_keys_nodup _ _ _ hinv.srcKeys
    · exact mapSet_keys_nodup _ _ _ hinv.dstKeys
    · exact hps.trans ((List.Perm.cons _ hinv.perm).trans hpd.symm)

theorem scanInv_scanList (getBookBase : BookBase) (pol : AbsentRead)
    (l : List (uint256 × SLE)) :
    ∀ (db : OrderBookDB) (mSeen : List uint256), ScanInv getBookBase db mSeen →
      ScanInv getBookBase (scanList getBookBase pol l db mSeen).1.1
        (scanList getBookBase pol l db mSeen).1.2 := by
  induction l with
  | nil => intro db mSeen hinv; exact hinv
  | cons p rest ih =>
    intro db mSeen hinv
    simp only [scanList]
    cases hv : setupVisit getBookBase pol p.1 p.2 db mSeen with
    | none => exact hinv
    | some r => exact ih r.1 r.2 (scanInv_visit getBookBase pol p.1 p.2 db mSeen r hinv hv)

theorem scanList_seen_mono (getBookBase : BookBase) (pol : AbsentRead)
    (l : List (uint256 × SLE)) :
    ∀ (db : OrderBookDB) (mSeen : List uint256), ∀ idx ∈ mSeen,
      idx ∈ (scanList getBookBase pol l db mSeen).1.2 := by
  induction l with
  | nil => intro db mSeen idx hidx; exact hidx
  | cons p rest ih =>
    intro db mSeen idx hidx
    simp only [scanList]
    cases hv : setupVisit getBookBase pol p.1 p.2 db mSeen with
    | none => exact hidx
    | some r =>
      exact ih r.1 r.2 idx (setupVisit_seen_mono getBookBase pol p.1 p.2 db mSeen r hv idx hidx)

theorem scanList_frame (getBookBase : BookBase) (pol : AbsentRead)
    (l : List (uint256 × SLE)) :
    ∀ (db : OrderBookDB) (mSeen : List uint256),
      (scanList getBookBase pol l db mSeen).1.1.mSeq = db.mSeq ∧
      (scanList getBookBase pol l db mSeen).1.1.mListeners = db.mListeners := by
  induction l with
  | nil => intro db mSeen; exact ⟨rfl, rfl⟩
  | cons p rest ih =>
    intro db mSeen
    simp only [scanList]
    cases hv : setupVisit getBookBase pol p.1 p.2 db mSeen with
    | none => exact ⟨rfl, rfl⟩
    | some r =>
      have h1 := ih r.1 r.2
      have h2 := setupVisit_frame getBookBase pol p.1 p.2 db mSeen r hv
      exact ⟨h1.1.trans h2.1, h1.2.trans h2.2⟩

/-- A scan that returns has left in the seen-set the book base of every entry that passes
the book-root test and whose four fields read. -/
theorem scanList_visits (getBookBase : BookBase) (pol : AbsentRead)
    (l : List (uint256 × SLE)) :
    ∀ (db : OrderBookDB) (mSeen : List uint256),
      (scanList getBookBase pol l db mSeen).2 = Completion.returned →
      ∀ (k : uint256) (e : SLE) (ci co ii io : uint160), (k, e) ∈ l →
        e.getType = LedgerEntryType.ltDIR_NODE → isFieldPresent e.sfExchangeRate = true →
        getFieldH256 pol e.sfRootIndex = some k →
        getFieldH160 pol e.sfTakerPaysCurrency = some ci →
        getFieldH160 pol e.sfTakerGetsCurrency = some co →
        getFieldH160 pol e.sfTakerPaysIssuer = some ii →
        getFieldH160 pol e.sfTakerGetsIssuer = some io →
        getBookBase ci ii co io ∈ (scanList getBookBase pol l db mSeen).1.2 := by
  induction l with
  | nil => intro db mSeen _ k e ci co ii io hmem; simp at hmem
  | cons p rest ih =>
    intro db mSeen hret k e ci co ii io hmem htype hrate hroot h1 h2 h3 h4
    simp only [scanList] at hret ⊢
    cases hv : setupVisit getBookBase pol p.1 p.2 db mSeen with
    | none => simp [hv] at hret
    | some r =>
      simp only [hv] at hret ⊢
      rcases List.mem_cons.mp hmem with heq | hmem2
      · subst heq
        obtain ⟨r2, hr2, hin⟩ := setupVisit_root getBookBase pol k e db mSeen ci co ii io
          htype hrate hroot h1 h2 h3 h4
        have hrr : r2 = r := Option.some.inj (hr2.symm.trans hv)
        subst hrr
        exact scanList_seen_mono getBookBase pol rest r2.1 r2.2 _ hin
      · exact ih r.1 r.2 hret k e ci co ii io hmem2 htype hrate hroot h1 h2 h3 h4

/-! ## Lemmas: lookups on a scanned index -/

theorem scanInv_lookup_src (getBookBase : BookBase) (db : OrderBookDB)
    (mSeen : List uint256) (hinv : ScanInv getBookBase db mSeen) (b : OrderBook)
    (hb : b ∈ allBooks db.mSourceMap) (bookRet : List OrderBook) :
    b ∈ db.getBooksByTakerPays b.mIssuerIn b.mCurrencyIn bookRet := by
  obtain ⟨p, hp, hbp⟩ := (mem_allBooks _ _).mp hb
  have hkey := hinv.srcKey p hp b hbp
  have hfind : mapFind db.mSourceMap (b.mCurrencyIn, b.mIssuerIn) = some p.2 :=
    mapFind_of_mem_nodup _ _ _ hinv.srcKeys (by rw [← hkey]; exact hp)
  simp only [OrderBookDB.getBooksByTakerPays, currencyIssuer_ct, hfind]
  exact hbp

theorem scanInv_lookup_dst (getBookBase : BookBase) (db : OrderBookDB)
    (mSeen : List uint256) (hinv : ScanInv getBookBase db mSeen) (b : OrderBook)
    (hb : b ∈ allBooks db.mDestMap) (bookRet : List OrderBook) :
    b ∈ db.getBooksByTakerGets b.mIssuerOut b.mCurrencyOut bookRet := by
  obtain ⟨p, hp, hbp⟩ := (mem_allBooks _ _).mp hb
  have hkey := hinv.dstKey p hp b hbp
  have hfind : mapFind db.mDestMap (b.mCurrencyOut, b.mIssuerOut) = some p.2 :=
    mapFind_of_mem_nodup _ _ _ hinv.dstKeys (by rw [← hkey]; exact hp)
  simp only [OrderBookDB.getBooksByTakerGets, currencyIssuer_ct, hfind]
  exact hbp

theorem scanInv_lookup_src_key (getBookBase : BookBase) (db : OrderBookDB)
    (mSeen : List uint256) (hinv : ScanInv getBookBase db mSeen) (b : OrderBook)
    (issuerID currencyID : uint160) (bookRet : List OrderBook)
    (hb : b ∈ db.getBooksByTakerPays issuerID currencyID bookRet) :
    currencyID = b.mCurrencyIn ∧ issuerID = b.mIssuerIn := by
  unfold OrderBookDB.getBooksByTakerPays currencyIssuer_ct at hb
  cases hfind : mapFind db.mSourceMap (currencyID, issuerID) with
  | none => simp [hfind] at hb
  | some books =>
    simp only [hfind] at hb
    have hkey := hinv.srcKey _ (mapFind_some_mem _ _ _ hfind) b hb
    exact ⟨congrArg Prod.fst hkey, congrArg Prod.snd hkey⟩

theorem scanInv_lookup_dst_key (getBookBase : BookBase) (db : OrderBookDB)
    (mSeen : List uint256) (hinv : ScanInv getBookBase db mSeen) (b : OrderBook)
    (issuerID currencyID : uint160) (bookRet : List OrderBook)
    (hb : b ∈ db.getBooksByTakerGets issuerID currencyID bookRet) :
    currencyID = b.mCurrencyOut ∧ issuerID = b.mIssuerOut := by
  unfold OrderBookDB.getBooksByTakerGets currencyIssuer_ct at hb
  cases hfind : mapFind db.mDestMap (currencyID, issuerID) with
  | none => simp [hfind] at hb
  | some books =>
    simp only [hfind] at hb
    have hkey := hinv.dstKey _ (mapFind_some_mem _ _ _ hfind) b hb
    exact ⟨congrArg Prod.fst hkey, congrArg Prod.snd hkey⟩

/-- The index that a scanning `setup` leaves satisfies the scan invariant for the
seen-set the scan ended with. -/
theorem setup_scanInv (getBookBase : BookBase) (pol : AbsentRead)
    (db db2 : OrderBookDB) (ledger : Ledger) (c : Completion)
    (hseq : db.mSeq ≠ ledger.getLedgerSeq)
    (hsetup : db.setup getBookBase pol ledger = some (db2, c)) :
    db2 = (scanList getBookBase pol ledger.mAccountState (scanStart db ledger) []).1.1 ∧
    c = (scanList getBookBase pol ledger.mAccountState (scanStart db ledger) []).2 ∧
    ScanInv getBookBase db2
      (scanList getBookBase pol ledger.mAccountState (scanStart db ledger) []).1.2 := by
  rw [setup_eq getBookBase pol db ledger hseq] at hsetup
  have h := Option.some.inj hsetup
  have h1 : (scanList getBookBase pol ledger.mAccountState (scanStart db ledger) []).1.1 = db2 :=
    congrArg Prod.fst h
  have h2 : (scanList getBookBase pol ledger.mAccountState (scanStart db ledger) []).2 = c :=
    congrArg Prod.snd h
  refine ⟨h1.symm, h2.symm, ?_⟩
  rw [← h1]
  exact scanInv_scanList getBookBase pol _ _ _ (scanInv_start getBookBase db ledger)

theorem pairBase_injective : BookBase.Injective pairBase := by
  intro ci ii co io ci2 ii2 co2 io2 h
  unfold pairBase at h
  rw [Nat.pair_eq_pair, Nat.pair_eq_pair, Nat.pair_eq_pair] at h
  exact ⟨h.1.1, h.1.2, h.2.1, h.2.2⟩

/-- After a returning scan, each entry that passes the book-root test and whose four
fields read as `(ci, ii, co, io)` has its book in both maps. -/
theorem setup_root_book (getBookBase : BookBase) (pol : AbsentRead)
    (hinj : BookBase.Injective getBookBase)
    (db db2 : OrderBookDB) (ledger : Ledger) (hseq : db.mSeq ≠ ledger.getLedgerSeq)
    (hsetup : db.setup getBookBase pol ledger = some (db2, Completion.returned))
    (k : uint256) (e : SLE) (ci co ii io : uint160)
    (hentry : (k, e) ∈ ledger.mAccountState)
    (htype : e.getType = LedgerEntryType.ltDIR_NODE)
    (hrate : isFieldPresent e.sfExchangeRate = true)
    (hroot : getFieldH256 pol e.sfRootIndex = some k)
    (h1 : getFieldH160 pol e.sfTakerPaysCurrency = some ci)
    (h2 : getFieldH160 pol e.sfTakerGetsCurrency = some co)
    (h3 : getFieldH160 pol e.sfTakerPaysIssuer = some ii)
    (h4 : getFieldH160 pol e.sfTakerGetsIssuer = some io) :
    (⟨getBookBase ci ii co io, ci, co, ii, io⟩ : OrderBook) ∈ allBooks db2.mSourceMap ∧
    (⟨getBookBase ci ii co io, ci, co, ii, io⟩ : OrderBook) ∈ allBooks db2.mDestMap := by
  obtain ⟨hdb, hc, hinv⟩ := setup_scanInv getBookBase pol db db2 ledger _ hseq hsetup
  have hseen := scanList_visits getBookBase pol ledger.mAccountState (scanStart db ledger) []
    hc.symm k e ci co ii io hentry htype hrate hroot h1 h2 h3 h4
  obtain ⟨b, hb, hbe⟩ := hinv.seenSrc _ hseen
  have hbase := hinv.srcBase b hb
  obtain ⟨e1, e2, e3, e4⟩ := hinj _ _ _ _ _ _ _ _ (hbase.symm.trans hbe)
  have hbeq : b = ⟨getBookBase ci ii co io, ci, co, ii, io⟩ := by
    cases b
    simp only [OrderBook.mk.injEq]
    simp only at hbe e1 e2 e3 e4
    exact ⟨hbe, e1, e3, e2, e4⟩
  rw [← hbeq]
  exact ⟨hb, hinv.perm.mem_iff.mp hb⟩

/-! ## C1: bidirectional indexing -/

/-- C1. Bidirectional indexing. Let `getBookBase` separate 4-tuples, let the version of
the index differ from the ledger's sequence, and let `setup` return. Then for every state
entry that passes the book-root test (directory node, exchange rate present, root index
equal to its own key) and whose taker-pays side reads `(c1, i1)` and taker-gets side
`(c2, i2)`: `getBooksByTakerPays(i1, c1)` returns a list containing the book with that
4-tuple, `getBooksByTakerGets(i2, c2)` returns a list containing the same book, and
neither lookup returns that book for any other (currency, issuer) key. -/
theorem C1_bidirectional_indexing (getBookBase : BookBase) (pol : AbsentRead)
    (hinj : BookBase.Injective getBookBase)
    (db db2 : OrderBookDB) (ledger : Ledger) (hseq : db.mSeq ≠ ledger.getLedgerSeq)
    (hsetup : db.setup getBookBase pol ledger = some (db2, Completion.returned))
    (k : uint256) (e : SLE) (c1 i1 c2 i2 : uint160)
    (hentry : (k, e) ∈ ledger.mAccountState)
    (htype : e.getType = LedgerEntryType.ltDIR_NODE)
    (hrate : isFieldPresent e.sfExchangeRate = true)
    (hroot : getFieldH256 pol e.sfRootIndex = some k)
    (hpc : getFieldH160 pol e.sfTakerPaysCurrency = some c1)
    (hpi : getFieldH160 pol e.sfTakerPaysIssuer = some i1)
    (hgc : getFieldH160 pol e.sfTakerGetsCurrency = some c2)
    (hgi : getFieldH160 pol e.sfTakerGetsIssuer = some i2) :
    (∀ bookRet, (⟨getBookBase c1 i1 c2 i2, c1, c2, i1, i2⟩ : OrderBook) ∈
        db2.getBooksByTakerPays i1 c1 bookRet) ∧
    (∀ bookRet, (⟨getBookBase c1 i1 c2 i2, c1, c2, i1, i2⟩ : OrderBook) ∈
        db2.getBooksByTakerGets i2 c2 bookRet) ∧
    (∀ issuerID currencyID bookRet,
      (⟨getBookBase c1 i1 c2 i2, c1, c2, i1, i2⟩ : OrderBook) ∈
        db2.getBooksByTakerPays issuerID currencyID bookRet →
      currencyID = c1 ∧ issuerID = i1) ∧
    (∀ issuerID currencyID bookRet,
      (⟨getBookBase c1 i1 c2 i2, c1, c2, i1, i2⟩ : OrderBook) ∈
        db2.getBooksByTakerGets issuerID currencyID bookRet →
      currencyID = c2 ∧ issuerID = i2) := by
  obtain ⟨_, _, hinv⟩ := setup_scanInv getBookBase pol db db2 ledger _ hseq hsetup
  obtain ⟨hsrc, hdst⟩ := setup_root_book getBookBase pol hinj db db2 ledger hseq hsetup
    k e c1 c2 i1 i2 hentry htype hrate hroot hpc hgc hpi hgi
  refine ⟨?_, ?_, ?_, ?_⟩
  · intro bookRet
    exact scanInv_lookup_src getBookBase db2 _ hinv _ hsrc bookRet
  · intro bookRet
    exact scanInv_lookup_dst getBookBase db2 _ hinv _ hdst bookRet
  · intro issuerID currencyID bookRet hb
    exact scanInv_lookup_src_key getBookBase db2 _ hinv _ issuerID currencyID bookRet hb
  · intro issuerID currencyID bookRet hb
    exact scanInv_lookup_dst_key getBookBase db2 _ hinv _ issuerID currencyID bookRet hb

/-- C1 at the sample ledger, for the reverse book rooted at key 9, from a new index. -/
theorem C1_bidirectional_indexing_witness :
    (∀ bookRet, (⟨pairBase 3 4 1 2, 3, 1, 4, 2⟩ : OrderBook) ∈
        (sampleIndex).getBooksByTakerPays 4 3 bookRet) ∧
    (∀ bookRet, (⟨pairBase 3 4 1 2, 3, 1, 4, 2⟩ : OrderBook) ∈
        (sampleIndex).getBooksByTakerGets 2 1 bookRet) ∧
    (∀ issuerID currencyID bookRet,
      (⟨pairBase 3 4 1 2, 3, 1, 4, 2⟩ : OrderBook) ∈
        (sampleIndex).getBooksByTakerPays issuerID currencyID bookRet →
      currencyID = 3 ∧ issuerID = 4) ∧
    (∀ issuerID currencyID bookRet,
      (⟨pairBase 3 4 1 2, 3, 1, 4, 2⟩ : OrderBook) ∈
        (sampleIndex).getBooksByTakerGets issuerID currencyID bookRet →
      currencyID = 1 ∧ issuerID = 2) :=
  C1_bidirectional_indexing pairBase AbsentRead.raises pairBase_injective
    OrderBookDB.new sampleIndex sampleLedger (by decide) (by decide)
    9 (bookRoot 9 3 4 1 2) 3 4 1 2 (by decide) rfl rfl rfl rfl rfl rfl rfl

/-! ## C2: dedup -/

theorem countP_eq_one_of_nodup_map {α β : Type} (f : α → β) (p : α → Bool) (l : List α)
    (x : α) (hnd : (l.map f).Nodup) (hx : x ∈ l) (hpx : p x = true)
    (hp : ∀ y ∈ l, p y = true → f y = f x) : l.countP p = 1 := by
  induction l with
  | nil => simp at hx
  | cons a rest ih =>
    simp only [List.map_cons, List.nodup_cons] at hnd
    rcases List.mem_cons.mp hx with hxa | hxr
    · subst hxa
      have hzero : rest.countP p = 0 := by
        rw [List.countP_eq_zero]
        intro y hy hpy
        have := hp y (List.mem_cons_of_mem _ hy) hpy
        exact hnd.1 (List.mem_map.mpr ⟨y, hy, this⟩)
      simp [List.countP_cons, hpx, hzero]
    · have hpa : ¬ p a = true := by
        intro hpa
        have := hp a (List.mem_cons_self _ _) hpa
        exact hnd.1 (List.mem_map.mpr ⟨x, hxr, this.symm⟩)
      have hrest := ih hnd.2 hxr (fun y hy => hp y (List.mem_cons_of_mem _ hy))
      simp [List.countP_cons, hpa, hrest]

theorem scanInv_count_src (getBookBase : BookBase) (db : OrderBookDB)
    (mSeen : List uint256) (hinv : ScanInv getBookBase db mSeen) (ci ii co io : uint160)
    (hb : (⟨getBookBase ci ii co io, ci, co, ii, io⟩ : OrderBook) ∈ allBooks db.mSourceMap) :
    (allBooks db.mSourceMap).countP (OrderBook.hasTuple ci ii co io) = 1 := by
  apply countP_eq_one_of_nodup_map OrderBook.mBookBase _ _ _ hinv.srcNodup hb
  · simp [OrderBook.hasTuple]
  · intro y hy hpy
    simp only [OrderBook.hasTuple, decide_eq_true_eq] at hpy
    rw [hinv.srcBase y hy, hpy.1, hpy.2.1, hpy.2.2.1, hpy.2.2.2]

theorem scanInv_count_dst (getBookBase : BookBase) (db : OrderBookDB)
    (mSeen : List uint256) (hinv : ScanInv getBookBase db mSeen) (ci ii co io : uint160)
    (hb : (⟨getBookBase ci ii co io, ci, co, ii, io⟩ : OrderBook) ∈ allBooks db.mSourceMap) :
    (allBooks db.mDestMap).countP (OrderBook.hasTuple ci ii co io) = 1 := by
  rw [← hinv.perm.countP_eq]
  exact scanInv_count_src getBookBase db mSeen hinv ci ii co io hb

/-- C2, amended. Dedup. For every ledger and every index whose version differs from the
ledger's sequence number, after `setup`, however it ends, no two books in the source map
and no two books in the destination map share a book base. When moreover `setup` returns
and `getBookBase` separates 4-tuples, then for every 4-tuple read from an entry that
passes the book-root test, however many entries carry it, the source map holds exactly
one book with that 4-tuple and the destination map holds exactly one. -/
theorem C2_dedup (getBookBase : BookBase) (pol : AbsentRead)
    (db db2 : OrderBookDB) (ledger : Ledger) (c : Completion)
    (hseq : db.mSeq ≠ ledger.getLedgerSeq)
    (hsetup : db.setup getBookBase pol ledger = some (db2, c)) :
    ((allBooks db2.mSourceMap).map OrderBook.mBookBase).Nodup ∧
    ((allBooks db2.mDestMap).map OrderBook.mBookBase).Nodup ∧
    (c = Completion.returned → BookBase.Injective getBookBase →
      ∀ (k : uint256) (e : SLE) (ci ii co io : uint160),
        (k, e) ∈ ledger.mAccountState →
        e.getType = LedgerEntryType.ltDIR_NODE → isFieldPresent e.sfExchangeRate = true →
        getFieldH256 pol e.sfRootIndex = some k →
        getFieldH160 pol e.sfTakerPaysCurrency = some ci →
        getFieldH160 pol e.sfTakerPaysIssuer = some ii →
        getFieldH160 pol e.sfTakerGetsCurrency = some co →
        getFieldH160 pol e.sfTakerGetsIssuer = some io →
        (allBooks db2.mSourceMap).countP (OrderBook.hasTuple ci ii co io) = 1 ∧
        (allBooks db2.mDestMap).countP (OrderBook.hasTuple ci ii co io) = 1) := by
  obtain ⟨_, _, hinv⟩ := setup_scanInv getBookBase pol db db2 ledger c hseq hsetup
  refine ⟨hinv.srcNodup, ?_, ?_⟩
  · rw [← (hinv.perm.map OrderBook.mBookBase).nodup_iff]
    exact hinv.srcNodup
  · intro hc hinj k e ci ii co io hentry htype hrate hroot hpc hpi hgc hgi
    subst hc
    obtain ⟨hsrc, _⟩ := setup_root_book getBookBase pol hinj db db2 ledger hseq hsetup
      k e ci co ii io hentry htype hrate hroot hpc hgc hpi hgi
    exact ⟨scanInv_count_src getBookBase db2 _ hinv ci ii co io hsrc,
      scanInv_count_dst getBookBase db2 _ hinv ci ii co io hsrc⟩

/-- C2 at the sample ledger, whose entries at keys 5 and 6 carry the same 4-tuple. -/
theorem C2_dedup_witness :
    ((allBooks sampleIndex.mSourceMap).map OrderBook.mBookBase).Nodup ∧
    ((allBooks sampleIndex.mDestMap).map OrderBook.mBookBase).Nodup ∧
    (allBooks sampleIndex.mSourceMap).countP (OrderBook.hasTuple 1 2 3 4) = 1 ∧
    (allBooks sampleIndex.mDestMap).countP (OrderBook.hasTuple 1 2 3 4) = 1 :=
  have h := C2_dedup pairBase AbsentRead.raises OrderBookDB.new sampleIndex sampleLedger
    Completion.returned (by decide) (by decide)
  ⟨h.1, h.2.1, h.2.2 rfl pairBase_injective 6 (bookRoot 6 1 2 3 4) 1 2 3 4 (by decide)
    rfl rfl rfl rfl rfl rfl rfl⟩

/-- C2 fails as stated, in two ways. First, on the index that `setup` built from the
sample ledger (version 7), `setup` with another ledger of sequence 7 returns at once:
that ledger has a book root for (8,8)/(9,9) and neither map holds a book with that
4-tuple. Second, with a book base that gives all 4-tuples the same base, a `setup` that
scans the sample ledger and returns holds no book for the 4-tuple (3,4)/(1,2) of the book
root at key 9: the seen-set had the base already. -/
theorem C2_counterexample :
    OrderBookDB.new.setup pairBase AbsentRead.raises sampleLedger =
      some (sampleIndex, Completion.returned) ∧
    sampleIndex.setup pairBase AbsentRead.raises sampleLedgerB =
      some (sampleIndex, Completion.returned) ∧
    sampleIndex.setup pairBase AbsentRead.yieldsZero sampleLedgerB =
      some (sampleIndex, Completion.returned) ∧
    (3, bookRoot 3 8 8 9 9) ∈ sampleLedgerB.mAccountState ∧
    (allBooks sampleIndex.mSourceMap).countP (OrderBook.hasTuple 8 8 9 9) = 0 ∧
    (allBooks sampleIndex.mDestMap).countP (OrderBook.hasTuple 8 8 9 9) = 0 ∧
    (9, bookRoot 9 3 4 1 2) ∈ sampleLedger.mAccountState ∧
    ∃ db2, OrderBookDB.new.setup constBase AbsentRead.raises sampleLedger =
        some (db2, Completion.returned) ∧
      OrderBookDB.new.setup constBase AbsentRead.yieldsZero sampleLedger =
        some (db2, Completion.returned) ∧
      (allBooks db2.mSourceMap).countP (OrderBook.hasTuple 3 4 1 2) = 0 ∧
      (allBooks db2.mDestMap).countP (OrderBook.hasTuple 3 4 1 2) = 0 := by
  refine ⟨by decide, by decide, by decide, by decide, by decide, by decide, by decide,
    { mSeq := 7, mSourceMap := [((1, 2), [⟨1, 1, 3, 2, 4⟩])],
      mDestMap := [((3, 4), [⟨1, 1, 3, 2, 4⟩])], mListeners := [] }, ?_, ?_, ?_, ?_⟩ <;>
    decide

/-! ## Lemmas: the scan does not depend on the rest of the index -/

theorem setupVisit_maps_congr (getBookBase : BookBase) (pol : AbsentRead) (k : uint256)
    (e : SLE) (db dbB : OrderBookDB) (mSeen : List uint256)
    (hs : db.mSourceMap = dbB.mSourceMap) (hd : db.mDestMap = dbB.mDestMap) :
    (setupVisit getBookBase pol k e db mSeen = none ∧
      setupVisit getBookBase pol k e dbB mSeen = none) ∨
    ∃ r rB, setupVisit getBookBase pol k e db mSeen = some r ∧
      setupVisit getBookBase pol k e dbB mSeen = some rB ∧
      r.1.mSourceMap = rB.1.mSourceMap ∧ r.1.mDestMap = rB.1.mDestMap ∧ r.2 = rB.2 := by
  unfold setupVisit
  split
  · split
    · exact Or.inl ⟨rfl, rfl⟩
    · split
      · split
        · simp only
          split
          · exact Or.inr ⟨_, _, rfl, rfl, hs, hd, rfl⟩
          · refine Or.inr ⟨_, _, rfl, rfl, ?_, ?_, rfl⟩
            · simp only [hs]
            · simp only [hd]
        · exact Or.inl ⟨rfl, rfl⟩
      · exact Or.inr ⟨_, _, rfl, rfl, hs, hd, rfl⟩
  · exact Or.inr ⟨_, _, rfl, rfl, hs, hd, rfl⟩

theorem scanList_maps_congr (getBookBase : BookBase) (pol : AbsentRead)
    (l : List (uint256 × SLE)) :
    ∀ (db dbB : OrderBookDB) (mSeen : List uint256),
      db.mSourceMap = dbB.mSourceMap → db.mDestMap = dbB.mDestMap →
      (scanList getBookBase pol l db mSeen).1.1.mSourceMap =
        (scanList getBookBase pol l dbB mSeen).1.1.mSourceMap ∧
      (scanList getBookBase pol l db mSeen).1.1.mDestMap =
        (scanList getBookBase pol l dbB mSeen).1.1.mDestMap ∧
      (scanList getBookBase pol l db mSeen).2 = (scanList getBookBase pol l dbB mSeen).2 := by
  induction l with
  | nil => intro db dbB mSeen hs hd; exact ⟨hs, hd, rfl⟩
  | cons p rest ih =>
    intro db dbB mSeen hs hd
    simp only [scanList]
    rcases setupVisit_maps_congr getBookBase pol p.1 p.2 db dbB mSeen hs hd with
      ⟨h1, h2⟩ | ⟨r, rB, h1, h2, hs2, hd2, hseen⟩
    · simp only [h1, h2]
      exact ⟨hs, hd, trivial⟩
    · simp only [h1, h2]
      rw [hseen]
      exact ih r.1 rB.1 rB.2 hs2 hd2

/-- A scanning `setup` ends, and what it leaves is the index built from the ledger alone,
under the ledger's sequence number, with the listener registry of the index it began
from. -/
theorem setup_builtFrom (getBookBase : BookBase) (pol : AbsentRead)
    (db : OrderBookDB) (ledger : Ledger) (hseq : db.mSeq ≠ ledger.getLedgerSeq) :
    ∃ r, db.setup getBookBase pol ledger = some r ∧
      r.1.mSourceMap = (builtFrom getBookBase pol ledger).1.mSourceMap ∧
      r.1.mDestMap = (builtFrom getBookBase pol ledger).1.mDestMap ∧
      r.2 = (builtFrom getBookBase pol ledger).2 ∧
      r.1.mSeq = ledger.getLedgerSeq ∧ r.1.mListeners = db.mListeners := by
  refine ⟨_, setup_eq getBookBase pol db ledger hseq, ?_⟩
  have hc := scanList_maps_congr getBookBase pol ledger.mAccountState
    (scanStart db ledger) (scanStart OrderBookDB.new ledger) [] rfl rfl
  have hf := scanList_frame getBookBase pol ledger.mAccountState (scanStart db ledger) []
  exact ⟨hc.1, hc.2.1, hc.2.2, hf.1, hf.2⟩

/-- The method `setup` always ends: the loop bound is never reached. -/
theorem setup_total (getBookBase : BookBase) (pol : AbsentRead)
    (db : OrderBookDB) (ledger : Ledger) :
    ∃ r, db.setup getBookBase pol ledger = some r ∧ r.1.mSeq = ledger.getLedgerSeq ∧
      r.1.mListeners = db.mListeners := by
  by_cases hseq : db.mSeq = ledger.getLedgerSeq
  · refine ⟨(db, Completion.returned), ?_, hseq, rfl⟩
    simp [OrderBookDB.setup, OrderBookDB.setupFuel, hseq]
  · obtain ⟨r, hr, _, _, _, h1, h2⟩ := setup_builtFrom getBookBase pol db ledger hseq
    exact ⟨r, hr, h1, h2⟩

/-! ## C3: version idempotence -/

/-- C3. Version idempotence. When the ledger's sequence number equals the version of the
index, `setup` returns at once with the index unchanged (version, both maps, listener
registry), whatever the ledger holds: it does so even with no fuel for the scan loop, so
no scan is made. Hence, from any index `db0`, `setup` ends and a second `setup` with the
same ledger returns the index the first one left. -/
theorem C3_version_idempotence (getBookBase : BookBase) (pol : AbsentRead)
    (db : OrderBookDB) (ledger : Ledger) (hseq : ledger.getLedgerSeq = db.mSeq)
    (db0 : OrderBookDB) :
    db.setupFuel getBookBase pol 0 ledger = some (db, Completion.returned) ∧
    db.setup getBookBase pol ledger = some (db, Completion.returned) ∧
    ∃ r, db0.setup getBookBase pol ledger = some r ∧
      r.1.setup getBookBase pol ledger = some (r.1, Completion.returned) := by
  refine ⟨?_, ?_, ?_⟩
  · simp [OrderBookDB.setupFuel, hseq]
  · simp [OrderBookDB.setup, OrderBookDB.setupFuel, hseq]
  · obtain ⟨r, hr, hv, _⟩ := setup_total getBookBase pol db0 ledger
    refine ⟨r, hr, ?_⟩
    simp [OrderBookDB.setup, OrderBookDB.setupFuel, hv]

/-- C3 at the index built from the sample ledger, offered a ledger with the same sequence
number and other contents. -/
theorem C3_version_idempotence_witness :
    sampleIndex.setupFuel pairBase AbsentRead.raises 0 sampleLedgerB =
      some (sampleIndex, Completion.returned) ∧
    sampleIndex.setup pairBase AbsentRead.raises sampleLedgerB =
      some (sampleIndex, Completion.returned) ∧
    ∃ r, OrderBookDB.new.setup pairBase AbsentRead.raises sampleLedgerB = some r ∧
      r.1.setup pairBase AbsentRead.raises sampleLedgerB = some (r.1, Completion.returned) :=
  C3_version_idempotence pairBase AbsentRead.raises sampleIndex sampleLedgerB (by decide)
    OrderBookDB.new

/-! ## C4: invalidate forces a rescan -/

/-- C4, amended. Invalidate forces a rescan for every sequence number other than zero:
for a ledger `L2` with nonzero sequence number, any ledger `L` (in particular one with
the same sequence number) and any index, the calls `setup(L)`, `invalidate()`,
`setup(L2)` all end, the second `setup` enters the scan loop (with no fuel for the loop
it does not end), and the maps afterwards are those of the index built from `L2`, under
the version of `L2`. -/
theorem C4_invalidate_forces_rescan (getBookBase : BookBase) (pol : AbsentRead)
    (db : OrderBookDB) (L L2 : Ledger) (hnz : L2.getLedgerSeq ≠ 0) :
    ∃ r1 r2, db.setup getBookBase pol L = some r1 ∧
      r1.1.invalidate.setup getBookBase pol L2 = some r2 ∧
      r1.1.invalidate.setupFuel getBookBase pol 0 L2 = none ∧
      r2.1.mSourceMap = (builtFrom getBookBase pol L2).1.mSourceMap ∧
      r2.1.mDestMap = (builtFrom getBookBase pol L2).1.mDestMap ∧
      r2.2 = (builtFrom getBookBase pol L2).2 ∧
      r2.1.mSeq = L2.getLedgerSeq ∧ r2.1.mListeners = db.mListeners := by
  obtain ⟨r1, hr1, _, hl1⟩ := setup_total getBookBase pol db L
  have hseq : r1.1.invalidate.mSeq ≠ L2.getLedgerSeq := fun h => hnz h.symm
  obtain ⟨r2, hr2, hs, hd, hc, hv, hl2⟩ :=
    setup_builtFrom getBookBase pol r1.1.invalidate L2 hseq
  refine ⟨r1, r2, hr1, hr2, ?_, hs, hd, hc, hv, hl2.trans hl1⟩
  have hne : ¬ L2.getLedgerSeq = r1.1.invalidate.mSeq := fun h => hseq h.symm
  simp [OrderBookDB.setupFuel, hne, setupLoop]

/-- C4 at the sample ledger and a ledger with the same sequence number 7. -/
theorem C4_invalidate_forces_rescan_witness :
    ∃ r1 r2, OrderBookDB.new.setup pairBase AbsentRead.raises sampleLedger = some r1 ∧
      r1.1.invalidate.setup pairBase AbsentRead.raises sampleLedgerB = some r2 ∧
      r1.1.invalidate.setupFuel pairBase AbsentRead.raises 0 sampleLedgerB = none ∧
      r2.1.mSourceMap = (builtFrom pairBase AbsentRead.raises sampleLedgerB).1.mSourceMap ∧
      r2.1.mDestMap = (builtFrom pairBase AbsentRead.raises sampleLedgerB).1.mDestMap ∧
      r2.2 = (builtFrom pairBase AbsentRead.raises sampleLedgerB).2 ∧
      r2.1.mSeq = sampleLedgerB.getLedgerSeq ∧ r2.1.mListeners = OrderBookDB.new.mListeners :=
  C4_invalidate_forces_rescan pairBase AbsentRead.raises OrderBookDB.new sampleLedger
    sampleLedgerB (by decide)

/-- C4 fails at sequence number zero. From the index of the sample ledger (version 7),
`setup` with a ledger of sequence zero scans it and sets the version to zero;
`invalidate()` leaves the version at zero; `setup` with another ledger of sequence zero
then returns without entering the loop, and the maps are those left by the first ledger,
not the index built from the second. -/
theorem C4_counterexample :
    zeroLedgerA.getLedgerSeq = zeroLedgerB.getLedgerSeq ∧
    ∃ db1 db2,
      sampleIndex.setup pairBase AbsentRead.raises zeroLedgerA =
        some (db1, Completion.returned) ∧
      db1.invalidate.setup pairBase AbsentRead.raises zeroLedgerB =
        some (db2, Completion.returned) ∧
      db1.invalidate.setupFuel pairBase AbsentRead.raises 0 zeroLedgerB =
        some (db2, Completion.returned) ∧
      db2.mSourceMap = (builtFrom pairBase AbsentRead.raises zeroLedgerA).1.mSourceMap ∧
      db2.mDestMap = (builtFrom pairBase AbsentRead.raises zeroLedgerA).1.mDestMap ∧
      db2.mSourceMap ≠ (builtFrom pairBase AbsentRead.raises zeroLedgerB).1.mSourceMap ∧
      db2.mDestMap ≠ (builtFrom pairBase AbsentRead.raises zeroLedgerB).1.mDestMap := by
  refine ⟨rfl, (builtFrom pairBase AbsentRead.raises zeroLedgerA).1,
    (builtFrom pairBase AbsentRead.raises zeroLedgerA).1, ?_, ?_, ?_, rfl, rfl, ?_, ?_⟩ <;>
    decide

/-! ## C5: a rebuild reflects one ledger -/

theorem scanList_provenance (getBookBase : BookBase) (pol : AbsentRead)
    (l : List (uint256 × SLE)) :
    ∀ (db : OrderBookDB) (mSeen : List uint256),
      ∀ b ∈ allBooks (scanList getBookBase pol l db mSeen).1.1.mSourceMap,
        b ∈ allBooks db.mSourceMap ∨ yieldsBook getBookBase pol l b := by
  induction l with
  | nil => intro db mSeen b hb; exact Or.inl hb
  | cons p rest ih =>
    intro db mSeen b hb
    simp only [scanList] at hb
    cases hv : setupVisit getBookBase pol p.1 p.2 db mSeen with
    | none =>
      simp only [hv] at hb
      exact Or.inl hb
    | some r =>
      simp only [hv] at hb
      rcases ih r.1 r.2 b hb with h | ⟨k, e, hmem, hrest⟩
      · rcases setupVisit_cases getBookBase pol p.1 p.2 db mSeen r hv with
          h1 | ⟨ci, co, ii, io, htype, hrate, hroot, h1, h2, h3, h4, _, hr⟩
        · rw [h1] at h
          exact Or.inl h
        · rw [hr] at h
          rcases List.mem_cons.mp ((allBooks_pushBack _ _ _).mem_iff.mp h) with hb2 | hb2
          · subst hb2
            exact Or.inr ⟨p.1, p.2, List.mem_cons_self _ _, htype, hrate, hroot,
              h1, h3, h2, h4, rfl⟩
          · exact Or.inl hb2
      · exact Or.inr ⟨k, e, List.mem_cons_of_mem _ hmem, hrest⟩

/-- C5. A rebuild reflects exactly one ledger. From any two indexes whose versions differ
from the ledger's sequence, `setup` ends, ends the same way, and leaves the same source
map and the same destination map, under the ledger's sequence number as version; and
every book in either map is one that the scan constructs for an entry of this ledger, so
no book of an earlier build is left. -/
theorem C5_rebuild_reflects_one_ledger (getBookBase : BookBase) (pol : AbsentRead)
    (ledger : Ledger) (db1 db2 : OrderBookDB)
    (h1 : db1.mSeq ≠ ledger.getLedgerSeq) (h2 : db2.mSeq ≠ ledger.getLedgerSeq) :
    ∃ r1 r2, db1.setup getBookBase pol ledger = some r1 ∧
      db2.setup getBookBase pol ledger = some r2 ∧
      r1.1.mSourceMap = r2.1.mSourceMap ∧ r1.1.mDestMap = r2.1.mDestMap ∧ r1.2 = r2.2 ∧
      r1.1.mSeq = ledger.getLedgerSeq ∧ r2.1.mSeq = ledger.getLedgerSeq ∧
      (∀ b ∈ allBooks r1.1.mSourceMap, yieldsBook getBookBase pol ledger.mAccountState b) ∧
      (∀ b ∈ allBooks r1.1.mDestMap, yieldsBook getBookBase pol ledger.mAccountState b) := by
  obtain ⟨r1, hr1, hs1, hd1, hc1, hv1, _⟩ := setup_builtFrom getBookBase pol db1 ledger h1
  obtain ⟨r2, hr2, hs2, hd2, hc2, hv2, _⟩ := setup_builtFrom getBookBase pol db2 ledger h2
  obtain ⟨hdb, _, hinv⟩ := setup_scanInv getBookBase pol db1 r1.1 ledger r1.2 h1 hr1
  have hprov : ∀ b ∈ allBooks r1.1.mSourceMap,
      yieldsBook getBookBase pol ledger.mAccountState b := by
    intro b hb
    rw [hdb] at hb
    rcases scanList_provenance getBookBase pol ledger.mAccountState _ _ b hb with h | h
    · simp [scanStart, allBooks] at h
    · exact h
  refine ⟨r1, r2, hr1, hr2, hs1.trans hs2.symm, hd1.trans hd2.symm, hc1.trans hc2.symm,
    hv1, hv2, hprov, ?_⟩
  intro b hb
  exact hprov b (hinv.perm.mem_iff.mpr hb)

/-- C5 at the sample ledger, from a new index and from an index holding other books. -/
theorem C5_rebuild_reflects_one_ledger_witness :
    ∃ r1 r2, OrderBookDB.new.setup pairBase AbsentRead.raises sampleLedger = some r1 ∧
      staleIndex.setup pairBase AbsentRead.raises sampleLedger = some r2 ∧
      r1.1.mSourceMap = r2.1.mSourceMap ∧ r1.1.mDestMap = r2.1.mDestMap ∧ r1.2 = r2.2 ∧
      r1.1.mSeq = sampleLedger.getLedgerSeq ∧ r2.1.mSeq = sampleLedger.getLedgerSeq ∧
      (∀ b ∈ allBooks r1.1.mSourceMap,
        yieldsBook pairBase AbsentRead.raises sampleLedger.mAccountState b) ∧
      (∀ b ∈ allBooks r1.1.mDestMap,
        yieldsBook pairBase AbsentRead.raises sampleLedger.mAccountState b) :=
  C5_rebuild_reflects_one_ledger pairBase AbsentRead.raises sampleLedger OrderBookDB.new
    staleIndex (by decide) (by decide)

/-! ## C6: robustness of the scan -/

theorem setupVisit_skipped (getBookBase : BookBase) (pol : AbsentRead) (k : uint256)
    (e : SLE) (db : OrderBookDB) (mSeen : List uint256) (h : skippedAt pol k e) :
    setupVisit getBookBase pol k e db mSeen = some (db, mSeen) := by
  unfold setupVisit
  rcases h with h | h | ⟨root, hr, hne⟩
  · simp [h]
  · simp [h]
  · split
    · simp [hr, hne]
    · rfl

theorem setupVisit_none_iff (getBookBase : BookBase) (pol : AbsentRead) (k : uint256)
    (e : SLE) (db : OrderBookDB) (mSeen : List uint256) :
    setupVisit getBookBase pol k e db mSeen = none ↔ raisesAt pol k e := by
  unfold setupVisit raisesAt
  by_cases h1 : e.getType = LedgerEntryType.ltDIR_NODE
  · by_cases h2 : isFieldPresent e.sfExchangeRate = true
    · simp only [h1, h2, and_self, if_true, true_and]
      cases hr : getFieldH256 pol e.sfRootIndex with
      | none => simp
      | some root =>
        by_cases hk : root = k
        · subst hk
          cases hpc : getFieldH160 pol e.sfTakerPaysCurrency <;>
            cases hgc : getFieldH160 pol e.sfTakerGetsCurrency <;>
            cases hpi : getFieldH160 pol e.sfTakerPaysIssuer <;>
            cases hgi : getFieldH160 pol e.sfTakerGetsIssuer <;>
            simp
          split <;> simp
        · simp [hk]
    · simp [h1, h2]
  · simp [h1]

theorem scanList_returned_iff (getBookBase : BookBase) (pol : AbsentRead)
    (l : List (uint256 × SLE)) :
    ∀ (db : OrderBookDB) (mSeen : List uint256),
      (scanList getBookBase pol l db mSeen).2 = Completion.returned ↔
        ∀ p ∈ l, ¬ raisesAt pol p.1 p.2 := by
  induction l with
  | nil => intro db mSeen; simp [scanList]
  | cons p rest ih =>
    intro db mSeen
    simp only [scanList, List.mem_cons, forall_eq_or_imp]
    cases hv : setupVisit getBookBase pol p.1 p.2 db mSeen with
    | none =>
      have hr := (setupVisit_none_iff getBookBase pol p.1 p.2 db mSeen).mp hv
      simp [hr]
    | some r =>
      have hr : ¬ raisesAt pol p.1 p.2 := by
        intro hr
        rw [(setupVisit_none_iff getBookBase pol p.1 p.2 db mSeen).mpr hr] at hv
        exact absurd hv (by simp)
      simp only [hr, not_false_eq_true, true_and]
      exact ih r.1 r.2

theorem not_raisesAt_yieldsZero (k : uint256) (e : SLE) :
    ¬ raisesAt AbsentRead.yieldsZero k e := by
  unfold raisesAt getFieldH256 getFieldH160
  rintro ⟨_, _, h | ⟨_, h | h | h | h⟩⟩ <;> revert h <;> split <;> simp

theorem scanList_erase (getBookBase : BookBase) (pol : AbsentRead) (k : uint256)
    (l : List (uint256 × SLE)) (hskip : ∀ p ∈ l, p.1 = k → skippedAt pol p.1 p.2) :
    ∀ (db : OrderBookDB) (mSeen : List uint256),
      scanList getBookBase pol (l.filter (fun p => decide (p.1 ≠ k))) db mSeen =
        scanList getBookBase pol l db mSeen := by
  induction l with
  | nil => intro db mSeen; rfl
  | cons p rest ih =>
    intro db mSeen
    have ih2 := ih (fun q hq => hskip q (List.mem_cons_of_mem _ hq))
    obtain ⟨a, e⟩ := p
    by_cases hk : a = k
    · subst hk
      have hs := setupVisit_skipped getBookBase pol a e db mSeen
        (hskip (a, e) (List.mem_cons_self _ _) rfl)
      simp only [List.filter_cons, ne_eq, not_true_eq_false, decide_False,
        Bool.false_eq_true, if_false, scanList, hs]
      exact ih2 db mSeen
    · simp only [List.filter_cons, hk, ne_eq, not_false_eq_true, decide_True, if_true,
        scanList]
      cases hv : setupVisit getBookBase pol a e db mSeen with
      | none => rfl
      | some r => exact ih2 r.1 r.2

theorem ascending_unique (l : List (uint256 × SLE))
    (h : List.Pairwise (fun a b => a < b) (l.map Prod.fst)) (k : uint256) (e e2 : SLE)
    (h1 : (k, e) ∈ l) (h2 : (k, e2) ∈ l) : e = e2 := by
  induction l with
  | nil => simp at h1
  | cons p rest ih =>
    simp only [List.map_cons, List.pairwise_cons] at h
    have hlt : ∀ x, (k, x) ∈ rest → p.1 < k := fun x hx =>
      h.1 k (List.mem_map.mpr ⟨(k, x), hx, rfl⟩)
    rcases List.mem_cons.mp h1 with e1 | m1 <;> rcases List.mem_cons.mp h2 with e3 | m2
    · exact (congrArg Prod.snd e1).trans (congrArg Prod.snd e3).symm
    · have := hlt e2 m2
      rw [← e1] at this
      exact absurd this (Nat.lt_irrefl _)
    · have := hlt e m1
      rw [← e3] at this
      exact absurd this (Nat.lt_irrefl _)
    · exact ih h.2 m1 m2

theorem setup_erase (getBookBase : BookBase) (pol : AbsentRead) (db : OrderBookDB)
    (ledger : Ledger) (k : uint256) (e : SLE) (hentry : (k, e) ∈ ledger.mAccountState)
    (hskip : skippedAt pol k e) :
    db.setup getBookBase pol (ledger.erase k) = db.setup getBookBase pol ledger := by
  have hall : ∀ p ∈ ledger.mAccountState, p.1 = k → skippedAt pol p.1 p.2 := by
    intro p hp hpk
    obtain ⟨a, x⟩ := p
    simp only at hpk
    subst hpk
    have hx : x = e := ascending_unique ledger.mAccountState
      (List.pairwise_cons.mp ledger.ascending).2 a x e hp hentry
    subst hx
    exact hskip
  by_cases hseq : db.mSeq = ledger.getLedgerSeq
  · simp [OrderBookDB.setup, OrderBookDB.setupFuel, Ledger.erase, Ledger.getLedgerSeq,
      show ledger.mLedgerSeq = db.mSeq from hseq.symm]
  · rw [setup_eq getBookBase pol db ledger hseq,
      setup_eq getBookBase pol db (ledger.erase k) hseq]
    have hl : (ledger.erase k).mAccountState =
        ledger.mAccountState.filter (fun p => decide (p.1 ≠ k)) := rfl
    have hst : scanStart db (ledger.erase k) = scanStart db ledger := rfl
    rw [hl, hst, scanList_erase getBookBase pol k ledger.mAccountState hall]

/-- C6, amended. For every ledger and every index whose version differs from the
ledger's sequence number, `setup` ends with any loop bound above the number of state
entries, and what it computes is one pass over all state entries in
cursor order, from the first ledger index on, stopped only by a field read that raises.
It returns exactly when no read raises, that is, when no directory node with an exchange
rate has an unreadable root index and no entry that passes the book-root test has an
unreadable currency or issuer field; it always returns when absent fields read as zero.
An entry that is not a directory node, or lacks the exchange rate, or whose root index
reads as a value other than its key, is skipped: the ledger without it gives the same
result. -/
theorem C6_scan_robustness (getBookBase : BookBase) (pol : AbsentRead) (db : OrderBookDB)
    (ledger : Ledger) (hseq : db.mSeq ≠ ledger.getLedgerSeq) :
    (∀ fuel, ledger.mAccountState.length < fuel →
      db.setupFuel getBookBase pol fuel ledger = db.setup getBookBase pol ledger) ∧
    db.setup getBookBase pol ledger =
      some ((scanList getBookBase pol ledger.mAccountState (scanStart db ledger) []).1.1,
            (scanList getBookBase pol ledger.mAccountState (scanStart db ledger) []).2) ∧
    ((∃ db2, db.setup getBookBase pol ledger = some (db2, Completion.returned)) ↔
      ∀ p ∈ ledger.mAccountState, ¬ raisesAt pol p.1 p.2) ∧
    (pol = AbsentRead.yieldsZero →
      ∃ db2, db.setup getBookBase pol ledger = some (db2, Completion.returned)) ∧
    (∀ k e, (k, e) ∈ ledger.mAccountState → skippedAt pol k e →
      db.setup getBookBase pol (ledger.erase k) = db.setup getBookBase pol ledger) := by
  have heq := setup_eq getBookBase pol db ledger hseq
  have hiff : (∃ db2, db.setup getBookBase pol ledger = some (db2, Completion.returned)) ↔
      ∀ p ∈ ledger.mAccountState, ¬ raisesAt pol p.1 p.2 := by
    rw [← scanList_returned_iff getBookBase pol ledger.mAccountState (scanStart db ledger) [],
      heq]
    constructor
    · rintro ⟨db2, h⟩
      exact congrArg Prod.snd (Option.some.inj h)
    · intro h
      exact ⟨_, by rw [h]⟩
  refine ⟨?_, heq, hiff, ?_, ?_⟩
  · intro fuel hfuel
    rw [heq]
    exact setupFuel_eq getBookBase pol fuel db ledger hseq hfuel
  · intro hpol
    subst hpol
    exact hiff.mpr (fun p _ => not_raisesAt_yieldsZero p.1 p.2)
  · intro k e hentry hskip
    exact setup_erase getBookBase pol db ledger k e hentry hskip

/-- C6 at the sample ledger, from a new index: the account root at key 2 is skipped. -/
theorem C6_scan_robustness_witness :
    OrderBookDB.new.setupFuel pairBase AbsentRead.raises 100 sampleLedger =
      OrderBookDB.new.setup pairBase AbsentRead.raises sampleLedger ∧
    (∃ db2, OrderBookDB.new.setup pairBase AbsentRead.raises sampleLedger =
      some (db2, Completion.returned)) ∧
    OrderBookDB.new.setup pairBase AbsentRead.raises (sampleLedger.erase 2) =
      OrderBookDB.new.setup pairBase AbsentRead.raises sampleLedger :=
  have h := C6_scan_robustness pairBase AbsentRead.raises OrderBookDB.new sampleLedger
    (by decide)
  ⟨h.1 100 (by decide), ⟨sampleIndex, by decide⟩,
    h.2.2.2.2 2 accountRoot (by decide) (Or.inl (by decide))⟩

/-- C6 fails at a ledger whose entry at key 5 passes the book-root test and carries none
of the four currency and issuer fields, followed by a well-formed book root at key 9.
When a read of an absent field raises, `setup` is left by the exception with both maps
empty, so it does not complete and the entry at key 9 contributes nothing. When a read of
an absent field yields zero, `setup` returns and the index holds a book for the all-zero
4-tuple, which the ledger without the entry at key 5 does not give: the entry is not
skipped. And on the index that `setup` built from the sample ledger, whose version is
the sequence number of this ledger, `setup` returns with no fuel for the loop: no entry
is visited. -/
theorem C6_counterexample :
    OrderBookDB.new.setup pairBase AbsentRead.raises sampleLedger =
      some (sampleIndex, Completion.returned) ∧
    sampleIndex.setupFuel pairBase AbsentRead.raises 0 malformedLedger =
      some (sampleIndex, Completion.returned) ∧
    sampleIndex.setupFuel pairBase AbsentRead.yieldsZero 0 malformedLedger =
      some (sampleIndex, Completion.returned) ∧
    sampleIndex.setup pairBase AbsentRead.raises malformedLedger =
      some (sampleIndex, Completion.returned) ∧
    malformedLedger.mAccountState.length = 2 ∧
    OrderBookDB.new.setup pairBase AbsentRead.raises malformedLedger =
      some ({ mSeq := 7, mSourceMap := [], mDestMap := [], mListeners := [] },
        Completion.raised) ∧
    OrderBookDB.new.setup pairBase AbsentRead.yieldsZero malformedLedger =
      some ({ mSeq := 7,
              mSourceMap := [((0, 0), [⟨pairBase 0 0 0 0, 0, 0, 0, 0⟩]),
                             ((3, 4), [⟨pairBase 3 4 1 2, 3, 1, 4, 2⟩])],
              mDestMap := [((0, 0), [⟨pairBase 0 0 0 0, 0, 0, 0, 0⟩]),
                           ((1, 2), [⟨pairBase 3 4 1 2, 3, 1, 4, 2⟩])],
              mListeners := [] },
        Completion.returned) ∧
    OrderBookDB.new.setup pairBase AbsentRead.yieldsZero (malformedLedger.erase 5) =
      some ({ mSeq := 7,
              mSourceMap := [((3, 4), [⟨pairBase 3 4 1 2, 3, 1, 4, 2⟩])],
              mDestMap := [((1, 2), [⟨pairBase 3 4 1 2, 3, 1, 4, 2⟩])],
              mListeners := [] },
        Completion.returned) ∧
    OrderBookDB.new.setup pairBase AbsentRead.raises (malformedLedger.erase 5) =
      some ({ mSeq := 7,
              mSourceMap := [((3, 4), [⟨pairBase 3 4 1 2, 3, 1, 4, 2⟩])],
              mDestMap := [((1, 2), [⟨pairBase 3 4 1 2, 3, 1, 4, 2⟩])],
              mListeners := [] },
        Completion.returned) := by
  refine ⟨?_, ?_, ?_, ?_, ?_, ?_, ?_, ?_, ?_⟩ <;> decide

/-! ## C8 and C9: publish -/

theorem publishLoop_eq (live : List Nat) (jvObj : JsonValue) (rest : subMapType) :
    ∀ (kept : subMapType) (sent : List (Nat × JsonValue)),
      publishLoop live jvObj kept rest sent =
        (kept ++ rest.filter (resolves live),
         sent ++ (rest.filter (resolves live)).map (fun e => (e.2, jvObj))) := by
  induction rest with
  | nil => intro kept sent; simp [publishLoop]
  | cons e rest ih =>
    intro kept sent
    by_cases hl : e.2 ∈ live
    · simp [publishLoop, lock, resolves, hl, ih]
    · simp [publishLoop, lock, resolves, hl, ih]

theorem publish_eq (bl : BookListeners) (live : List Nat) (jvObj : JsonValue)
    (sent : List (Nat × JsonValue)) :
    bl.publish live jvObj sent =
      ({ mListeners := bl.mListeners.filter (resolves live) },
       sent ++ (bl.mListeners.filter (resolves live)).map (fun e => (e.2, jvObj))) := by
  simp [BookListeners.publish, publishLoop_eq]

theorem count_deliveries (live : List Nat) (jvObj : JsonValue) (l : subMapType) (a : Nat) :
    ((l.filter (resolves live)).map (fun e => (e.2, jvObj))).count (a, jvObj) =
      if a ∈ live then l.countP (fun e => decide (e.2 = a)) else 0 := by
  induction l with
  | nil => simp
  | cons e rest ih =>
    by_cases hl : e.2 ∈ live
    · have hres : resolves live e = true := by simp [resolves, lock, hl]
      by_cases ha : e.2 = a
      · subst ha
        simp [List.filter_cons, hres, List.countP_cons, ih, hl]
      · have hne : ¬ ((e.2, jvObj) = (a, jvObj)) := fun h => ha (congrArg Prod.fst h)
        simp only [List.filter_cons, hres, if_true, List.map_cons, List.countP_cons, ha,
          decide_False, Bool.false_eq_true, if_false, Nat.add_zero, ih]
        rw [List.count_cons_of_ne (fun h => hne h.symm)]
        exact ih
    · have hres : resolves live e = false := by simp [resolves, lock, hl]
      by_cases ha : e.2 = a
      · subst ha
        simp only [List.filter_cons, hres, Bool.false_eq_true, if_false, ih, hl]
      · simp only [List.filter_cons, hres, Bool.false_eq_true, if_false, ih,
          List.countP_cons, ha, decide_False, Nat.add_zero]

/-- C8. Publish delivery. The deliveries that `publish` makes are, in the order of the
registry, one delivery of the supplied event to the receiver of each entry whose weak
handle resolves, and nothing else: an `InfoSub` that is live receives the event once for
each entry that refers to it (once, when one entry does), an `InfoSub` that is not live
receives nothing, and every delivery carries the event unchanged. Erasing a dead entry
neither skips nor repeats an entry. -/
theorem C8_publish_delivery (bl : BookListeners) (live : List Nat) (jvObj : JsonValue)
    (sent : List (Nat × JsonValue)) :
    (bl.publish live jvObj sent).2 =
      sent ++ (bl.mListeners.filter (resolves live)).map (fun e => (e.2, jvObj)) ∧
    (∀ a, ((bl.publish live jvObj sent).2.drop sent.length).count (a, jvObj) =
      if a ∈ live then bl.mListeners.countP (fun e => decide (e.2 = a)) else 0) ∧
    (∀ x ∈ (bl.publish live jvObj sent).2.drop sent.length, x.2 = jvObj ∧ x.1 ∈ live) := by
  rw [publish_eq]
  refine ⟨rfl, ?_, ?_⟩
  · intro a
    simp only [List.drop_left]
    exact count_deliveries live jvObj bl.mListeners a
  · intro x hx
    simp only [List.drop_left, List.mem_map, List.mem_filter] at hx
    obtain ⟨e, ⟨_, hres⟩, rfl⟩ := hx
    refine ⟨rfl, ?_⟩
    by_cases hl : e.2 ∈ live
    · exact hl
    · simp [resolves, lock, hl] at hres

/-- C9. Dead-handle pruning. After `publish` the registry holds exactly the entries whose
weak handle resolved, each with its id and handle and in the same order, and no entry
whose handle did not resolve; a second `publish` with the same live set leaves the
registry as it is. -/
theorem C9_dead_handle_pruning (bl : BookListeners) (live : List Nat) (jvObj : JsonValue)
    (sent : List (Nat × JsonValue)) :
    (bl.publish live jvObj sent).1.mListeners = bl.mListeners.filter (resolves live) ∧
    (∀ e, e ∈ (bl.publish live jvObj sent).1.mListeners ↔
      (e ∈ bl.mListeners ∧ (lock live e.2).isSome = true)) ∧
    (∀ jvObj2 sent2,
      ((bl.publish live jvObj sent).1.publish live jvObj2 sent2).1 =
        (bl.publish live jvObj sent).1) := by
  refine ⟨?_, ?_, ?_⟩
  · rw [publish_eq]
  · intro e
    rw [publish_eq]
    simp [List.mem_filter, resolves]
  · intro jvObj2 sent2
    rw [publish_eq, publish_eq]
    simp [List.filter_filter]

/-! ## Lemmas: the listener registry -/

theorem getBookListeners_congr (db db2 : OrderBookDB) (h : db2.mListeners = db.mListeners)
    (cp cg ip ig : uint160) :
    db2.getBookListeners cp cg ip ig = db.getBookListeners cp cg ip ig := by
  simp [OrderBookDB.getBookListeners, h]

/-- A lookup in the registry after `mListeners[ip][ig][cp][cg] = ret`. -/
theorem getBookListeners_setListener (db : OrderBookDB) (cp cg ip ig : uint160)
    (ret : BookListenersPtr) (cp2 cg2 ip2 ig2 : uint160) :
    ({ db with mListeners := setListener db.mListeners cp cg ip ig ret } :
        OrderBookDB).getBookListeners cp2 cg2 ip2 ig2 =
      if cp2 = cp ∧ cg2 = cg ∧ ip2 = ip ∧ ig2 = ig then some ret
      else db.getBookListeners cp2 cg2 ip2 ig2 := by
  unfold OrderBookDB.getBookListeners setListener
  simp only [mapFind_mapSet]
  by_cases h1 : ip = ip2
  · subst h1
    by_cases h2 : ig = ig2
    · subst h2
      by_cases h3 : cp = cp2
      · subst h3
        by_cases h4 : cg = cg2
        · subst h4
          simp [mapFind_mapSet]
        · have h4b : ¬ cg2 = cg := fun h => h4 h.symm
          simp only [if_true, mapFind_mapSet, h4, if_false, h4b, and_false, and_true]
          cases hA : mapFind db.mListeners ip with
          | none => simp [mapFind]
          | some m3 =>
            cases hB : mapFind m3 ig with
            | none => simp [hB, mapFind]
            | some m2 =>
              cases hC : mapFind m2 cp with
              | none => simp [hB, hC, mapFind]
              | some m1 => simp [hB, hC]
      · have h3b : ¬ cp2 = cp := fun h => h3 h.symm
        simp only [if_true, mapFind_mapSet, h3, if_false, h3b, false_and, and_false]
        cases hA : mapFind db.mListeners ip with
        | none => simp [mapFind]
        | some m3 =>
          cases hB : mapFind m3 ig with
          | none => simp [hB, mapFind]
          | some m2 => simp [hB]
    · have h2b : ¬ ig2 = ig := fun h => h2 h.symm
      simp only [if_true, mapFind_mapSet, h2, if_false, h2b, false_and, and_false]
      cases hA : mapFind db.mListeners ip with
      | none => simp [mapFind]
      | some m3 => simp
  · have h1b : ¬ ip2 = ip := fun h => h1 h.symm
    simp only [h1, if_false, h1b, false_and, and_false]

/-! ## Lemmas: routing of metadata nodes -/

theorem processNode_eq (w : World) (node : STObject) (jvObj : JsonValue) :
    (processNode w node jvObj).getD w = routed w (nodeRegistry w.db node) jvObj := by
  have key : ∀ (data : Option FieldSet),
      (match data with
        | none => some w
        | some data =>
          match getFieldAmount data.sfTakerGets with
          | none => none
          | some takerGets =>
            match getFieldAmount data.sfTakerPays with
            | none => none
            | some takerPays =>
              match w.db.getBookListeners takerPays.getCurrency takerGets.getCurrency
                  takerPays.getIssuer takerGets.getIssuer with
              | some book =>
                some { w.publish book jvObj with
                       published := w.published ++ [(book, jvObj)] }
              | none => some w).getD w =
      routed w
        (match (some LedgerEntryType.ltOFFER : Option LedgerEntryType), data with
          | some LedgerEntryType.ltOFFER, some data =>
            match data.sfTakerPays, data.sfTakerGets with
            | some pays, some gets =>
              w.db.getBookListeners pays.getCurrency gets.getCurrency pays.getIssuer
                gets.getIssuer
            | _, _ => none
          | _, _ => none) jvObj := by
    intro data
    cases data with
    | none => rfl
    | some data =>
      obtain ⟨pays, gets⟩ := data
      cases pays <;> cases gets <;> simp only [getFieldAmount, routed, Option.getD]
      rename_i p g
      cases w.db.getBookListeners p.getCurrency g.getCurrency p.getIssuer g.getIssuer <;> rfl
  obtain ⟨fName, let1, prev, new1, final⟩ := node
  cases let1 with
  | none => rfl
  | some t =>
    cases t
    case ltOFFER =>
      cases fName
      case sfModifiedNode => exact key prev
      case sfCreatedNode => exact key new1
      case sfDeletedNode => exact key final
      all_goals rfl
    all_goals rfl

theorem processNodes_cons (w : World) (node : STObject) (rest : List STObject)
    (jvObj : JsonValue) :
    processNodes w (node :: rest) jvObj =
      processNodes (routed w (nodeRegistry w.db node) jvObj) rest jvObj := by
  rw [← processNode_eq]
  simp only [processNodes]
  cases processNode w node jvObj <;> rfl

theorem getD_set (l : List BookListeners) (i j : Nat) (x d : BookListeners) :
    (l.set i x).getD j d = if i = j ∧ i < l.length then x else l.getD j d := by
  simp only [List.getD_eq_getElem?_getD, List.getElem?_set]
  by_cases h : i = j
  · subst h
    by_cases h2 : i < l.length
    · simp [h2]
    · simp [h2]
      rw [List.getElem?_eq_none (by omega)]
      rfl
  · simp [h]

theorem registry_publish (w : World) (book : BookListenersPtr) (jvObj : JsonValue)
    (h : BookListenersPtr) :
    ((w.publish book jvObj).registry h).mListeners =
      if h = book then (w.registry book).mListeners.filter (resolves w.live)
      else (w.registry h).mListeners := by
  unfold World.publish World.registry
  simp only [publish_eq, getD_set]
  by_cases hb : book = h
  · subst hb
    by_cases hlen : book < w.heap.length
    · simp [hlen]
    · simp only [hlen, and_false, if_false, if_true]
      rw [List.getD_eq_default _ _ (Nat.le_of_not_lt hlen)]
      rfl
  · have hb2 : ¬ h = book := fun e => hb e.symm
    simp [hb, hb2]

theorem routed_frame (w : World) (target : Option BookListenersPtr) (jvObj : JsonValue) :
    (routed w target jvObj).db = w.db ∧ (routed w target jvObj).live = w.live ∧
    (routed w target jvObj).heap.length = w.heap.length := by
  cases target with
  | none => exact ⟨rfl, rfl, rfl⟩
  | some book => exact ⟨rfl, rfl, by simp [routed, World.publish]⟩

theorem routed_registry (w : World) (target : Option BookListenersPtr) (jvObj : JsonValue)
    (h : BookListenersPtr) :
    ((routed w target jvObj).registry h).mListeners = (w.registry h).mListeners ∨
    ((routed w target jvObj).registry h).mListeners =
      (w.registry h).mListeners.filter (resolves w.live) := by
  cases target with
  | none => exact Or.inl rfl
  | some book =>
    have hp := registry_publish w book jvObj h
    have hr : (routed w (some book) jvObj).registry h = (w.publish book jvObj).registry h := rfl
    rw [hr, hp]
    by_cases hb : h = book
    · subst hb
      exact Or.inr (by simp)
    · exact Or.inl (by simp [hb])

/-- What the index calls leave of a registry: its entries as they were, or those of them
whose handle resolves. -/
theorem processNodes_frame (nodes : List STObject) (jvObj : JsonValue) :
    ∀ (w : World) (h : BookListenersPtr),
      (processNodes w nodes jvObj).db = w.db ∧ (processNodes w nodes jvObj).live = w.live ∧
      (processNodes w nodes jvObj).heap.length = w.heap.length ∧
      (((processNodes w nodes jvObj).registry h).mListeners = (w.registry h).mListeners ∨
       ((processNodes w nodes jvObj).registry h).mListeners =
         (w.registry h).mListeners.filter (resolves w.live)) := by
  induction nodes with
  | nil => intro w h; exact ⟨rfl, rfl, rfl, Or.inl rfl⟩
  | cons node rest ih =>
    intro w h
    rw [processNodes_cons]
    obtain ⟨h1, h2, h3, h4⟩ := ih (routed w (nodeRegistry w.db node) jvObj) h
    obtain ⟨f1, f2, f3⟩ := routed_frame w (nodeRegistry w.db node) jvObj
    refine ⟨h1.trans f1, h2.trans f2, h3.trans f3, ?_⟩
    rw [f2] at h4
    rcases routed_registry w (nodeRegistry w.db node) jvObj h with r | r <;>
      rcases h4 with q | q
    · exact Or.inl (q.trans r)
    · exact Or.inr (by rw [q, r])
    · exact Or.inr (q.trans r)
    · exact Or.inr (by rw [q, r, List.filter_filter]; simp)

/-! ## C7: the listener registry persists -/

theorem world_setup_frame (getBookBase : BookBase) (pol : AbsentRead) (w : World)
    (ledger : Ledger) :
    (w.setup getBookBase pol ledger).db.mListeners = w.db.mListeners ∧
    (w.setup getBookBase pol ledger).heap = w.heap ∧
    (w.setup getBookBase pol ledger).live = w.live ∧
    (w.setup getBookBase pol ledger).sent = w.sent ∧
    (w.setup getBookBase pol ledger).published = w.published := by
  obtain ⟨r, hr, _, hl⟩ := setup_total getBookBase pol w.db ledger
  unfold World.setup
  rw [hr]
  exact ⟨hl, rfl, rfl, rfl, rfl⟩

theorem call_keeps_listener (getBookBase : BookBase) (pol : AbsentRead) (w : World)
    (c : Call) (cp cg ip ig : uint160) (h : BookListenersPtr)
    (hreg : w.db.getBookListeners cp cg ip ig = some h) :
    (w.call getBookBase pol c).db.getBookListeners cp cg ip ig = some h := by
  cases c with
  | setup ledger =>
    rw [← hreg]
    exact getBookListeners_congr _ _ (world_setup_frame getBookBase pol w ledger).1 _ _ _ _
  | makeBookListeners cp2 cg2 ip2 ig2 =>
    simp only [World.call, World.makeBookListeners]
    cases hq : w.db.getBookListeners cp2 cg2 ip2 ig2 with
    | some ret => exact hreg
    | none =>
      simp only
      rw [getBookListeners_setListener]
      by_cases heq : cp = cp2 ∧ cg = cg2 ∧ ip = ip2 ∧ ig = ig2
      · obtain ⟨e1, e2, e3, e4⟩ := heq
        subst e1 e2 e3 e4
        rw [hq] at hreg
        exact absurd hreg (by simp)
      · rw [if_neg heq]
        exact hreg
  | processTxn alTx jvObj =>
    simp only [World.call, World.processTxn]
    split
    · rw [(processNodes_frame alTx.getNodes jvObj w h).1]
      exact hreg
    · exact hreg
  | invalidate => exact hreg
  | getBooksByTakerPays _ _ => exact hreg
  | getBooksByTakerGets _ _ => exact hreg
  | getBookListeners _ _ _ _ => exact hreg
  | addSubscriber _ _ => exact hreg
  | removeSubscriber _ _ => exact hreg
  | release _ => exact hreg

theorem run_keeps_listener (getBookBase : BookBase) (pol : AbsentRead) (calls : List Call) :
    ∀ (w : World) (cp cg ip ig : uint160) (h : BookListenersPtr),
      w.db.getBookListeners cp cg ip ig = some h →
      (w.run getBookBase pol calls).db.getBookListeners cp cg ip ig = some h := by
  induction calls with
  | nil => intro w cp cg ip ig h hreg; exact hreg
  | cons c rest ih =>
    intro w cp cg ip ig h hreg
    exact ih _ cp cg ip ig h (call_keeps_listener getBookBase pol w c cp cg ip ig h hreg)

theorem index_call_registry (getBookBase : BookBase) (pol : AbsentRead) (w : World)
    (c : Call) (h : BookListenersPtr) (hc : c.isIndexCall = true)
    (hvalid : h < w.heap.length) :
    (w.call getBookBase pol c).live = w.live ∧
    h < (w.call getBookBase pol c).heap.length ∧
    (((w.call getBookBase pol c).registry h).mListeners = (w.registry h).mListeners ∨
     ((w.call getBookBase pol c).registry h).mListeners =
       (w.registry h).mListeners.filter (resolves w.live)) := by
  cases c with
  | setup ledger =>
    obtain ⟨_, h2, h3, _, _⟩ := world_setup_frame getBookBase pol w ledger
    have hreg2 : (w.setup getBookBase pol ledger).registry h = w.registry h := by
      unfold World.registry
      rw [h2]
    exact ⟨h3, by rw [show (w.call getBookBase pol (Call.setup ledger)).heap = w.heap from h2]
                  exact hvalid,
      Or.inl (congrArg BookListeners.mListeners hreg2)⟩
  | makeBookListeners cp2 cg2 ip2 ig2 =>
    simp only [World.call, World.makeBookListeners]
    cases hq : w.db.getBookListeners cp2 cg2 ip2 ig2 with
    | some ret => exact ⟨rfl, hvalid, Or.inl rfl⟩
    | none =>
      refine ⟨rfl, ?_, Or.inl ?_⟩
      · simp only [List.length_append, List.length_singleton]
        exact Nat.lt_succ_of_lt hvalid
      · simp only [World.registry, List.getD_eq_getElem?_getD]
        rw [List.getElem?_append_left hvalid]
  | processTxn alTx jvObj =>
    simp only [World.call, World.processTxn]
    split
    · obtain ⟨_, h2, h3, h4⟩ := processNodes_frame alTx.getNodes jvObj w h
      exact ⟨h2, by rw [h3]; exact hvalid, h4⟩
    · exact ⟨rfl, hvalid, Or.inl rfl⟩
  | invalidate => exact ⟨rfl, hvalid, Or.inl rfl⟩
  | getBooksByTakerPays _ _ => exact ⟨rfl, hvalid, Or.inl rfl⟩
  | getBooksByTakerGets _ _ => exact ⟨rfl, hvalid, Or.inl rfl⟩
  | getBookListeners _ _ _ _ => exact ⟨rfl, hvalid, Or.inl rfl⟩
  | addSubscriber _ _ => simp [Call.isIndexCall] at hc
  | removeSubscriber _ _ => simp [Call.isIndexCall] at hc
  | release _ => simp [Call.isIndexCall] at hc

theorem index_run_registry (getBookBase : BookBase) (pol : AbsentRead) (calls : List Call) :
    ∀ (w : World) (h : BookListenersPtr), calls.all Call.isIndexCall = true →
      h < w.heap.length →
      (w.run getBookBase pol calls).live = w.live ∧
      (((w.run getBookBase pol calls).registry h).mListeners = (w.registry h).mListeners ∨
       ((w.run getBookBase pol calls).registry h).mListeners =
         (w.registry h).mListeners.filter (resolves w.live)) := by
  induction calls with
  | nil => intro w h _ _; exact ⟨rfl, Or.inl rfl⟩
  | cons c rest ih =>
    intro w h hall hvalid
    simp only [List.all_cons, Bool.and_eq_true] at hall
    obtain ⟨c1, c2, c3⟩ := index_call_registry getBookBase pol w c h hall.1 hvalid
    obtain ⟨r1, r2⟩ := ih (w.call getBookBase pol c) h hall.2 c2
    refine ⟨r1.trans c1, ?_⟩
    simp only [World.run]
    rw [c1] at r2
    rcases c3 with q | q <;> rcases r2 with r | r
    · exact Or.inl (r.trans q)
    · exact Or.inr (by rw [r, q])
    · exact Or.inr (r.trans q)
    · exact Or.inr (by rw [r, q, List.filter_filter]; simp)

/-- C7. Listener registry persistence. If `getBookListeners` returns the handle `h` for a
4-tuple, it returns the same handle for that 4-tuple after any sequence of calls: `setup`,
`invalidate`, the two book lookups, `makeBookListeners`, `getBookListeners`, `processTxn`,
and also `addSubscriber` and `removeSubscriber` on any registry (so also after every
subscriber was removed from `h`) and the release of any `InfoSub`. When the calls are
calls on the index only and `h` is a handle of an existing registry, that registry holds
afterwards the entries it held, or those of them whose weak handle resolves (`publish`
may have pruned the others), and nothing else. In particular `setup` leaves the listener
registry of the index and every `BookListeners` object as they were. -/
theorem C7_listener_persistence (getBookBase : BookBase) (pol : AbsentRead) (w : World)
    (cp cg ip ig : uint160) (h : BookListenersPtr)
    (hreg : w.db.getBookListeners cp cg ip ig = some h) (calls : List Call)
    (ledger : Ledger) :
    (w.run getBookBase pol calls).db.getBookListeners cp cg ip ig = some h ∧
    (calls.all Call.isIndexCall = true → h < w.heap.length →
      (((w.run getBookBase pol calls).registry h).mListeners = (w.registry h).mListeners ∨
       ((w.run getBookBase pol calls).registry h).mListeners =
         (w.registry h).mListeners.filter (resolves w.live))) ∧
    ((w.setup getBookBase pol ledger).db.mListeners = w.db.mListeners ∧
     (w.setup getBookBase pol ledger).heap = w.heap) := by
  refine ⟨run_keeps_listener getBookBase pol calls w cp cg ip ig h hreg, ?_, ?_⟩
  · intro hall hvalid
    exact (index_run_registry getBookBase pol calls w h hall hvalid).2
  · exact ⟨(world_setup_frame getBookBase pol w ledger).1,
      (world_setup_frame getBookBase pol w ledger).2.1⟩

/-- C7 at the sample world: the registry for pay (1,2), get (3,4) survives a rebuild from
the sample ledger, a routed transaction, the removal of both its subscribers and an
invalidate. -/
theorem C7_listener_persistence_witness :
    (sampleWorld.run pairBase AbsentRead.raises sampleCalls).db.getBookListeners 1 3 2 4 =
      some 0 ∧
    (((sampleWorld.run pairBase AbsentRead.raises
        [Call.setup sampleLedger, Call.processTxn sampleTx 42]).registry 0).mListeners =
        (sampleWorld.registry 0).mListeners ∨
     ((sampleWorld.run pairBase AbsentRead.raises
        [Call.setup sampleLedger, Call.processTxn sampleTx 42]).registry 0).mListeners =
        (sampleWorld.registry 0).mListeners.filter (resolves sampleWorld.live)) ∧
    (sampleWorld.setup pairBase AbsentRead.raises sampleLedger).db.mListeners =
      sampleWorld.db.mListeners :=
  ⟨(C7_listener_persistence pairBase AbsentRead.raises sampleWorld 1 3 2 4 0 (by decide)
      sampleCalls sampleLedger).1,
   (C7_listener_persistence pairBase AbsentRead.raises sampleWorld 1 3 2 4 0 (by decide)
      [Call.setup sampleLedger, Call.processTxn sampleTx 42] sampleLedger).2.1
      (by decide) (by decide),
   (C7_listener_persistence pairBase AbsentRead.raises sampleWorld 1 3 2 4 0 (by decide)
      sampleCalls sampleLedger).2.2.1⟩

/-! ## Lemmas: registered handles in a running index -/

theorem wellFormed_fresh (live : List Nat) : (World.fresh live).wellFormed := by
  constructor
  · intro cp cg ip ig h hq
    simp [World.fresh, OrderBookDB.new, OrderBookDB.getBookListeners, mapFind] at hq
  · intro cp cg ip ig cp2 cg2 ip2 ig2 h hq
    simp [World.fresh, OrderBookDB.new, OrderBookDB.getBookListeners, mapFind] at hq

theorem wellFormed_of_frame (w w2 : World) (hw : w.wellFormed)
    (hl : w2.db.mListeners = w.db.mListeners) (hh : w2.heap.length = w.heap.length) :
    w2.wellFormed := by
  constructor
  · intro cp cg ip ig h hq
    rw [getBookListeners_congr w.db w2.db hl] at hq
    rw [hh]
    exact hw.1 cp cg ip ig h hq
  · intro cp cg ip ig cp2 cg2 ip2 ig2 h hq hq2
    rw [getBookListeners_congr w.db w2.db hl] at hq hq2
    exact hw.2 cp cg ip ig cp2 cg2 ip2 ig2 h hq hq2

theorem wellFormed_makeBookListeners (w : World) (hw : w.wellFormed)
    (cp0 cg0 ip0 ig0 : uint160) : (w.makeBookListeners cp0 cg0 ip0 ig0).1.wellFormed := by
  unfold World.makeBookListeners
  cases hq0 : w.db.getBookListeners cp0 cg0 ip0 ig0 with
  | some ret => exact hw
  | none =>
    simp only
    constructor
    · intro cp cg ip ig h hq
      rw [getBookListeners_setListener] at hq
      simp only [List.length_append, List.length_singleton]
      split at hq
      · rw [← Option.some.inj hq]
        exact Nat.lt_succ_self _
      · exact Nat.lt_succ_of_lt (hw.1 cp cg ip ig h hq)
    · intro cp cg ip ig cp2 cg2 ip2 ig2 h hq hq2
      rw [getBookListeners_setListener] at hq hq2
      split at hq <;> split at hq2
      · rename_i e1 e2
        obtain ⟨a1, a2, a3, a4⟩ := e1
        obtain ⟨b1, b2, b3, b4⟩ := e2
        exact ⟨b1.trans a1.symm, b2.trans a2.symm, b3.trans a3.symm, b4.trans a4.symm⟩
      · have hlt := hw.1 cp2 cg2 ip2 ig2 h hq2
        rw [← Option.some.inj hq] at hlt
        exact absurd hlt (Nat.lt_irrefl _)
      · have hlt := hw.1 cp cg ip ig h hq
        rw [← Option.some.inj hq2] at hlt
        exact absurd hlt (Nat.lt_irrefl _)
      · exact hw.2 cp cg ip ig cp2 cg2 ip2 ig2 h hq hq2

theorem wellFormed_call (getBookBase : BookBase) (pol : AbsentRead) (w : World)
    (hw : w.wellFormed) (c : Call) : (w.call getBookBase pol c).wellFormed := by
  cases c with
  | setup ledger =>
    obtain ⟨h1, h2, _⟩ := world_setup_frame getBookBase pol w ledger
    exact wellFormed_of_frame w _ hw h1 (congrArg List.length h2)
  | makeBookListeners cp0 cg0 ip0 ig0 => exact wellFormed_makeBookListeners w hw cp0 cg0 ip0 ig0
  | processTxn alTx jvObj =>
    simp only [World.call, World.processTxn]
    split
    · obtain ⟨h1, _, h3, _⟩ := processNodes_frame alTx.getNodes jvObj w 0
      exact wellFormed_of_frame w _ hw (congrArg OrderBookDB.mListeners h1) h3
    · exact hw
  | invalidate => exact wellFormed_of_frame w _ hw rfl rfl
  | getBooksByTakerPays _ _ => exact hw
  | getBooksByTakerGets _ _ => exact hw
  | getBookListeners _ _ _ _ => exact hw
  | addSubscriber book sub =>
    exact wellFormed_of_frame w _ hw rfl (by simp [World.call])
  | removeSubscriber book seq =>
    exact wellFormed_of_frame w _ hw rfl (by simp [World.call])
  | release _ => exact wellFormed_of_frame w _ hw rfl rfl

/-- In every world reached from a fresh one by calls, each registered handle refers to an
existing registry and is registered for one 4-tuple only. -/
theorem wellFormed_run (getBookBase : BookBase) (pol : AbsentRead) (calls : List Call) :
    ∀ (w : World), w.wellFormed → (w.run getBookBase pol calls).wellFormed := by
  induction calls with
  | nil => intro w hw; exact hw
  | cons c rest ih => intro w hw; exact ih _ (wellFormed_call getBookBase pol w hw c)

/-! ## C10: routing count -/

theorem routed_published (w : World) (target : Option BookListenersPtr) (jvObj : JsonValue) :
    (routed w target jvObj).published =
      w.published ++ (target.map (fun b => (b, jvObj))).toList := by
  cases target with
  | none => simp [routed]
  | some book => simp [routed]

/-- The calls of `publish` that the loop of `processTxn` makes: one for each node that is
routed to a registry, on that registry, with the supplied event, in the order of the
nodes. -/
theorem processNodes_published (nodes : List STObject) (jvObj : JsonValue) :
    ∀ (w : World), (processNodes w nodes jvObj).published =
      w.published ++ nodes.filterMap (fun n => (nodeRegistry w.db n).map (fun b => (b, jvObj))) := by
  induction nodes with
  | nil => intro w; simp [processNodes]
  | cons node rest ih =>
    intro w
    rw [processNodes_cons, ih, routed_published, (routed_frame w _ jvObj).1]
    cases hq : nodeRegistry w.db node <;> simp [List.filterMap_cons, hq]

theorem nodeRegistry_eq_iff (db : OrderBookDB) (node : STObject) (cp cg ip ig : uint160)
    (h : BookListenersPtr) (hreg : db.getBookListeners cp cg ip ig = some h)
    (huniq : ∀ cp2 cg2 ip2 ig2, db.getBookListeners cp2 cg2 ip2 ig2 = some h →
      cp2 = cp ∧ cg2 = cg ∧ ip2 = ip ∧ ig2 = ig) :
    nodeRegistry db node = some h ↔ resolvesTo cp cg ip ig node = true := by
  unfold nodeRegistry resolvesTo
  split
  · split
    · rename_i pays gets _ _
      simp only [decide_eq_true_eq]
      constructor
      · intro hq
        exact huniq _ _ _ _ hq
      · rintro ⟨e1, e2, e3, e4⟩
        rw [e1, e2, e3, e4]
        exact hreg
    · simp
  · simp

theorem count_routed (db : OrderBookDB) (nodes : List STObject) (jvObj : JsonValue)
    (h : BookListenersPtr) :
    (nodes.filterMap (fun n => (nodeRegistry db n).map (fun b => (b, jvObj)))).countP
        (fun c => decide (c.1 = h)) =
      nodes.countP (fun n => decide (nodeRegistry db n = some h)) := by
  induction nodes with
  | nil => rfl
  | cons node rest ih =>
    cases hq : nodeRegistry db node with
    | none => simp [List.filterMap_cons, hq, List.countP_cons, ih]
    | some b =>
      by_cases hb : b = h
      · simp [List.filterMap_cons, hq, List.countP_cons, ih, hb]
      · simp [List.filterMap_cons, hq, List.countP_cons, ih, hb]

/-- C10. Routing count. For a successful transaction, the calls of `publish` that
`processTxn` makes are one call, with the supplied event, for each metadata node that is
routed to a registry, in node order. Hence for a 4-tuple `P` whose registry `h` is
registered for `P` only, the number of calls on `h` equals the number of nodes of
ledger-entry type offer whose selected field-set is present and yields taker-pays and
taker-gets currency and issuer equal to `P`. -/
theorem C10_routing_count (w : World) (alTx : ALTransaction) (jvObj : JsonValue)
    (cp cg ip ig : uint160) (h : BookListenersPtr)
    (hsucc : alTx.getResult = tesSUCCESS)
    (hreg : w.db.getBookListeners cp cg ip ig = some h)
    (huniq : ∀ cp2 cg2 ip2 ig2, w.db.getBookListeners cp2 cg2 ip2 ig2 = some h →
      cp2 = cp ∧ cg2 = cg ∧ ip2 = ip ∧ ig2 = ig) :
    (w.processTxn alTx jvObj).published =
      w.published ++ alTx.getNodes.filterMap
        (fun n => (nodeRegistry w.db n).map (fun b => (b, jvObj))) ∧
    (∀ c ∈ (w.processTxn alTx jvObj).published.drop w.published.length, c.2 = jvObj) ∧
    ((w.processTxn alTx jvObj).published.drop w.published.length).countP
        (fun c => decide (c.1 = h)) =
      alTx.getNodes.countP (resolvesTo cp cg ip ig) := by
  have hpub : (w.processTxn alTx jvObj).published =
      w.published ++ alTx.getNodes.filterMap
        (fun n => (nodeRegistry w.db n).map (fun b => (b, jvObj))) := by
    simp only [World.processTxn, hsucc, if_true]
    exact processNodes_published alTx.getNodes jvObj w
  refine ⟨hpub, ?_, ?_⟩
  · intro c hc
    rw [hpub, List.drop_left] at hc
    obtain ⟨n, _, hn⟩ := List.mem_filterMap.mp hc
    cases hq : nodeRegistry w.db n with
    | none => simp [hq] at hn
    | some b =>
      simp only [hq, Option.map_some', Option.some.injEq] at hn
      rw [← hn]
  · rw [hpub, List.drop_left, count_routed]
    congr 1
    funext n
    by_cases hr : resolvesTo cp cg ip ig n = true
    · rw [hr]
      exact decide_eq_true ((nodeRegistry_eq_iff w.db n cp cg ip ig h hreg huniq).mpr hr)
    · have hr2 : resolvesTo cp cg ip ig n = false := by
        cases hx : resolvesTo cp cg ip ig n
        · rfl
        · exact absurd hx hr
      rw [hr2]
      exact decide_eq_false
        (fun hq => hr ((nodeRegistry_eq_iff w.db n cp cg ip ig h hreg huniq).mp hq))

theorem sampleWorld_registry_unique (cp2 cg2 ip2 ig2 : uint160)
    (h : sampleWorld.db.getBookListeners cp2 cg2 ip2 ig2 = some 0) :
    cp2 = 1 ∧ cg2 = 3 ∧ ip2 = 2 ∧ ig2 = 4 := by
  by_cases h1 : (2 : uint160) = ip2
  · subst h1
    by_cases h2 : (4 : uint160) = ig2
    · subst h2
      by_cases h3 : (1 : uint160) = cp2
      · subst h3
        by_cases h4 : (3 : uint160) = cg2
        · subst h4
          exact ⟨rfl, rfl, rfl, rfl⟩
        · simp [sampleWorld, staleIndex, OrderBookDB.getBookListeners, mapFind, h4] at h
      · simp [sampleWorld, staleIndex, OrderBookDB.getBookListeners, mapFind, h3] at h
    · simp [sampleWorld, staleIndex, OrderBookDB.getBookListeners, mapFind, h2] at h
  · simp [sampleWorld, staleIndex, OrderBookDB.getBookListeners, mapFind, h1] at h

/-- C10 at the sample world: the transaction with one modified offer node for pay (1,2),
get (3,4) makes exactly one call of `publish`, on registry 0 with the supplied event 42,
and the live subscriber receives it. -/
theorem C10_routing_count_witness :
    (sampleWorld.processTxn sampleTx 42).published = [(0, 42)] ∧
    ((sampleWorld.processTxn sampleTx 42).published.drop 0).countP
        (fun c => decide (c.1 = 0)) = 1 ∧
    (sampleWorld.processTxn sampleTx 42).sent = [(100, 42)] :=
  have h := C10_routing_count sampleWorld sampleTx 42 1 3 2 4 0 (by decide) (by decide)
    sampleWorld_registry_unique
  ⟨h.1.trans (by decide), h.2.2.trans (by decide), by decide⟩

/-! ## C11: field-set selection -/

theorem nodeRegistry_none (db : OrderBookDB) (node : STObject)
    (h : node.sfLedgerEntryType ≠ some LedgerEntryType.ltOFFER ∨
      selectedFieldSet node = none) : nodeRegistry db node = none := by
  unfold nodeRegistry
  rcases h with h | h
  · split
    · rename_i heq _
      exact absurd heq h
    · rfl
  · rw [h]
    split
    · rename_i heq2
      exact absurd heq2 (by simp)
    · rfl

theorem selectedFieldSet_none_of_other (node : STObject)
    (h1 : node.getFName ≠ SField.sfCreatedNode) (h2 : node.getFName ≠ SField.sfModifiedNode)
    (h3 : node.getFName ≠ SField.sfDeletedNode) : selectedFieldSet node = none := by
  obtain ⟨fName, t, prev, new1, final⟩ := node
  cases fName
  case sfCreatedNode => exact absurd rfl h1
  case sfModifiedNode => exact absurd rfl h2
  case sfDeletedNode => exact absurd rfl h3
  all_goals rfl

theorem processNode_created (w : World) (node : STObject) (jvObj : JsonValue)
    (h : node.getFName = SField.sfCreatedNode) (x y : Option FieldSet) :
    processNode w { node with sfPreviousFields := x, sfFinalFields := y } jvObj =
      processNode w node jvObj := by
  obtain ⟨fName, t, prev, new1, final⟩ := node
  simp only [STObject.getFName] at h
  subst h
  cases t with
  | none => rfl
  | some t => cases t <;> rfl

theorem processNode_modified (w : World) (node : STObject) (jvObj : JsonValue)
    (h : node.getFName = SField.sfModifiedNode) (x y : Option FieldSet) :
    processNode w { node with sfNewFields := x, sfFinalFields := y } jvObj =
      processNode w node jvObj := by
  obtain ⟨fName, t, prev, new1, final⟩ := node
  simp only [STObject.getFName] at h
  subst h
  cases t with
  | none => rfl
  | some t => cases t <;> rfl

theorem processNode_deleted (w : World) (node : STObject) (jvObj : JsonValue)
    (h : node.getFName = SField.sfDeletedNode) (x y : Option FieldSet) :
    processNode w { node with sfPreviousFields := x, sfNewFields := y } jvObj =
      processNode w node jvObj := by
  obtain ⟨fName, t, prev, new1, final⟩ := node
  simp only [STObject.getFName] at h
  subst h
  cases t with
  | none => rfl
  | some t => cases t <;> rfl

theorem selectedFieldSet_cases (node : STObject) :
    (node.getFName = SField.sfCreatedNode → selectedFieldSet node = node.sfNewFields) ∧
    (node.getFName = SField.sfModifiedNode → selectedFieldSet node = node.sfPreviousFields) ∧
    (node.getFName = SField.sfDeletedNode → selectedFieldSet node = node.sfFinalFields) := by
  obtain ⟨fName, t, prev, new1, final⟩ := node
  refine ⟨?_, ?_, ?_⟩ <;> intro h <;> simp only [STObject.getFName] at h <;> subst h <;> rfl

/-- C11. Field-set selection. What `processTxn` does for a node is to call `publish` on
the registry registered for the pair read from the selected field-set of the node, the
node being an offer: the new fields of a created node, the previous fields of a modified
node, the final fields of a deleted node. The two other field-sets are not read: putting
anything in their place changes nothing. A node whose ledger-entry type is not offer,
whose name is none of the three, or whose selected field-set is absent leaves the state
as it is, so no `publish` is called. -/
theorem C11_field_set_selection (w : World) (node : STObject) (jvObj : JsonValue) :
    (processNode w node jvObj).getD w = routed w (nodeRegistry w.db node) jvObj ∧
    (node.getFName = SField.sfCreatedNode →
      selectedFieldSet node = node.sfNewFields ∧
      ∀ x y, processNode w { node with sfPreviousFields := x, sfFinalFields := y } jvObj =
        processNode w node jvObj) ∧
    (node.getFName = SField.sfModifiedNode →
      selectedFieldSet node = node.sfPreviousFields ∧
      ∀ x y, processNode w { node with sfNewFields := x, sfFinalFields := y } jvObj =
        processNode w node jvObj) ∧
    (node.getFName = SField.sfDeletedNode →
      selectedFieldSet node = node.sfFinalFields ∧
      ∀ x y, processNode w { node with sfPreviousFields := x, sfNewFields := y } jvObj =
        processNode w node jvObj) ∧
    ((node.sfLedgerEntryType ≠ some LedgerEntryType.ltOFFER ∨
       (node.getFName ≠ SField.sfCreatedNode ∧ node.getFName ≠ SField.sfModifiedNode ∧
         node.getFName ≠ SField.sfDeletedNode) ∨
       selectedFieldSet node = none) →
      (processNode w node jvObj).getD w = w ∧
      w.processTxn { mResult := tesSUCCESS, mNodes := [node] } jvObj = w) := by
  refine ⟨processNode_eq w node jvObj, ?_, ?_, ?_, ?_⟩
  · intro h
    exact ⟨(selectedFieldSet_cases node).1 h, processNode_created w node jvObj h⟩
  · intro h
    exact ⟨(selectedFieldSet_cases node).2.1 h, processNode_modified w node jvObj h⟩
  · intro h
    exact ⟨(selectedFieldSet_cases node).2.2 h, processNode_deleted w node jvObj h⟩
  · intro h
    have hnone : nodeRegistry w.db node = none := by
      rcases h with h | ⟨h1, h2, h3⟩ | h
      · exact nodeRegistry_none w.db node (Or.inl h)
      · exact nodeRegistry_none w.db node
          (Or.inr (selectedFieldSet_none_of_other node h1 h2 h3))
      · exact nodeRegistry_none w.db node (Or.inr h)
    have hstep : (processNode w node jvObj).getD w = w := by
      rw [processNode_eq, hnone]
      rfl
    refine ⟨hstep, ?_⟩
    have hp : w.processTxn { mResult := tesSUCCESS, mNodes := [node] } jvObj =
        processNodes w [node] jvObj := by
      simp [World.processTxn, ALTransaction.getResult, ALTransaction.getNodes]
    rw [hp, processNodes_cons, hnone]
    rfl

/-- C11 at the sample world: the created node is routed by its new fields (registry 0,
registered for pay (1,2) and get (3,4)) whatever its other field-sets hold, and the
modified node without previous fields causes no publish although its final fields name
the same pair. -/
theorem C11_field_set_selection_witness :
    (processNode sampleWorld createdNode 42).getD sampleWorld =
      routed sampleWorld (some 0) 42 ∧
    (∀ x y, processNode sampleWorld
        { createdNode with sfPreviousFields := x, sfFinalFields := y } 42 =
      processNode sampleWorld createdNode 42) ∧
    sampleWorld.processTxn { mResult := tesSUCCESS, mNodes := [modifiedNoPrevious] } 42 =
      sampleWorld :=
  ⟨(C11_field_set_selection sampleWorld createdNode 42).1.trans (by decide),
   ((C11_field_set_selection sampleWorld createdNode 42).2.1 rfl).2,
   ((C11_field_set_selection sampleWorld modifiedNoPrevious 42).2.2.2.2
      (Or.inr (Or.inr rfl))).2⟩

/-! ## C12: per-record error isolation -/

theorem processNode_none_iff (w : World) (node : STObject) (jvObj : JsonValue) :
    processNode w node jvObj = none ↔ extractionFails node = true := by
  have key : ∀ (data : Option FieldSet),
      (match data with
        | none => some w
        | some data =>
          match getFieldAmount data.sfTakerGets with
          | none => none
          | some takerGets =>
            match getFieldAmount data.sfTakerPays with
            | none => none
            | some takerPays =>
              match w.db.getBookListeners takerPays.getCurrency takerGets.getCurrency
                  takerPays.getIssuer takerGets.getIssuer with
              | some book =>
                some { w.publish book jvObj with
                       published := w.published ++ [(book, jvObj)] }
              | none => some w) = none ↔
      (match data with
        | some data => data.sfTakerPays.isNone || data.sfTakerGets.isNone
        | none => false) = true := by
    intro data
    cases data with
    | none => simp
    | some data =>
      obtain ⟨pays, gets⟩ := data
      cases pays <;> cases gets <;> simp [getFieldAmount]
      rename_i p g
      cases w.db.getBookListeners p.getCurrency g.getCurrency p.getIssuer g.getIssuer <;> simp
  obtain ⟨fName, t, prev, new1, final⟩ := node
  cases t with
  | none => simp [processNode, extractionFails, getFieldU16]
  | some t =>
    cases t
    case ltOFFER =>
      cases fName
      case sfModifiedNode => exact key prev
      case sfCreatedNode => exact key new1
      case sfDeletedNode => exact key final
      all_goals simp [processNode, extractionFails, getFieldU16, selectedFieldSet,
        STObject.getFName]
    all_goals simp [processNode, extractionFails, getFieldU16]

theorem processNodes_append (a b : List STObject) (jvObj : JsonValue) :
    ∀ (w : World), processNodes w (a ++ b) jvObj =
      processNodes (processNodes w a jvObj) b jvObj := by
  induction a with
  | nil => intro w; rfl
  | cons node rest ih =>
    intro w
    rw [List.cons_append, processNodes_cons, processNodes_cons, ih]

theorem processNodes_skip (w : World) (bad : STObject) (rest : List STObject)
    (jvObj : JsonValue) (h : processNode w bad jvObj = none) :
    processNodes w (bad :: rest) jvObj = processNodes w rest jvObj := by
  simp only [processNodes, h]

/-- C12. Per-record error isolation. The `try` block raises for a node exactly when
extraction fails on it (ledger-entry type missing, or an offer whose selected field-set
lacks taker-pays or taker-gets). For a metadata node list `A ++ [bad] ++ B` where
extraction fails on `bad`, `processTxn` completes and leaves the same state as for
`A ++ B`: the same calls of `publish` in the same order, the same deliveries, the same
registries. -/
theorem C12_error_isolation (w : World) (A B : List STObject) (bad : STObject)
    (jvObj : JsonValue) (result : TER) (hbad : extractionFails bad = true) :
    (∀ (w2 : World) (node : STObject),
      processNode w2 node jvObj = none ↔ extractionFails node = true) ∧
    w.processTxn { mResult := result, mNodes := A ++ [bad] ++ B } jvObj =
      w.processTxn { mResult := result, mNodes := A ++ B } jvObj ∧
    (w.processTxn { mResult := result, mNodes := A ++ [bad] ++ B } jvObj).published =
      (w.processTxn { mResult := result, mNodes := A ++ B } jvObj).published := by
  have hmain : w.processTxn { mResult := result, mNodes := A ++ [bad] ++ B } jvObj =
      w.processTxn { mResult := result, mNodes := A ++ B } jvObj := by
    simp only [World.processTxn, ALTransaction.getResult, ALTransaction.getNodes]
    split
    · rw [List.append_assoc, List.singleton_append, processNodes_append,
        processNodes_append A B jvObj w]
      exact processNodes_skip _ bad B jvObj
        ((processNode_none_iff _ bad jvObj).mpr hbad)
    · rfl
  exact ⟨fun w2 node => processNode_none_iff w2 node jvObj, hmain, by rw [hmain]⟩

/-- C12 at the sample world: a deleted offer node without taker-gets, put between two
routed nodes, changes nothing; both routed nodes are published. -/
theorem C12_error_isolation_witness :
    sampleWorld.processTxn
        { mResult := tesSUCCESS, mNodes := sampleTx.mNodes ++ [badNode] ++ [createdNode] }
        42 =
      sampleWorld.processTxn
        { mResult := tesSUCCESS, mNodes := sampleTx.mNodes ++ [createdNode] } 42 ∧
    (sampleWorld.processTxn
        { mResult := tesSUCCESS, mNodes := sampleTx.mNodes ++ [badNode] ++ [createdNode] }
        42).published = [(0, 42), (0, 42)] :=
  have h := C12_error_isolation sampleWorld sampleTx.mNodes [createdNode] badNode 42
    tesSUCCESS (by decide)
  ⟨h.2.1, h.2.2.trans (by decide)⟩

/-! ## C13: failed transactions are ignored -/

/-- C13. Failed transactions are ignored. For a transaction whose result is not
`tesSUCCESS`, whatever its metadata nodes, `processTxn` leaves the whole state as it is:
no call of `publish` is made, no delivery is made, and the index and every subscriber
registry are unchanged. -/
theorem C13_failed_transactions_ignored (w : World) (alTx : ALTransaction)
    (jvObj : JsonValue) (hfail : alTx.getResult ≠ tesSUCCESS) :
    w.processTxn alTx jvObj = w ∧
    (w.processTxn alTx jvObj).published = w.published ∧
    (w.processTxn alTx jvObj).sent = w.sent ∧
    (w.processTxn alTx jvObj).db = w.db ∧
    (w.processTxn alTx jvObj).heap = w.heap := by
  have h : w.processTxn alTx jvObj = w := by
    unfold World.processTxn
    rw [if_neg hfail]
  rw [h]
  exact ⟨rfl, rfl, rfl, rfl, rfl⟩

/-- C13 at the sample world: the transaction that is routed when successful does nothing
under a failure code. -/
theorem C13_failed_transactions_ignored_witness :
    sampleWorld.processTxn failedTx 42 = sampleWorld ∧
    (sampleWorld.processTxn sampleTx 42).published = [(0, 42)] :=
  ⟨(C13_failed_transactions_ignored sampleWorld failedTx 42 (by decide)).1, by decide⟩

/-! ## C14: get-or-create -/

theorem makeBookListeners_present (w : World) (cp cg ip ig : uint160) (h : BookListenersPtr)
    (hreg : w.db.getBookListeners cp cg ip ig = some h) :
    w.makeBookListeners cp cg ip ig = (w, h) := by
  simp only [World.makeBookListeners, hreg]

theorem makeBookListeners_absent (w : World) (cp cg ip ig : uint160)
    (hreg : w.db.getBookListeners cp cg ip ig = none) :
    w.makeBookListeners cp cg ip ig =
      ({ w with
         heap := w.heap ++ [{ mListeners := [] }]
         db := { w.db with
                 mListeners := setListener w.db.mListeners cp cg ip ig w.heap.length } },
       w.heap.length) := by
  simp only [World.makeBookListeners, hreg]

theorem makeBookListeners_lookup (w : World) (cp cg ip ig cp2 cg2 ip2 ig2 : uint160) :
    (w.makeBookListeners cp cg ip ig).1.db.getBookListeners cp2 cg2 ip2 ig2 =
      if cp2 = cp ∧ cg2 = cg ∧ ip2 = ip ∧ ig2 = ig then
        some (w.makeBookListeners cp cg ip ig).2
      else w.db.getBookListeners cp2 cg2 ip2 ig2 := by
  cases hreg : w.db.getBookListeners cp cg ip ig with
  | some h =>
    rw [makeBookListeners_present w cp cg ip ig h hreg]
    split
    · rename_i he
      obtain ⟨e1, e2, e3, e4⟩ := he
      subst e1 e2 e3 e4
      exact hreg
    · rfl
  | none =>
    rw [makeBookListeners_absent w cp cg ip ig hreg]
    exact getBookListeners_setListener w.db cp cg ip ig w.heap.length cp2 cg2 ip2 ig2

theorem registry_append_new (heap : List BookListeners) (x d : BookListeners) :
    (heap ++ [x]).getD heap.length d = x := by
  simp [List.getD_eq_getElem?_getD]

theorem registry_append_old (heap : List BookListeners) (x d : BookListeners) (h : Nat)
    (hlt : h < heap.length) : (heap ++ [x]).getD h d = heap.getD h d := by
  simp only [List.getD_eq_getElem?_getD]
  rw [List.getElem?_append_left hlt]

/-- C14. Get-or-create. When a registry is registered for the 4-tuple,
`makeBookListeners` returns its handle and leaves the state as it is. Otherwise it
returns the handle of a new `BookListeners` object with no subscribers (a handle that no
4-tuple was registered to, in a well-formed state), existing objects, both maps, the
version and everything else being unchanged. Either way, afterwards `getBookListeners`
for the same 4-tuple returns that handle, a second `makeBookListeners` returns the same
handle and changes nothing, and `getBookListeners` for every other 4-tuple returns what
it did before, in particular for the 4-tuple with pay and get sides swapped. -/
theorem C14_get_or_create (w : World) (cp cg ip ig : uint160) :
    (∀ h, w.db.getBookListeners cp cg ip ig = some h →
      w.makeBookListeners cp cg ip ig = (w, h)) ∧
    (w.db.getBookListeners cp cg ip ig = none →
      (w.makeBookListeners cp cg ip ig).2 = w.heap.length ∧
      (w.makeBookListeners cp cg ip ig).1.heap = w.heap ++ [{ mListeners := [] }] ∧
      ((w.makeBookListeners cp cg ip ig).1.registry
        (w.makeBookListeners cp cg ip ig).2).mListeners = [] ∧
      (w.wellFormed → ∀ cp2 cg2 ip2 ig2,
        w.db.getBookListeners cp2 cg2 ip2 ig2 ≠ some (w.makeBookListeners cp cg ip ig).2) ∧
      (∀ h, h < w.heap.length →
        (w.makeBookListeners cp cg ip ig).1.registry h = w.registry h) ∧
      (w.makeBookListeners cp cg ip ig).1.db.mSeq = w.db.mSeq ∧
      (w.makeBookListeners cp cg ip ig).1.db.mSourceMap = w.db.mSourceMap ∧
      (w.makeBookListeners cp cg ip ig).1.db.mDestMap = w.db.mDestMap ∧
      (w.makeBookListeners cp cg ip ig).1.live = w.live ∧
      (w.makeBookListeners cp cg ip ig).1.sent = w.sent ∧
      (w.makeBookListeners cp cg ip ig).1.published = w.published) ∧
    (w.makeBookListeners cp cg ip ig).1.db.getBookListeners cp cg ip ig =
      some (w.makeBookListeners cp cg ip ig).2 ∧
    (w.makeBookListeners cp cg ip ig).1.makeBookListeners cp cg ip ig =
      ((w.makeBookListeners cp cg ip ig).1, (w.makeBookListeners cp cg ip ig).2) ∧
    (∀ cp2 cg2 ip2 ig2, ¬ (cp2 = cp ∧ cg2 = cg ∧ ip2 = ip ∧ ig2 = ig) →
      (w.makeBookListeners cp cg ip ig).1.db.getBookListeners cp2 cg2 ip2 ig2 =
        w.db.getBookListeners cp2 cg2 ip2 ig2) ∧
    (¬ (cp = cg ∧ ip = ig) →
      (w.makeBookListeners cp cg ip ig).1.db.getBookListeners cg cp ig ip =
        w.db.getBookListeners cg cp ig ip) := by
  have hself : (w.makeBookListeners cp cg ip ig).1.db.getBookListeners cp cg ip ig =
      some (w.makeBookListeners cp cg ip ig).2 := by
    rw [makeBookListeners_lookup, if_pos ⟨rfl, rfl, rfl, rfl⟩]
  have hother : ∀ cp2 cg2 ip2 ig2, ¬ (cp2 = cp ∧ cg2 = cg ∧ ip2 = ip ∧ ig2 = ig) →
      (w.makeBookListeners cp cg ip ig).1.db.getBookListeners cp2 cg2 ip2 ig2 =
        w.db.getBookListeners cp2 cg2 ip2 ig2 := by
    intro cp2 cg2 ip2 ig2 hne
    rw [makeBookListeners_lookup, if_neg hne]
  refine ⟨makeBookListeners_present w cp cg ip ig, ?_, hself,
    makeBookListeners_present _ cp cg ip ig _ hself, hother, ?_⟩
  · intro hreg
    rw [makeBookListeners_absent w cp cg ip ig hreg]
    refine ⟨rfl, rfl, ?_, ?_, ?_, rfl, rfl, rfl, rfl, rfl, rfl⟩
    · simp only [World.registry]
      rw [registry_append_new]
    · intro hw cp2 cg2 ip2 ig2 hq
      exact absurd (hw.1 cp2 cg2 ip2 ig2 _ hq) (Nat.lt_irrefl _)
    · intro h hlt
      simp only [World.registry]
      rw [registry_append_old _ _ _ h hlt]
  · intro hne
    exact hother cg cp ig ip (fun he => hne ⟨he.1.symm, he.2.2.1.symm⟩)

/-- C14 at the sample world: registry 0 is returned for pay (1,2) and get (3,4); for the
swapped pair a new empty registry gets handle 1, and registry 0 stays registered. -/
theorem C14_get_or_create_witness :
    sampleWorld.makeBookListeners 1 3 2 4 = (sampleWorld, 0) ∧
    (sampleWorld.makeBookListeners 3 1 4 2).2 = 1 ∧
    ((sampleWorld.makeBookListeners 3 1 4 2).1.registry 1).mListeners = [] ∧
    (sampleWorld.makeBookListeners 3 1 4 2).1.db.getBookListeners 3 1 4 2 = some 1 ∧
    (sampleWorld.makeBookListeners 3 1 4 2).1.db.getBookListeners 1 3 2 4 = some 0 :=
  ⟨(C14_get_or_create sampleWorld 1 3 2 4).1 0 (by decide),
   ((C14_get_or_create sampleWorld 3 1 4 2).2.1 (by decide)).1,
   ((C14_get_or_create sampleWorld 3 1 4 2).2.1 (by decide)).2.2.1,
   (C14_get_or_create sampleWorld 3 1 4 2).2.2.1.trans (by decide),
   ((C14_get_or_create sampleWorld 3 1 4 2).2.2.2.2.2 (by decide)).trans (by decide)⟩

/-! ## C15: the lookup of a registry only reads -/

theorem processTxn_db (w : World) (alTx : ALTransaction) (jvObj : JsonValue) :
    (w.processTxn alTx jvObj).db = w.db := by
  unfold World.processTxn
  split
  · exact (processNodes_frame alTx.getNodes jvObj w 0).1
  · rfl

theorem call_keeps_absent (getBookBase : BookBase) (pol : AbsentRead) (w : World)
    (c : Call) (cp cg ip ig : uint160)
    (hreg : w.db.getBookListeners cp cg ip ig = none)
    (hc : c ≠ Call.makeBookListeners cp cg ip ig) :
    (w.call getBookBase pol c).db.getBookListeners cp cg ip ig = none := by
  cases c with
  | setup ledger =>
    rw [← hreg]
    exact getBookListeners_congr _ _ (world_setup_frame getBookBase pol w ledger).1 _ _ _ _
  | makeBookListeners cp2 cg2 ip2 ig2 =>
    have hne : ¬ (cp = cp2 ∧ cg = cg2 ∧ ip = ip2 ∧ ig = ig2) := by
      rintro ⟨e1, e2, e3, e4⟩
      subst e1 e2 e3 e4
      exact hc rfl
    have h := makeBookListeners_lookup w cp2 cg2 ip2 ig2 cp cg ip ig
    rw [if_neg hne] at h
    exact h.trans hreg
  | processTxn alTx jvObj =>
    have h : (w.call getBookBase pol (Call.processTxn alTx jvObj)).db = w.db :=
      processTxn_db w alTx jvObj
    rw [h]
    exact hreg
  | invalidate => exact hreg
  | getBooksByTakerPays _ _ => exact hreg
  | getBooksByTakerGets _ _ => exact hreg
  | getBookListeners _ _ _ _ => exact hreg
  | addSubscriber _ _ => exact hreg
  | removeSubscriber _ _ => exact hreg
  | release _ => exact hreg

theorem run_keeps_absent (getBookBase : BookBase) (pol : AbsentRead) (calls : List Call)
    (cp cg ip ig : uint160) :
    ∀ (w : World), w.db.getBookListeners cp cg ip ig = none →
      (∀ c ∈ calls, c ≠ Call.makeBookListeners cp cg ip ig) →
      (w.run getBookBase pol calls).db.getBookListeners cp cg ip ig = none := by
  induction calls with
  | nil => intro w hreg _; exact hreg
  | cons c rest ih =>
    intro w hreg hall
    exact ih _ (call_keeps_absent getBookBase pol w c cp cg ip ig hreg
        (hall c (List.mem_cons_self _ _)))
      (fun c2 hc2 => hall c2 (List.mem_cons_of_mem _ hc2))

/-- C15. Read-only listener lookup. In a state reached from a new index by calls none of
which is `makeBookListeners` for the 4-tuple, `getBookListeners` returns none for it.
The lookup only reads: the call leaves the state, and so the listener registry at every
nesting level, as it is. Consequently `processTxn` leaves the index as it is, whatever
the transaction: the listener registry is the same before and after, and so is the
answer of `getBookListeners` for every 4-tuple. -/
theorem C15_read_only_lookup (getBookBase : BookBase) (pol : AbsentRead) (w : World)
    (cp cg ip ig : uint160) (live : List Nat) (calls : List Call)
    (alTx : ALTransaction) (jvObj : JsonValue)
    (hcalls : ∀ c ∈ calls, c ≠ Call.makeBookListeners cp cg ip ig) :
    ((World.fresh live).run getBookBase pol calls).db.getBookListeners cp cg ip ig = none ∧
    w.call getBookBase pol (Call.getBookListeners cp cg ip ig) = w ∧
    (w.processTxn alTx jvObj).db.mListeners = w.db.mListeners ∧
    (∀ cp2 cg2 ip2 ig2,
      (w.processTxn alTx jvObj).db.getBookListeners cp2 cg2 ip2 ig2 =
        w.db.getBookListeners cp2 cg2 ip2 ig2) := by
  refine ⟨?_, rfl, ?_, ?_⟩
  · apply run_keeps_absent getBookBase pol calls cp cg ip ig _ _ hcalls
    simp [World.fresh, OrderBookDB.new, OrderBookDB.getBookListeners, mapFind]
  · rw [processTxn_db]
  · intro cp2 cg2 ip2 ig2
    rw [processTxn_db]

/-- C15 at a new index: after a registry was made for pay (1,2), get (3,4), a rebuild
and a routed transaction, no registry is there for the pair (8,8)/(9,9) of `otherTx`, and
routing `otherTx` creates none. -/
theorem C15_read_only_lookup_witness :
    ((World.fresh [100]).run pairBase AbsentRead.raises
        [Call.makeBookListeners 1 3 2 4, Call.setup sampleLedger,
         Call.processTxn sampleTx 42]).db.getBookListeners 8 9 8 9 = none ∧
    (sampleWorld.processTxn otherTx 42).db.mListeners = sampleWorld.db.mListeners :=
  have h := C15_read_only_lookup pairBase AbsentRead.raises sampleWorld 8 9 8 9 [100]
    [Call.makeBookListeners 1 3 2 4, Call.setup sampleLedger, Call.processTxn sampleTx 42]
    otherTx 42
    (by
      intro c hc
      simp only [List.mem_cons, List.mem_singleton, List.not_mem_nil, or_false] at hc
      rcases hc with rfl | rfl | rfl
      · intro he
        injection he with e1
        exact absurd e1 (by decide)
      · intro he
        cases he
      · intro he
        cases he)
  ⟨h.1, h.2.2.1⟩

/-! ## C16: lookup result -/

/-- C16. Lookup result. `getBooksByTakerPays` sets the output to the list stored in the
source map under the key (currency, issuer), or to the empty list when the key is absent;
`getBooksByTakerGets` does the same against the destination map. What the output held
before does not matter, the call leaves the state as it is, and on a newly constructed
index both return the empty list for every key. -/
theorem C16_lookup_result (getBookBase : BookBase) (pol : AbsentRead) (w : World)
    (issuerID currencyID : uint160) (bookRet bookRet2 : List OrderBook) :
    (∀ books, mapFind w.db.mSourceMap (currencyIssuer_ct currencyID issuerID) = some books →
      w.db.getBooksByTakerPays issuerID currencyID bookRet = books) ∧
    (mapFind w.db.mSourceMap (currencyIssuer_ct currencyID issuerID) = none →
      w.db.getBooksByTakerPays issuerID currencyID bookRet = []) ∧
    (∀ books, mapFind w.db.mDestMap (currencyIssuer_ct currencyID issuerID) = some books →
      w.db.getBooksByTakerGets issuerID currencyID bookRet = books) ∧
    (mapFind w.db.mDestMap (currencyIssuer_ct currencyID issuerID) = none →
      w.db.getBooksByTakerGets issuerID currencyID bookRet = []) ∧
    w.db.getBooksByTakerPays issuerID currencyID bookRet =
      w.db.getBooksByTakerPays issuerID currencyID bookRet2 ∧
    w.db.getBooksByTakerGets issuerID currencyID bookRet =
      w.db.getBooksByTakerGets issuerID currencyID bookRet2 ∧
    w.call getBookBase pol (Call.getBooksByTakerPays issuerID currencyID) = w ∧
    w.call getBookBase pol (Call.getBooksByTakerGets issuerID currencyID) = w ∧
    OrderBookDB.new.getBooksByTakerPays issuerID currencyID bookRet = [] ∧
    OrderBookDB.new.getBooksByTakerGets issuerID currencyID bookRet = [] := by
  refine ⟨?_, ?_, ?_, ?_, rfl, rfl, rfl, rfl, rfl, rfl⟩
  · intro books h
    simp only [OrderBookDB.getBooksByTakerPays, h]
  · intro h
    simp only [OrderBookDB.getBooksByTakerPays, h]
  · intro books h
    simp only [OrderBookDB.getBooksByTakerGets, h]
  · intro h
    simp only [OrderBookDB.getBooksByTakerGets, h]

/-- C16 at the index of the sample ledger: the stored list for a key that is present,
the empty list for a key that is absent, whatever the output held. -/
theorem C16_lookup_result_witness :
    sampleIndex.getBooksByTakerPays 2 1 [⟨0, 0, 0, 0, 0⟩] = [⟨pairBase 1 2 3 4, 1, 3, 2, 4⟩] ∧
    sampleIndex.getBooksByTakerGets 2 1 [] = [⟨pairBase 3 4 1 2, 3, 1, 4, 2⟩] ∧
    sampleIndex.getBooksByTakerPays 1 2 [⟨0, 0, 0, 0, 0⟩] = [] :=
  have h := C16_lookup_result pairBase AbsentRead.raises
    { db := sampleIndex, heap := [], live := [], sent := [], published := [] }
  ⟨(h 2 1 [⟨0, 0, 0, 0, 0⟩] []).1 _ (by decide),
   (h 2 1 [] []).2.2.1 _ (by decide),
   (h 1 2 [⟨0, 0, 0, 0, 0⟩] []).2.1 (by decide)⟩

/-! ## C17: invalidate frame -/

/-- C17. Invalidate frame. `invalidate` sets the version to 0 and leaves the source map,
the destination map and the listener registry as they are, so both book lookups and the
listener lookup return after it what they returned before; nothing outside the index is
touched. -/
theorem C17_invalidate_frame (getBookBase : BookBase) (pol : AbsentRead) (w : World)
    (issuerID currencyID : uint160) (bookRet : List OrderBook)
    (cp cg ip ig : uint160) :
    w.db.invalidate.mSeq = 0 ∧
    w.db.invalidate.mSourceMap = w.db.mSourceMap ∧
    w.db.invalidate.mDestMap = w.db.mDestMap ∧
    w.db.invalidate.mListeners = w.db.mListeners ∧
    w.db.invalidate.getBooksByTakerPays issuerID currencyID bookRet =
      w.db.getBooksByTakerPays issuerID currencyID bookRet ∧
    w.db.invalidate.getBooksByTakerGets issuerID currencyID bookRet =
      w.db.getBooksByTakerGets issuerID currencyID bookRet ∧
    w.db.invalidate.getBookListeners cp cg ip ig = w.db.getBookListeners cp cg ip ig ∧
    w.call getBookBase pol Call.invalidate = { w with db := w.db.invalidate } := by
  exact ⟨rfl, rfl, rfl, rfl, rfl, rfl, rfl, rfl⟩

/-! ## C18: subscribe and unsubscribe -/

theorem mapFind_mapErase {κ ν : Type} [DecidableEq κ] (m : List (κ × ν)) (k k2 : κ) :
    mapFind (mapErase m k) k2 = if k = k2 then none else mapFind m k2 := by
  induction m with
  | nil => by_cases h : k = k2 <;> simp [mapErase, mapFind, h]
  | cons p rest ih =>
    obtain ⟨a, x⟩ := p
    by_cases h1 : a = k
    · subst h1
      by_cases h2 : a = k2
      · subst h2
        simp [mapErase, ih]
      · simp [mapErase, mapFind, ih, h2]
    · by_cases h2 : k = k2
      · subst h2
        simp [mapErase, mapFind, h1, ih]
      · by_cases h3 : a = k2
        · subst h3
          simp [mapErase, mapFind, h1, h2]
        · simp [mapErase, mapFind, h1, h2, h3, ih]

theorem mem_mapErase {κ ν : Type} [DecidableEq κ] (m : List (κ × ν)) (k : κ) (p : κ × ν) :
    p ∈ mapErase m k ↔ p ∈ m ∧ p.1 ≠ k := by
  induction m with
  | nil => simp [mapErase]
  | cons q rest ih =>
    obtain ⟨a, x⟩ := q
    by_cases h1 : a = k
    · subst h1
      simp only [mapErase, if_true, ih, List.mem_cons]
      constructor
      · rintro ⟨h, hne⟩
        exact ⟨Or.inr h, hne⟩
      · rintro ⟨h | h, hne⟩
        · exact absurd (congrArg Prod.fst h) hne
        · exact ⟨h, hne⟩
    · simp only [mapErase, h1, if_false, List.mem_cons, ih]
      constructor
      · rintro (h | ⟨h, hne⟩)
        · exact ⟨Or.inl h, by rw [h]; exact h1⟩
        · exact ⟨Or.inr h, hne⟩
      · rintro ⟨h | h, hne⟩
        · exact Or.inl h
        · exact Or.inr ⟨h, hne⟩

theorem mapErase_of_not_mem {κ ν : Type} [DecidableEq κ] (m : List (κ × ν)) (k : κ)
    (h : k ∉ m.map Prod.fst) : mapErase m k = m := by
  induction m with
  | nil => rfl
  | cons q rest ih =>
    obtain ⟨a, x⟩ := q
    simp only [List.map_cons, List.mem_cons, not_or] at h
    have h1 : ¬ a = k := fun e => h.1 e.symm
    simp only [mapErase, h1, if_false, ih h.2]

theorem mem_mapSet_ne {κ ν : Type} [DecidableEq κ] (m : List (κ × ν)) (k : κ) (v : ν)
    (p : κ × ν) (hp : p.1 ≠ k) : p ∈ mapSet m k v ↔ p ∈ m := by
  induction m with
  | nil =>
    simp only [mapSet, List.mem_singleton, List.not_mem_nil, iff_false]
    intro h
    exact hp (congrArg Prod.fst h)
  | cons q rest ih =>
    obtain ⟨a, x⟩ := q
    by_cases h1 : a = k
    · subst h1
      simp only [mapSet, if_true, List.mem_cons]
      constructor
      · rintro (h | h)
        · exact absurd (congrArg Prod.fst h) hp
        · exact Or.inr h
      · rintro (h | h)
        · exact absurd (congrArg Prod.fst h) hp
        · exact Or.inr h
    · simp only [mapSet, h1, if_false, List.mem_cons, ih]

/-- C18. Subscribe and unsubscribe. After `addSubscriber(sub)` the registry maps the
sequence id of `sub` to the weak handle of `sub`; its ids are those it had, with the id
of `sub` added at the end when it was not there, so a handle stored under that id is
replaced and no second entry is added (with ids held once each, the id of `sub` is held
exactly once); every entry under another id is as it was. After `removeSubscriber(seq)`
no entry is left under `seq` and every entry under another id is as it was; when `seq`
was absent the registry is unchanged. -/
theorem C18_subscribe_unsubscribe (bl : BookListeners) (sub : InfoSub) (seq : uint64) :
    mapFind (bl.addSubscriber sub).mListeners sub.getSeq = some sub.addr ∧
    (∀ s, s ≠ sub.getSeq →
      mapFind (bl.addSubscriber sub).mListeners s = mapFind bl.mListeners s) ∧
    (∀ p : uint64 × InfoSubWptr, p.1 ≠ sub.getSeq →
      (p ∈ (bl.addSubscriber sub).mListeners ↔ p ∈ bl.mListeners)) ∧
    (bl.addSubscriber sub).mListeners.map Prod.fst =
      (if sub.getSeq ∈ bl.mListeners.map Prod.fst then bl.mListeners.map Prod.fst
       else bl.mListeners.map Prod.fst ++ [sub.getSeq]) ∧
    ((bl.mListeners.map Prod.fst).Nodup →
      ((bl.addSubscriber sub).mListeners.map Prod.fst).Nodup ∧
      ((bl.addSubscriber sub).mListeners.map Prod.fst).count sub.getSeq = 1) ∧
    mapFind (bl.removeSubscriber seq).mListeners seq = none ∧
    (∀ p ∈ (bl.removeSubscriber seq).mListeners, p.1 ≠ seq) ∧
    (∀ s, s ≠ seq →
      mapFind (bl.removeSubscriber seq).mListeners s = mapFind bl.mListeners s) ∧
    (∀ p : uint64 × InfoSubWptr, p.1 ≠ seq →
      (p ∈ (bl.removeSubscriber seq).mListeners ↔ p ∈ bl.mListeners)) ∧
    (seq ∉ bl.mListeners.map Prod.fst → bl.removeSubscriber seq = bl) := by
  refine ⟨?_, ?_, ?_, ?_, ?_, ?_, ?_, ?_, ?_, ?_⟩
  · simp [BookListeners.addSubscriber, mapFind_mapSet]
  · intro s hs
    have hs2 : ¬ sub.getSeq = s := fun e => hs e.symm
    simp [BookListeners.addSubscriber, mapFind_mapSet, hs2]
  · intro p hp
    exact mem_mapSet_ne bl.mListeners sub.getSeq sub.addr p hp
  · exact mapSet_keys bl.mListeners sub.getSeq sub.addr
  · intro hnd
    have hnd2 := mapSet_keys_nodup bl.mListeners sub.getSeq sub.addr hnd
    refine ⟨hnd2, ?_⟩
    apply List.count_eq_one_of_mem hnd2
    have hk := mapSet_keys bl.mListeners sub.getSeq sub.addr
    rw [hk]
    split
    · assumption
    · simp
  · simp [BookListeners.removeSubscriber, mapFind_mapErase]
  · intro p hp
    exact ((mem_mapErase bl.mListeners seq p).mp hp).2
  · intro s hs
    have hs2 : ¬ seq = s := fun e => hs e.symm
    simp [BookListeners.removeSubscriber, mapFind_mapErase, hs2]
  · intro p hp
    simp only [BookListeners.removeSubscriber, mem_mapErase]
    exact ⟨fun h => h.1, fun h => ⟨h, hp⟩⟩
  · intro h
    simp only [BookListeners.removeSubscriber, mapErase_of_not_mem bl.mListeners seq h]

/-- C18 at the registry of the sample world: subscribing an `InfoSub` with id 12 replaces
the handle under 12 and adds no entry; removing id 11 leaves the entry of id 12; removing
an id that is absent changes nothing. -/
theorem C18_subscribe_unsubscribe_witness :
    ((sampleWorld.registry 0).addSubscriber { addr := 300, mSeq := 12 }).mListeners =
      [(11, 100), (12, 300)] ∧
    (((sampleWorld.registry 0).addSubscriber { addr := 300, mSeq := 12 }).mListeners.map
      Prod.fst).count 12 = 1 ∧
    ((sampleWorld.registry 0).removeSubscriber 11).mListeners = [(12, 200)] ∧
    (sampleWorld.registry 0).removeSubscriber 13 = sampleWorld.registry 0 :=
  have h := C18_subscribe_unsubscribe (sampleWorld.registry 0) { addr := 300, mSeq := 12 } 13
  ⟨by decide, (h.2.2.2.2.1 (by decide)).2, by decide, h.2.2.2.2.2.2.2.2.2 (by decide)⟩

/-! ## C19: the book-root criterion -/

theorem reads_of_not_raises (pol : AbsentRead) (k : uint256) (e : SLE)
    (h : ¬ raisesAt pol k e) (hpass : passesRootTest pol k e) :
    ∃ ci ii co io,
      getFieldH160 pol e.sfTakerPaysCurrency = some ci ∧
      getFieldH160 pol e.sfTakerPaysIssuer = some ii ∧
      getFieldH160 pol e.sfTakerGetsCurrency = some co ∧
      getFieldH160 pol e.sfTakerGetsIssuer = some io := by
  obtain ⟨htype, hrate, hroot⟩ := hpass
  cases h1 : getFieldH160 pol e.sfTakerPaysCurrency with
  | none => exact absurd ⟨htype, hrate, Or.inr ⟨hroot, Or.inl h1⟩⟩ h
  | some ci =>
    cases h2 : getFieldH160 pol e.sfTakerPaysIssuer with
    | none => exact absurd ⟨htype, hrate, Or.inr ⟨hroot, Or.inr (Or.inr (Or.inl h2))⟩⟩ h
    | some ii =>
      cases h3 : getFieldH160 pol e.sfTakerGetsCurrency with
      | none => exact absurd ⟨htype, hrate, Or.inr ⟨hroot, Or.inr (Or.inl h3)⟩⟩ h
      | some co =>
        cases h4 : getFieldH160 pol e.sfTakerGetsIssuer with
        | none =>
          exact absurd ⟨htype, hrate, Or.inr ⟨hroot, Or.inr (Or.inr (Or.inr h4))⟩⟩ h
        | some io => exact ⟨ci, ii, co, io, rfl, rfl, rfl, rfl⟩

theorem passes_or_skipped (pol : AbsentRead) (k : uint256) (e : SLE)
    (h : ¬ raisesAt pol k e) : passesRootTest pol k e ∨ skippedAt pol k e := by
  by_cases htype : e.getType = LedgerEntryType.ltDIR_NODE
  · by_cases hrate : isFieldPresent e.sfExchangeRate = true
    · cases hroot : getFieldH256 pol e.sfRootIndex with
      | none => exact absurd ⟨htype, hrate, Or.inl hroot⟩ h
      | some root =>
        by_cases hk : root = k
        · subst hk
          exact Or.inl ⟨htype, hrate, hroot⟩
        · exact Or.inr (Or.inr (Or.inr ⟨root, hroot, hk⟩))
    · have hf : isFieldPresent e.sfExchangeRate = false := by
        cases hx : isFieldPresent e.sfExchangeRate
        · rfl
        · exact absurd hx hrate
      exact Or.inr (Or.inr (Or.inl hf))
  · exact Or.inr (Or.inl htype)

theorem not_passes_of_skipped (pol : AbsentRead) (k : uint256) (e : SLE)
    (h : skippedAt pol k e) : ¬ passesRootTest pol k e := by
  rintro ⟨htype, hrate, hroot⟩
  rcases h with h | h | ⟨root, hr, hne⟩
  · exact h htype
  · rw [hrate] at h
    exact absurd h (by simp)
  · rw [hroot] at hr
    exact hne (Option.some.inj hr).symm

/-- C19, amended. Book-root criterion. For every ledger and every index whose version
differs from the ledger's sequence number, let `setup` return. Then every state entry
either passes the book-root test (directory node, exchange rate present,
root index reading as its own key) or is skipped. Every entry that passes the test
contributes its 4-tuple, subject to dedup: its four fields read, both maps hold a book
with the book base of that 4-tuple, and when `getBookBase` separates 4-tuples the book
of that 4-tuple is returned by both lookups under its keys. No other entry contributes
anything: the ledger without a skipped entry gives the same result, and every book in
either map is the one constructed for an entry that passes the test. -/
theorem C19_book_root_criterion (getBookBase : BookBase) (pol : AbsentRead)
    (db db2 : OrderBookDB) (ledger : Ledger) (hseq : db.mSeq ≠ ledger.getLedgerSeq)
    (hsetup : db.setup getBookBase pol ledger = some (db2, Completion.returned)) :
    (∀ k e, (k, e) ∈ ledger.mAccountState →
      passesRootTest pol k e ∨ skippedAt pol k e) ∧
    (∀ k e, (k, e) ∈ ledger.mAccountState → passesRootTest pol k e →
      ∃ ci ii co io,
        getFieldH160 pol e.sfTakerPaysCurrency = some ci ∧
        getFieldH160 pol e.sfTakerPaysIssuer = some ii ∧
        getFieldH160 pol e.sfTakerGetsCurrency = some co ∧
        getFieldH160 pol e.sfTakerGetsIssuer = some io ∧
        (∃ b ∈ allBooks db2.mSourceMap, b.mBookBase = getBookBase ci ii co io) ∧
        (∃ b ∈ allBooks db2.mDestMap, b.mBookBase = getBookBase ci ii co io) ∧
        (BookBase.Injective getBookBase →
          (⟨getBookBase ci ii co io, ci, co, ii, io⟩ : OrderBook) ∈
            db2.getBooksByTakerPays ii ci [] ∧
          (⟨getBookBase ci ii co io, ci, co, ii, io⟩ : OrderBook) ∈
            db2.getBooksByTakerGets io co [])) ∧
    (∀ k e, (k, e) ∈ ledger.mAccountState → skippedAt pol k e →
      db.setup getBookBase pol (ledger.erase k) = db.setup getBookBase pol ledger) ∧
    (∀ b ∈ allBooks db2.mSourceMap, yieldsBook getBookBase pol ledger.mAccountState b) ∧
    (∀ b ∈ allBooks db2.mDestMap, yieldsBook getBookBase pol ledger.mAccountState b) := by
  obtain ⟨hdb, hc, hinv⟩ := setup_scanInv getBookBase pol db db2 ledger _ hseq hsetup
  have hnr : ∀ p ∈ ledger.mAccountState, ¬ raisesAt pol p.1 p.2 :=
    (scanList_returned_iff getBookBase pol ledger.mAccountState (scanStart db ledger) []).mp
      hc.symm
  have hprov : ∀ b ∈ allBooks db2.mSourceMap,
      yieldsBook getBookBase pol ledger.mAccountState b := by
    intro b hb
    rw [hdb] at hb
    rcases scanList_provenance getBookBase pol ledger.mAccountState _ _ b hb with h | h
    · simp [scanStart, allBooks] at h
    · exact h
  refine ⟨?_, ?_, ?_, hprov, ?_⟩
  · intro k e hentry
    exact passes_or_skipped pol k e (hnr (k, e) hentry)
  · intro k e hentry hpass
    obtain ⟨ci, ii, co, io, h1, h2, h3, h4⟩ :=
      reads_of_not_raises pol k e (hnr (k, e) hentry) hpass
    have hseen := scanList_visits getBookBase pol ledger.mAccountState (scanStart db ledger)
      [] hc.symm k e ci co ii io hentry hpass.1 hpass.2.1 hpass.2.2 h1 h3 h2 h4
    obtain ⟨b, hb, hbe⟩ := hinv.seenSrc _ hseen
    refine ⟨ci, ii, co, io, h1, h2, h3, h4, ⟨b, hb, hbe⟩,
      ⟨b, hinv.perm.mem_iff.mp hb, hbe⟩, ?_⟩
    intro hinj
    obtain ⟨hsrc, hdst⟩ := setup_root_book getBookBase pol hinj db db2 ledger hseq hsetup
      k e ci co ii io hentry hpass.1 hpass.2.1 hpass.2.2 h1 h3 h2 h4
    exact ⟨scanInv_lookup_src getBookBase db2 _ hinv _ hsrc [],
      scanInv_lookup_dst getBookBase db2 _ hinv _ hdst []⟩
  · intro k e hentry hskip
    exact setup_erase getBookBase pol db ledger k e hentry hskip
  · intro b hb
    exact hprov b (hinv.perm.mem_iff.mpr hb)

/-- C19 at the sample ledger: the book root at key 9 yields its book; the account root at
key 2 is skipped. -/
theorem C19_book_root_criterion_witness :
    (∃ ci ii co io,
      getFieldH160 AbsentRead.raises (bookRoot 9 3 4 1 2).sfTakerPaysCurrency = some ci ∧
      getFieldH160 AbsentRead.raises (bookRoot 9 3 4 1 2).sfTakerPaysIssuer = some ii ∧
      getFieldH160 AbsentRead.raises (bookRoot 9 3 4 1 2).sfTakerGetsCurrency = some co ∧
      getFieldH160 AbsentRead.raises (bookRoot 9 3 4 1 2).sfTakerGetsIssuer = some io ∧
      (∃ b ∈ allBooks sampleIndex.mSourceMap, b.mBookBase = pairBase ci ii co io) ∧
      (∃ b ∈ allBooks sampleIndex.mDestMap, b.mBookBase = pairBase ci ii co io) ∧
      (BookBase.Injective pairBase →
        (⟨pairBase ci ii co io, ci, co, ii, io⟩ : OrderBook) ∈
          sampleIndex.getBooksByTakerPays ii ci [] ∧
        (⟨pairBase ci ii co io, ci, co, ii, io⟩ : OrderBook) ∈
          sampleIndex.getBooksByTakerGets io co [])) ∧
    OrderBookDB.new.setup pairBase AbsentRead.raises (sampleLedger.erase 2) =
      OrderBookDB.new.setup pairBase AbsentRead.raises sampleLedger :=
  have h := C19_book_root_criterion pairBase AbsentRead.raises OrderBookDB.new sampleIndex
    sampleLedger (by decide) (by decide)
  ⟨h.2.1 9 (bookRoot 9 3 4 1 2) (by decide) ⟨rfl, rfl, rfl⟩,
   h.2.2.1 2 accountRoot (by decide) (Or.inl (by decide))⟩

/-- C19 fails as stated. The entry of `oddLedger` carries an exchange rate and a root
index equal to its key, but it is not a directory node, and `setup` indexes no book for
it, whichever way absent fields read. And when a read of an absent field raises, the
well-formed book root at key 9 of `malformedLedger` contributes nothing, the scan having
been left at key 5. And on the index that `setup` built from the sample ledger
(version 7), `setup` with another ledger of sequence 7 returns at once: the book root of
that ledger at key 3 passes the test and no book in either map has its base. -/
theorem C19_counterexample :
    OrderBookDB.new.setup pairBase AbsentRead.raises sampleLedger =
      some (sampleIndex, Completion.returned) ∧
    sampleIndex.setup pairBase AbsentRead.raises sampleLedgerB =
      some (sampleIndex, Completion.returned) ∧
    sampleIndex.setup pairBase AbsentRead.yieldsZero sampleLedgerB =
      some (sampleIndex, Completion.returned) ∧
    (3, bookRoot 3 8 8 9 9) ∈ sampleLedgerB.mAccountState ∧
    (bookRoot 3 8 8 9 9).getType = LedgerEntryType.ltDIR_NODE ∧
    isFieldPresent (bookRoot 3 8 8 9 9).sfExchangeRate = true ∧
    (bookRoot 3 8 8 9 9).sfRootIndex = some 3 ∧
    (∀ b ∈ allBooks sampleIndex.mSourceMap, b.mBookBase ≠ pairBase 8 8 9 9) ∧
    (∀ b ∈ allBooks sampleIndex.mDestMap, b.mBookBase ≠ pairBase 8 8 9 9) ∧
    (∀ p ∈ oddLedger.mAccountState,
      isFieldPresent p.2.sfExchangeRate = true ∧ p.2.sfRootIndex = some p.1) ∧
    OrderBookDB.new.setup pairBase AbsentRead.raises oddLedger =
      some ({ mSeq := 7, mSourceMap := [], mDestMap := [], mListeners := [] },
        Completion.returned) ∧
    OrderBookDB.new.setup pairBase AbsentRead.yieldsZero oddLedger =
      some ({ mSeq := 7, mSourceMap := [], mDestMap := [], mListeners := [] },
        Completion.returned) ∧
    (9, bookRoot 9 3 4 1 2) ∈ malformedLedger.mAccountState ∧
    OrderBookDB.new.setup pairBase AbsentRead.raises malformedLedger =
      some ({ mSeq := 7, mSourceMap := [], mDestMap := [], mListeners := [] },
        Completion.raised) := by
  refine ⟨?_, ?_, ?_, ?_, ?_, ?_, ?_, ?_, ?_, ?_, ?_, ?_, ?_, ?_⟩ <;> decide

/-! ## C20: the two maps agree -/

theorem entryBase_eq_some_iff (getBookBase : BookBase) (pol : AbsentRead) (k : uint256)
    (e : SLE) (idx : uint256) :
    entryBase getBookBase pol (k, e) = some idx ↔
      passesRootTest pol k e ∧ ∃ ci ii co io,
        getFieldH160 pol e.sfTakerPaysCurrency = some ci ∧
        getFieldH160 pol e.sfTakerPaysIssuer = some ii ∧
        getFieldH160 pol e.sfTakerGetsCurrency = some co ∧
        getFieldH160 pol e.sfTakerGetsIssuer = some io ∧
        idx = getBookBase ci ii co io := by
  unfold entryBase passesRootTest
  simp only
  by_cases hpass : e.getType = LedgerEntryType.ltDIR_NODE ∧
      isFieldPresent e.sfExchangeRate = true ∧ getFieldH256 pol e.sfRootIndex = some k
  · rw [if_pos hpass]
    cases h1 : getFieldH160 pol e.sfTakerPaysCurrency <;>
      cases h2 : getFieldH160 pol e.sfTakerPaysIssuer <;>
      cases h3 : getFieldH160 pol e.sfTakerGetsCurrency <;>
      cases h4 : getFieldH160 pol e.sfTakerGetsIssuer <;>
      simp [hpass]
    exact eq_comm
  · rw [if_neg hpass]
    simp [hpass]

/-- After a scan that returns, the book bases held by the source map are the book bases
of the book-root entries of the ledger. -/
theorem bases_eq_rootBases (getBookBase : BookBase) (pol : AbsentRead)
    (db db2 : OrderBookDB) (ledger : Ledger) (hseq : db.mSeq ≠ ledger.getLedgerSeq)
    (hsetup : db.setup getBookBase pol ledger = some (db2, Completion.returned))
    (idx : uint256) :
    idx ∈ (allBooks db2.mSourceMap).map OrderBook.mBookBase ↔
      idx ∈ rootBases getBookBase pol ledger.mAccountState := by
  obtain ⟨hdb, hc, hinv⟩ := setup_scanInv getBookBase pol db db2 ledger _ hseq hsetup
  unfold rootBases
  rw [List.mem_map, List.mem_filterMap]
  constructor
  · rintro ⟨b, hb, hbe⟩
    have hb2 := hb
    rw [hdb] at hb2
    rcases scanList_provenance getBookBase pol ledger.mAccountState _ _ b hb2 with h | h
    · simp [scanStart, allBooks] at h
    · obtain ⟨k, e, hmem, htype, hrate, hroot, h1, h2, h3, h4, hbase⟩ := h
      refine ⟨(k, e), hmem, ?_⟩
      rw [entryBase_eq_some_iff]
      exact ⟨⟨htype, hrate, hroot⟩, _, _, _, _, h1, h2, h3, h4, hbe.symm.trans hbase⟩
  · rintro ⟨p, hp, hpe⟩
    obtain ⟨k, e⟩ := p
    rw [entryBase_eq_some_iff] at hpe
    obtain ⟨⟨htype, hrate, hroot⟩, ci, ii, co, io, h1, h2, h3, h4, hidx⟩ := hpe
    have hseen := scanList_visits getBookBase pol ledger.mAccountState (scanStart db ledger)
      [] hc.symm k e ci co ii io hp htype hrate hroot h1 h3 h2 h4
    obtain ⟨b, hb, hbe⟩ := hinv.seenSrc _ hseen
    exact ⟨b, hb, hbe.trans hidx.symm⟩

/-- C20, amended. Map agreement. For every ledger and every index whose version differs
from the ledger's sequence number, after `setup`, however it ends, no book occurs twice
across the lists of the source map or across the lists of the destination map, and the
two maps hold the same books, each exactly once in each map, so they hold equally many.
When `setup` returns, the number of books in each map is the number of distinct book
bases among the book-root entries of the ledger. -/
theorem C20_map_agreement (getBookBase : BookBase) (pol : AbsentRead)
    (db db2 : OrderBookDB) (ledger : Ledger) (c : Completion)
    (hseq : db.mSeq ≠ ledger.getLedgerSeq)
    (hsetup : db.setup getBookBase pol ledger = some (db2, c)) :
    (allBooks db2.mSourceMap).Nodup ∧ (allBooks db2.mDestMap).Nodup ∧
    (allBooks db2.mSourceMap).Perm (allBooks db2.mDestMap) ∧
    (∀ b, b ∈ allBooks db2.mSourceMap ↔ b ∈ allBooks db2.mDestMap) ∧
    (∀ b ∈ allBooks db2.mSourceMap,
      (allBooks db2.mSourceMap).count b = 1 ∧ (allBooks db2.mDestMap).count b = 1) ∧
    (allBooks db2.mSourceMap).length = (allBooks db2.mDestMap).length ∧
    (c = Completion.returned →
      (allBooks db2.mSourceMap).length =
        (rootBases getBookBase pol ledger.mAccountState).dedup.length ∧
      (allBooks db2.mDestMap).length =
        (rootBases getBookBase pol ledger.mAccountState).dedup.length) := by
  obtain ⟨_, _, hinv⟩ := setup_scanInv getBookBase pol db db2 ledger c hseq hsetup
  have hs : (allBooks db2.mSourceMap).Nodup := List.Nodup.of_map _ hinv.srcNodup
  have hd : (allBooks db2.mDestMap).Nodup := hinv.perm.nodup_iff.mp hs
  refine ⟨hs, hd, hinv.perm, fun b => hinv.perm.mem_iff, ?_, hinv.perm.length_eq, ?_⟩
  · intro b hb
    exact ⟨List.count_eq_one_of_mem hs hb,
      List.count_eq_one_of_mem hd (hinv.perm.mem_iff.mp hb)⟩
  · intro hc
    subst hc
    have hperm : ((allBooks db2.mSourceMap).map OrderBook.mBookBase).Perm
        (rootBases getBookBase pol ledger.mAccountState).dedup := by
      rw [List.perm_ext_iff_of_nodup hinv.srcNodup (List.nodup_dedup _)]
      intro idx
      rw [List.mem_dedup]
      exact bases_eq_rootBases getBookBase pol db db2 ledger hseq hsetup idx
    have hlen : (allBooks db2.mSourceMap).length =
        (rootBases getBookBase pol ledger.mAccountState).dedup.length := by
      rw [← hperm.length_eq, List.length_map]
    exact ⟨hlen, hinv.perm.length_eq.symm.trans hlen⟩

/-- C20 at the sample ledger: three book-root entries, two of them with the same
4-tuple, give two books in each map. -/
theorem C20_map_agreement_witness :
    (allBooks sampleIndex.mSourceMap).Perm (allBooks sampleIndex.mDestMap) ∧
    (allBooks sampleIndex.mSourceMap).length = 2 ∧
    (allBooks sampleIndex.mDestMap).length = 2 ∧
    (rootBases pairBase AbsentRead.raises sampleLedger.mAccountState).length = 3 :=
  have h := C20_map_agreement pairBase AbsentRead.raises OrderBookDB.new sampleIndex
    sampleLedger Completion.returned (by decide) (by decide)
  ⟨h.2.2.1, (h.2.2.2.2.2.2 rfl).1.trans (by decide), (h.2.2.2.2.2.2 rfl).2.trans (by decide),
   by decide⟩

/-- C20 fails as stated. On the index that `setup` built from the sample ledger
(version 7), `setup` with another ledger of sequence 7 returns at once: each map still
holds the two books of the sample ledger, while the book-root entries of the ledger
passed have one distinct book base. -/
theorem C20_counterexample :
    OrderBookDB.new.setup pairBase AbsentRead.raises sampleLedger =
      some (sampleIndex, Completion.returned) ∧
    sampleIndex.setup pairBase AbsentRead.raises sampleLedgerB =
      some (sampleIndex, Completion.returned) ∧
    sampleIndex.setup pairBase AbsentRead.yieldsZero sampleLedgerB =
      some (sampleIndex, Completion.returned) ∧
    (allBooks sampleIndex.mSourceMap).length = 2 ∧
    (allBooks sampleIndex.mDestMap).length = 2 ∧
    (rootBases pairBase AbsentRead.raises sampleLedgerB.mAccountState).dedup.length = 1 ∧
    (rootBases pairBase AbsentRead.yieldsZero sampleLedgerB.mAccountState).dedup.length =
      1 := by
  refine ⟨?_, ?_, ?_, ?_, ?_, ?_, ?_⟩ <;> decide

end Stellard
